import Mathlib

/-!
# Verification of the paper-reader core services

A shallow embedding of the core logic of the `paper-reader` client:

* `src/services/streamingSummarizer.ts` — the incremental JSON
  reconstructor (`parseStreamedResponse` / `extractPartialFields`) and the
  streaming pipeline controller (`streamSummarize`);
* `src/services/arxiv.ts` — the retrieval gateway (`searchPapers`,
  `getLatestPapers`, `getRecentPapersFromCategories`, `fetchWithRetry`,
  `throttleRequest`, the response cache);
* `src/services/summaryCache.ts` — the long-lived summary cache.

JavaScript strings are modelled as `List Char`.  JavaScript `Map`s are
modelled as insertion-ordered association lists.  Numbers that only ever
hold timestamps or counts are modelled as `Nat`.
-/

namespace PaperReader

/-! ## JSON values

`JSON.parse` is a host primitive in the source; we model it with an
executable recursive-descent parser over the JSON grammar.  Numbers keep
their source lexeme: no claim in this development depends on numeric
semantics, only on JavaScript truthiness of the parsed value. -/

inductive Json where
  | null : Json
  | bool (b : Bool) : Json
  | num (lexeme : List Char) : Json
  | str (s : List Char) : Json
  | arr (elems : List Json) : Json
  | obj (fields : List (List Char × Json)) : Json

/-- JSON whitespace (also used for the `\s*` parts of the extraction
regexes; the texts under study contain no exotic Unicode spaces). -/
def isWs (c : Char) : Bool := c = ' ' ∨ c = '\t' ∨ c = '\n' ∨ c = '\r'

def skipWs (cs : List Char) : List Char := cs.dropWhile isWs

def hexVal (c : Char) : Option Nat :=
  if '0' ≤ c ∧ c ≤ '9' then some (c.toNat - '0'.toNat)
  else if 'a' ≤ c ∧ c ≤ 'f' then some (c.toNat - 'a'.toNat + 10)
  else if 'A' ≤ c ∧ c ≤ 'F' then some (c.toNat - 'A'.toNat + 10)
  else none

def hex4 : List Char → Option (Nat × List Char)
  | a :: b :: c :: d :: rest =>
    match hexVal a, hexVal b, hexVal c, hexVal d with
    | some x, some y, some z, some w => some (((x * 16 + y) * 16 + z) * 16 + w, rest)
    | _, _, _, _ => none
  | _ => none

/-- Decode a 16-bit escape value: Unicode scalar values become the
corresponding character; a surrogate code unit (not representable as a
Lean `Char`) is modelled by U+FFFD. -/
def uChar (n : Nat) : Char :=
  if n < 0xD800 ∨ 0xDFFF < n then Char.ofNat n else '�'

/-- The decoded character of a single-character JSON escape. -/
def escChar (e : Char) : Option Char :=
  if e = '"' then some '"'
  else if e = '\\' then some '\\'
  else if e = '/' then some '/'
  else if e = 'b' then some '\x08'
  else if e = 'f' then some '\x0c'
  else if e = 'n' then some '\n'
  else if e = 'r' then some '\r'
  else if e = 't' then some '\t'
  else none

/-- Decode after a high-surrogate `\u` escape: a following low-surrogate
escape combines into one code point, anything else leaves the (lone,
unrepresentable) surrogate as U+FFFD; `recur` is the string-body parser
for the remaining input. -/
def parseSurWith (recur : List Char → Option (List Char × List Char)) (n : Nat) :
    List Char → Option (List Char × List Char)
  | c1 :: c2 :: more =>
    if c1 = '\\' ∧ c2 = 'u' then
      match hex4 more with
      | some (m, rest4) =>
        if 0xDC00 ≤ m ∧ m ≤ 0xDFFF then
          (recur rest4).map
            (fun p => (Char.ofNat (0x10000 + (n - 0xD800) * 0x400 + (m - 0xDC00)) :: p.1, p.2))
        else (recur (c1 :: c2 :: more)).map (fun p => ('�' :: p.1, p.2))
      | none => (recur (c1 :: c2 :: more)).map (fun p => ('�' :: p.1, p.2))
    else (recur (c1 :: c2 :: more)).map (fun p => ('�' :: p.1, p.2))
  | other => (recur other).map (fun p => ('�' :: p.1, p.2))

/-- Decode one backslash escape (`e` is the character after the
backslash). -/
def parseEscWith (recur : List Char → Option (List Char × List Char)) (e : Char)
    (rest2 : List Char) : Option (List Char × List Char) :=
  if e = 'u' then
    match hex4 rest2 with
    | none => none
    | some (n, rest3) =>
      if 0xD800 ≤ n ∧ n ≤ 0xDBFF then parseSurWith recur n rest3
      else (recur rest3).map (fun p => (uChar n :: p.1, p.2))
  else
    match escChar e with
    | some d => (recur rest2).map (fun p => (d :: p.1, p.2))
    | none => none

/-- Parse a JSON string body (the part after the opening quote); returns
the decoded contents and the rest of the input after the closing quote.
Unescaped control characters are rejected, as `JSON.parse` rejects them.
No input in this development contains `\u` escapes.  The fuel argument is
structural bookkeeping only: every step consumes at least one character,
so the wrapper's fuel is never exhausted. -/
def parseJStrBodyF : Nat → List Char → Option (List Char × List Char)
  | 0, _ => none
  | fuel + 1, cs =>
    match cs with
    | [] => none
    | c :: rest =>
      if c = '"' then some ([], rest)
      else if c = '\\' then
        match rest with
        | [] => none
        | e :: rest2 => parseEscWith (parseJStrBodyF fuel) e rest2
      else if c.toNat < 32 then none
      else (parseJStrBodyF fuel rest).map (fun p => (c :: p.1, p.2))

def parseJStrBody (cs : List Char) : Option (List Char × List Char) :=
  parseJStrBodyF (cs.length + 1) cs

def isDigit (c : Char) : Bool := '0' ≤ c ∧ c ≤ '9'

/-- The optional fraction part of a JSON number: the captured `.digits`
lexeme (when present) and the rest of the input. -/
def parseJNumFrac (cs : List Char) : Option (List Char) × List Char :=
  match cs with
  | '.' :: more =>
    let ds := more.takeWhile isDigit
    if ds.isEmpty then (none, cs) else (some ('.' :: ds), more.dropWhile isDigit)
  | _ => (none, cs)

/-- The optional exponent part of a JSON number. -/
def parseJNumExp (cs : List Char) : Option (List Char) × List Char :=
  match cs with
  | e :: rest =>
    if e = 'e' ∨ e = 'E' then
      let sgnRest :=
        match rest with
        | '+' :: more => ((['+'] : List Char), more)
        | '-' :: more => ((['-'] : List Char), more)
        | _ => (([] : List Char), rest)
      let ds := sgnRest.2.takeWhile isDigit
      if ds.isEmpty then (none, cs)
      else (some (e :: sgnRest.1 ++ ds), sgnRest.2.dropWhile isDigit)
    else (none, cs)
  | [] => (none, cs)

/-- Lex a JSON number (strict JSON grammar: optional minus, `0` or a
nonzero-led digit run, optional fraction, optional exponent); returns the
lexeme and the rest. -/
def parseJNum (cs : List Char) : Option (List Char × List Char) :=
  let signCs1 :=
    match cs with
    | '-' :: rest => ((['-'] : List Char), rest)
    | _ => (([] : List Char), cs)
  match signCs1.2 with
  | '0' :: rest =>
    let frac := parseJNumFrac rest
    let ex := parseJNumExp frac.2
    some (signCs1.1 ++ ['0'] ++ (frac.1.getD []) ++ (ex.1.getD []), ex.2)
  | c :: _ =>
    if isDigit c ∧ c ≠ '0' then
      let intPart := signCs1.2.takeWhile isDigit
      let frac := parseJNumFrac (signCs1.2.dropWhile isDigit)
      let ex := parseJNumExp frac.2
      some (signCs1.1 ++ intPart ++ (frac.1.getD []) ++ (ex.1.getD []), ex.2)
    else none
  | [] => none

mutual

/-- Recursive-descent JSON value parser (fuel-indexed). -/
def parseVal : Nat → List Char → Option (Json × List Char)
  | 0, _ => none
  | fuel + 1, cs =>
    match skipWs cs with
    | '{' :: rest => parseMembers fuel (skipWs rest)
    | '[' :: rest => parseElems fuel (skipWs rest)
    | '"' :: rest => (parseJStrBody rest).map (fun p => (Json.str p.1, p.2))
    | 't' :: 'r' :: 'u' :: 'e' :: rest => some (Json.bool true, rest)
    | 'f' :: 'a' :: 'l' :: 's' :: 'e' :: rest => some (Json.bool false, rest)
    | 'n' :: 'u' :: 'l' :: 'l' :: rest => some (Json.null, rest)
    | other => (parseJNum other).map (fun p => (Json.num p.1, p.2))

/-- Object members after `{` (whitespace already skipped). -/
def parseMembers : Nat → List Char → Option (Json × List Char)
  | 0, _ => none
  | fuel + 1, cs =>
    match cs with
    | '}' :: rest => some (Json.obj [], rest)
    | '"' :: rest =>
      match parseJStrBody rest with
      | some (k, r1) =>
        match skipWs r1 with
        | ':' :: r2 =>
          match parseVal fuel r2 with
          | some (v, r3) =>
            match skipWs r3 with
            | ',' :: r4 =>
              match skipWs r4 with
              | '}' :: _ => none
              | r5 =>
                match parseMembers fuel r5 with
                | some (Json.obj ms, r6) => some (Json.obj ((k, v) :: ms), r6)
                | _ => none
            | '}' :: r4 => some (Json.obj [(k, v)], r4)
            | _ => none
          | none => none
        | _ => none
      | none => none
    | _ => none

/-- Array elements after `[` (whitespace already skipped). -/
def parseElems : Nat → List Char → Option (Json × List Char)
  | 0, _ => none
  | fuel + 1, cs =>
    match cs with
    | ']' :: rest => some (Json.arr [], rest)
    | _ =>
      match parseVal fuel cs with
      | some (v, r1) =>
        match skipWs r1 with
        | ',' :: r2 =>
          match skipWs r2 with
          | ']' :: _ => none
          | r3 =>
            match parseElems fuel r3 with
            | some (Json.arr vs, r4) => some (Json.arr (v :: vs), r4)
            | _ => none
        | ']' :: r2 => some (Json.arr [v], r2)
        | _ => none
      | none => none

end

/-- Model of `JSON.parse`: parse one value and require only trailing
whitespace after it. -/
def jsonParse (cs : List Char) : Option Json :=
  match parseVal (cs.length + 1) cs with
  | some (v, rest) => if skipWs rest = [] then some v else none
  | none => none

/-! ## The runtime value of a summary

`SummaryResult` in `src/types` declares six `string`/`string[]` fields,
but `parseStreamedResponse` copies whatever JSON values the provider
emitted into those fields without coercion, so the faithful runtime model
carries `Json` values. -/

structure RawSummary where
  title : Json
  keyPoints : List Json
  methodology : Json
  findings : Json
  implications : Json
  overallSummary : Json

/-- Is a JSON number lexeme a representation of zero (the only falsy
numbers JavaScript can obtain from `JSON.parse`)? -/
def numIsZero (lex : List Char) : Bool :=
  let core := (lex.dropWhile (· = '-')).takeWhile (fun c => c ≠ 'e' ∧ c ≠ 'E')
  (core.filter (· ≠ '.')).all (· = '0')

/-- JavaScript truthiness of a parsed JSON value. -/
def jsTruthy : Json → Bool
  | .null => false
  | .bool b => b
  | .num lex => ¬ numIsZero lex
  | .str s => ¬ s.isEmpty
  | .arr _ => true
  | .obj _ => true

/-- Property lookup on a parsed object: with duplicate keys, `JSON.parse`
keeps the last occurrence. -/
def objGet (o : List (List Char × Json)) (k : List Char) : Option Json :=
  (o.reverse.find? (fun p => decide (p.1 = k))).map Prod.snd

/-- Property access `parsed.k`: `undefined` (`none`) on every non-object
non-null value; access on `null` is handled by `mapParsed`. -/
def jsGet : Json → List Char → Option Json
  | .obj o, k => objGet o k
  | _, _ => none

/-- The JavaScript chain `parsed.a || parsed.b || ... || ''`: the first
truthy value among the accessed properties, else the empty string. -/
def jsOrEmpty (j : Json) (names : List (List Char)) : Json :=
  match (names.filterMap (jsGet j)).find? jsTruthy with
  | some v => v
  | none => Json.str []

def litTitle : List Char := ['t', 'i', 't', 'l', 'e']
def litKeyPoints : List Char := ['k', 'e', 'y', 'P', 'o', 'i', 'n', 't', 's']
def litMethodology : List Char := ['m', 'e', 't', 'h', 'o', 'd', 'o', 'l', 'o', 'g', 'y']
def litMethods : List Char := ['m', 'e', 't', 'h', 'o', 'd', 's']
def litFindings : List Char := ['f', 'i', 'n', 'd', 'i', 'n', 'g', 's']
def litResults : List Char := ['r', 'e', 's', 'u', 'l', 't', 's']
def litImplications : List Char := ['i', 'm', 'p', 'l', 'i', 'c', 'a', 't', 'i', 'o', 'n', 's']
def litSignificance : List Char := ['s', 'i', 'g', 'n', 'i', 'f', 'i', 'c', 'a', 'n', 'c', 'e']
def litOverallSummary : List Char :=
  ['o', 'v', 'e', 'r', 'a', 'l', 'l', 'S', 'u', 'm', 'm', 'a', 'r', 'y']
def litSummary : List Char := ['s', 'u', 'm', 'm', 'a', 'r', 'y']
def litAbstract : List Char := ['a', 'b', 's', 't', 'r', 'a', 'c', 't']

/-- The field-mapping step of `parseStreamedResponse`'s full-parse branch.
On `null` the property accesses throw a `TypeError`, which the enclosing
`try` turns into fallthrough to partial extraction; hence `none`. -/
def mapParsed : Json → Option RawSummary
  | .null => none
  | j =>
    some
      { title := jsOrEmpty j [litTitle]
        keyPoints :=
          match jsGet j litKeyPoints with
          | some (.arr xs) => xs
          | _ => []
        methodology := jsOrEmpty j [litMethodology, litMethods]
        findings := jsOrEmpty j [litFindings, litResults]
        implications := jsOrEmpty j [litImplications, litSignificance]
        overallSummary := jsOrEmpty j [litOverallSummary, litSummary, litAbstract] }

/-! ## The regex layer of `parseStreamedResponse`

`text.match(/\{[\s\S]*\}/)` spans from the first `{` to the last `}`;
the per-field fallback patterns are
`/"NAME"\s*:\s*"((?:[^"\\]|\\.)*)/` for the scalar fields,
`/"keyPoints"\s*:\s*\[([\s\S]*?)(?:\]|$)/` for the list field and
`/"((?:[^"\\]|\\.)*)"/g` for the items inside the captured array body.
Each is modelled by an executable function whose behaviour coincides with
the backtracking regex engine on these patterns (the greedy
`(?:[^"\\]|\\.)*` loop can never give back characters usefully, since the
character class cannot cross an unescaped quote). -/

/-- `text.match(/\{[\s\S]*\}/)`: the span from the first `{` to the last
`}` when that is a non-empty range, else (no match) the whole text, which
is what `parseStreamedResponse` feeds to `JSON.parse` in either case. -/
def jsonSlice (cs : List Char) : List Char :=
  match cs.findIdx? (· = '{'), cs.reverse.findIdx? (· = '}') with
  | some i, some k =>
    let j := cs.length - 1 - k
    if i < j then (cs.take (j + 1)).drop i else cs
  | _, _ => cs

/-- Match a literal character sequence at the head, returning the rest. -/
def matchLit : List Char → List Char → Option (List Char)
  | [], cs => some cs
  | _ :: _, [] => none
  | l :: ls, c :: cs => if c = l then matchLit ls cs else none

/-- The pattern `"NAME"\s*:\s*<opener>` anchored at the head of the input
(opener is `"` for scalar fields, `[` for the key-points array); returns
the input right after the opener. -/
def matchPat (name : List Char) (opener : Char) (cs : List Char) : Option (List Char) :=
  match cs with
  | '"' :: rest =>
    match matchLit (name ++ ['"']) rest with
    | some r1 =>
      match skipWs r1 with
      | ':' :: r2 =>
        match skipWs r2 with
        | c :: r3 => if c = opener then some r3 else none
        | [] => none
      | _ => none
    | none => none
  | _ => none

/-- First match of the pattern anywhere in the input (the regex engine
tries successive start positions). -/
def findPat (name : List Char) (opener : Char) : List Char → Option (List Char)
  | [] => none
  | c :: cs =>
    match matchPat name opener (c :: cs) with
    | some r => some r
    | none => findPat name opener cs

/-- The greedy capture `((?:[^"\\]|\\.)*)` with nothing after it: consume
single non-quote non-backslash characters and backslash-escaped pairs,
maximally. -/
def munchRaw : List Char → List Char
  | [] => []
  | '"' :: _ => []
  | '\\' :: [] => []
  | '\\' :: c :: rest => '\\' :: c :: munchRaw rest
  | c :: rest => c :: munchRaw rest

/-- One global replacement of the two-character pattern `a b` by `r`
 (the model of `String.prototype.replace` with a `/\\x/g` regex). -/
def replPair (a b r : Char) : List Char → List Char
  | x :: y :: rest =>
    if x = a ∧ y = b then r :: replPair a b r rest else x :: replPair a b r (y :: rest)
  | xs => xs

/-- `.replace(/\\"/g, '"').replace(/\\n/g, '\n')` applied to a capture. -/
def unescape (cs : List Char) : List Char := replPair '\\' 'n' '\n' (replPair '\\' '"' '"' cs)

/-- One scalar-field extraction of `extractPartialFields`. -/
def scalarField (name : List Char) (cs : List Char) : Option (List Char) :=
  (findPat name '"' cs).map (fun r => unescape (munchRaw r))

/-- The lazy body capture `([\s\S]*?)(?:\]|$)`: everything up to the
first `]`, or to the end of the input when there is none. -/
def upToRBracket (cs : List Char) : List Char := cs.takeWhile (· ≠ ']')

/-- The regex `"((?:[^"\\]|\\.)*)"` matched from right after an opening
quote: scan for the closing quote, skipping escaped pairs; returns the
raw capture and the rest after the closing quote.  Fails only by running
out of input. -/
def closedString : List Char → Option (List Char × List Char)
  | [] => none
  | '"' :: rest => some ([], rest)
  | '\\' :: [] => none
  | '\\' :: c :: rest => (closedString rest).map (fun p => ('\\' :: c :: p.1, p.2))
  | c :: rest => (closedString rest).map (fun p => (c :: p.1, p.2))

/-- Find the next complete quoted string in the input (the regex engine
advances one position after a failed attempt; a new attempt can only
start at a quote). -/
def findNextItem : List Char → Option (List Char × List Char)
  | [] => none
  | '"' :: rest =>
    match closedString rest with
    | some p => some p
    | none => findNextItem rest
  | _ :: rest => findNextItem rest

/-- All matches of the global quoted-string regex, in order. -/
def scanItems : Nat → List Char → List (List Char)
  | 0, _ => []
  | fuel + 1, cs =>
    match findNextItem cs with
    | some (s, r) => s :: scanItems fuel r
    | none => []

def scanAll (cs : List Char) : List (List Char) := scanItems cs.length cs

/-- The key-points extraction of `extractPartialFields`: `some` exactly
when the array pattern matched and the body contained at least one
complete quoted string (`if (points)` in the source). -/
def kpExtract (cs : List Char) : Option (List (List Char)) :=
  (findPat litKeyPoints '[' cs).bind fun r =>
    match scanAll (upToRBracket r) with
    | [] => none
    | ps => some ps

/-- `extractPartialFields`: best-effort per-field extraction; `none` when
no field pattern matched at all. -/
def extractPartialFields (cs : List Char) : Option RawSummary :=
  let t? := scalarField litTitle cs
  let kp? := kpExtract cs
  let m? := scalarField litMethodology cs
  let f? := scalarField litFindings cs
  let i? := scalarField litImplications cs
  let o? := scalarField litOverallSummary cs
  if t?.isSome ∨ kp?.isSome ∨ m?.isSome ∨ f?.isSome ∨ i?.isSome ∨ o?.isSome then
    some
      { title := Json.str (t?.getD [])
        keyPoints :=
          (((kp?.getD []).map unescape).filter (fun p => ¬ p.isEmpty)).map Json.str
        methodology := Json.str (m?.getD [])
        findings := Json.str (f?.getD [])
        implications := Json.str (i?.getD [])
        overallSummary := Json.str (o?.getD []) }
  else none

/-- `parseStreamedResponse`: full-document parse of the `{...}` slice,
falling back to per-field partial extraction. -/
def parseStreamedResponse (cs : List Char) : Option RawSummary :=
  match jsonParse (jsonSlice cs) with
  | some j =>
    match mapParsed j with
    | some r => some r
    | none => extractPartialFields cs
  | none => extractPartialFields cs

/-! ## Well-formed target summary documents

The monotonicity claim about `parseStreamedResponse` is stated over
serialized summary documents in the shape the system prompt demands: a
single flat JSON object carrying the six fields in order.  Field contents
are restricted to characters that need no JSON escaping and are not
structural (`plainChar`); the class still admits arbitrary words, spaces
and punctuation. -/

def plainChar (c : Char) : Bool :=
  c ≠ '"' ∧ c ≠ '\\' ∧ c ≠ '{' ∧ c ≠ '}' ∧ c ≠ '[' ∧ c ≠ ']' ∧ 32 ≤ c.toNat

def plainL (s : List Char) : Bool := s.all plainChar

/-- A target summary (the `SummaryResult` a well-formed provider response
denotes). -/
structure TargetSummary where
  title : List Char
  keyPoints : List (List Char)
  methodology : List Char
  findings : List Char
  implications : List Char
  overallSummary : List Char

def plainTarget (t : TargetSummary) : Bool :=
  plainL t.title && t.keyPoints.all plainL && plainL t.methodology &&
    plainL t.findings && plainL t.implications && plainL t.overallSummary

/-- One `"name":"value"` member. -/
def kvSeg (name v : List Char) : List Char := '"' :: name ++ '"' :: ':' :: '"' :: v ++ ['"']

/-- The comma-separated quoted items of the key-points array. -/
def itemsSeg : List (List Char) → List Char
  | [] => []
  | [p] => '"' :: p ++ ['"']
  | p :: ps => '"' :: p ++ '"' :: ',' :: itemsSeg ps

/-- The canonical serialization of a target summary: exactly the JSON
object layout of the system prompt, compact. -/
def serialize (t : TargetSummary) : List Char :=
  '{' :: kvSeg litTitle t.title ++
    ',' :: '"' :: litKeyPoints ++ '"' :: ':' :: '[' :: itemsSeg t.keyPoints ++
    ']' :: ',' :: kvSeg litMethodology t.methodology ++
    ',' :: kvSeg litFindings t.findings ++
    ',' :: kvSeg litImplications t.implications ++
    ',' :: kvSeg litOverallSummary t.overallSummary ++ ['}']

/-- Everything of the serialization before the closing brace. -/
def serialHead (t : TargetSummary) : List Char :=
  '{' :: kvSeg litTitle t.title ++
    ',' :: '"' :: litKeyPoints ++ '"' :: ':' :: '[' :: itemsSeg t.keyPoints ++
    ']' :: ',' :: kvSeg litMethodology t.methodology ++
    ',' :: kvSeg litFindings t.findings ++
    ',' :: kvSeg litImplications t.implications ++
    ',' :: kvSeg litOverallSummary t.overallSummary

/-- Character classes occurring in a serialized document head: plain field
content plus the structural punctuation of the layout. -/
abbrev headChar (c : Char) : Prop :=
  plainChar c = true ∨ c = '{' ∨ c = '"' ∨ c = ':' ∨ c = '[' ∨ c = ']' ∨ c = ','

/-- The `RawSummary` a target denotes. -/
def rawOf (t : TargetSummary) : RawSummary :=
  ⟨.str t.title, t.keyPoints.map .str, .str t.methodology, .str t.findings,
    .str t.implications, .str t.overallSummary⟩

/-- The JSON value `JSON.parse` yields on a full serialized target. -/
def objFor (t : TargetSummary) : Json :=
  Json.obj
    [(litTitle, .str t.title),
      (litKeyPoints, .arr (t.keyPoints.map .str)),
      (litMethodology, .str t.methodology),
      (litFindings, .str t.findings),
      (litImplications, .str t.implications),
      (litOverallSummary, .str t.overallSummary)]

/-- The complete quoted items recoverable from the first `k` characters of
a serialized key-points array body (specification-side yardstick for the
global item scan). -/
def takenItems : List (List Char) → Nat → List (List Char)
  | [], _ => []
  | p :: ps, k => if p.length + 2 ≤ k then p :: takenItems ps (k - (p.length + 3)) else []

/-- The all-empty summary value. -/
def emptyRaw : RawSummary := ⟨.str [], [], .str [], .str [], .str [], .str []⟩

/-- A scalar field's partial-extraction value after `n` characters of the
serialized document (`e` is the index just past the field's `"name":"`
pattern). -/
def fieldAt (v : List Char) (e n : Nat) : Option (List Char) :=
  if e ≤ n then some (v.take (n - e)) else none

/-- The key-points partial extraction after `n` characters. -/
def kpAt (ps : List (List Char)) (e n : Nat) : Option (List (List Char)) :=
  if e ≤ n then
    (match takenItems ps (n - e) with
    | [] => none
    | l => some l)
  else none

/-- Pattern-end offsets of the six fields in a serialized target. -/
def eTitle (_t : TargetSummary) : Nat := 10

def eKeyPoints (t : TargetSummary) : Nat := t.title.length + 25

def eMethodology (t : TargetSummary) : Nat :=
  t.title.length + (itemsSeg t.keyPoints).length + 42

def eFindings (t : TargetSummary) : Nat :=
  t.title.length + (itemsSeg t.keyPoints).length + t.methodology.length + 56

def eImplications (t : TargetSummary) : Nat :=
  t.title.length + (itemsSeg t.keyPoints).length + t.methodology.length +
    t.findings.length + 74

def eOverall (t : TargetSummary) : Nat :=
  t.title.length + (itemsSeg t.keyPoints).length + t.methodology.length +
    t.findings.length + t.implications.length + 94

/-- Closed-form model of `extractPartialFields` on the first `n` characters
of a serialized target. -/
def epfModel (t : TargetSummary) (n : Nat) : Option RawSummary :=
  let t? := fieldAt t.title (eTitle t) n
  let kp? := kpAt t.keyPoints (eKeyPoints t) n
  let m? := fieldAt t.methodology (eMethodology t) n
  let f? := fieldAt t.findings (eFindings t) n
  let i? := fieldAt t.implications (eImplications t) n
  let o? := fieldAt t.overallSummary (eOverall t) n
  if t?.isSome ∨ kp?.isSome ∨ m?.isSome ∨ f?.isSome ∨ i?.isSome ∨ o?.isSome then
    some
      { title := Json.str (t?.getD [])
        keyPoints :=
          (((kp?.getD []).map unescape).filter (fun p => ¬ p.isEmpty)).map Json.str
        methodology := Json.str (m?.getD [])
        findings := Json.str (f?.getD [])
        implications := Json.str (i?.getD [])
        overallSummary := Json.str (o?.getD []) }
  else none

/-- A non-empty extracted scalar field. -/
def jsNE (j : Json) : Prop := j ≠ Json.str []

/-- No field regresses from non-empty to empty between two parses. -/
def NoRegress (a b : Option RawSummary) : Prop :=
  ∀ r₁, a = some r₁ → ∃ r₂, b = some r₂ ∧
    (jsNE r₁.title → jsNE r₂.title) ∧
    (r₁.keyPoints ≠ [] → r₂.keyPoints ≠ []) ∧
    (jsNE r₁.methodology → jsNE r₂.methodology) ∧
    (jsNE r₁.findings → jsNE r₂.findings) ∧
    (jsNE r₁.implications → jsNE r₂.implications) ∧
    (jsNE r₁.overallSummary → jsNE r₂.overallSummary)

/-! ## Insertion-ordered maps

JavaScript `Map`s preserve insertion order; `set` of an existing key
updates in place, of a fresh key appends. -/

def mapSet {V : Type} (m : List (String × V)) (k : String) (v : V) : List (String × V) :=
  match m with
  | [] => [(k, v)]
  | (k', v') :: rest => if k' = k then (k, v) :: rest else (k', v') :: mapSet rest k v

def mapGet {V : Type} (m : List (String × V)) (k : String) : Option V :=
  (m.find? (fun p => decide (p.1 = k))).map Prod.snd

def mapDelete {V : Type} (m : List (String × V)) (k : String) : List (String × V) :=
  match m with
  | [] => []
  | (k', v') :: rest => if k' = k then rest else (k', v') :: mapDelete rest k

/-- `String.prototype.includes`. -/
def containsSub (hay needle : List Char) : Bool :=
  match hay with
  | [] => needle.isEmpty
  | _ :: tl => needle.isPrefixOf hay || containsSub tl needle

/-! ## Retrieval gateway (`src/services/arxiv.ts`) -/

def REQUEST_DELAY : Nat := 3000
def MAX_RETRIES : Nat := 3
def RETRY_DELAY : Nat := 5000

def CORS_PROXIES : List String :=
  ["", "https://api.allorigins.win/raw?url=", "https://corsproxy.io/?"]

def TARGET_CATEGORIES : List String := ["cs.CL", "cs.LG", "cs.AI", "cs.IR", "cs.CV"]

def buildLLMQuery : String :=
  String.intercalate " OR " ["\"large language model\"", "LLM", "GPT", "transformer"]

def buildCategoryQuery : String :=
  String.intercalate " OR " (TARGET_CATEGORIES.map (fun c => "cat:" ++ c))

/-- The `Partial<SearchFilters>` argument: every field optional. -/
structure SearchFilters where
  category : Option String := none
  sortBy : Option String := none
  sortOrder : Option String := none
  maxResults : Option Nat := none

/-- The `URLSearchParams` sent upstream. -/
structure QueryParams where
  search_query : String
  start : Nat
  max_results : Nat
  sortBy : String
  sortOrder : String

/-- `opt || dflt` for an optional string (empty string is falsy). -/
def strOr (o : Option String) (dflt : String) : String :=
  match o with
  | some s => if s = "" then dflt else s
  | none => dflt

/-- `Math.min(filters?.maxResults || maxResults, 10)` (zero is falsy). -/
def searchMax (maxResults : Nat) (filters : Option SearchFilters) : Nat :=
  let eff :=
    match filters with
    | some f =>
      match f.maxResults with
      | some v => if v = 0 then maxResults else v
      | none => maxResults
    | none => maxResults
  min eff 10

/-- The parameters `searchPapers` builds and sends upstream. -/
def searchPapersParams (query : Option String) (start : Nat) (maxResults : Nat)
    (filters : Option SearchFilters) : QueryParams :=
  let searchQuery := strOr query buildLLMQuery
  let sortBy := strOr (filters.bind SearchFilters.sortBy) "submittedDate"
  let sortOrder := strOr (filters.bind SearchFilters.sortOrder) "descending"
  let maxR := searchMax maxResults filters
  let finalQuery :=
    match filters.bind SearchFilters.category with
    | some c =>
      if c = "" then "(" ++ buildCategoryQuery ++ ") AND (" ++ searchQuery ++ ")"
      else "cat:" ++ c ++ " AND (" ++ searchQuery ++ ")"
    | none => "(" ++ buildCategoryQuery ++ ") AND (" ++ searchQuery ++ ")"
  { search_query := finalQuery, start := start, max_results := maxR
    sortBy := sortBy, sortOrder := sortOrder }

/-- The parameters `getRecentPapersFromCategories` builds (the first-page
branch of `getLatestPapers`). -/
def getRecentParams (maxResults : Nat) : QueryParams :=
  { search_query := "cat:cs.CL", start := 0, max_results := maxResults
    sortBy := "submittedDate", sortOrder := "descending" }

/-- `getLatestPapers`: the first page goes through
`getRecentPapersFromCategories`, later pages through `searchPapers`. -/
def getLatestPapersParams (start maxResults : Nat) : QueryParams :=
  if start = 0 then getRecentParams maxResults
  else
    searchPapersParams none start maxResults
      (some { sortBy := some "submittedDate", sortOrder := some "descending" })

/-- Split on runs of whitespace, dropping empty pieces (`split(/\s+/)`
on a trimmed string). -/
def wordsOf : List Char → List (List Char)
  | [] => []
  | c :: rest =>
    if isWs c then wordsOf rest
    else (c :: rest.takeWhile (fun x => ¬ isWs x)) :: wordsOf (rest.dropWhile (fun x => ¬ isWs x))
termination_by cs => cs.length
decreasing_by
  · simp
  · simp only [List.length_cons]
    exact Nat.lt_succ_of_le ((List.dropWhile_suffix _).length_le)

/-- `searchCustom`: keep at most the first three whitespace-separated
words of the query, joined with OR, then delegate to `searchPapers`. -/
def searchCustomParams (query : String) (start maxResults : Nat) : QueryParams :=
  let simplified :=
    String.intercalate " OR " (((wordsOf query.trim.data).take 3).map String.mk)
  searchPapersParams (some simplified) start maxResults
    (some { sortBy := some "relevance", sortOrder := some "descending" })

/-! ### `fetchWithRetry`

The environment assigns each endpoint (proxy index) an outcome: an HTTP
response with a status, or a thrown pre-response error with its
`TypeError`-ness and message.  The throttle wait before each attempt is
not part of this timeless model; the trace records attempts and the
explicit retry cooldowns. -/

inductive FetchOutcome where
  | resp (status : Nat)
  | exn (isTypeError : Bool) (msg : List Char)

inductive FetchEvent where
  | attempt (proxyIdx : Nat)
  | cooldown (ms : Nat)
deriving DecidableEq

inductive FetchResult where
  | resp (status : Nat)
  | thrown (isTypeError : Bool) (msg : List Char)
deriving DecidableEq

/-- `error instanceof TypeError && (message.includes('CORS') ||
message.includes('Failed to fetch'))`. -/
def isCORSError (isTE : Bool) (msg : List Char) : Bool :=
  isTE && (containsSub msg "CORS".data || containsSub msg "Failed to fetch".data)

/-- `fetchWithRetry` with `switchToNextProxy` inlined: 503 responses are
retried after a cooldown while budget remains; CORS-class thrown errors
advance the proxy immediately without consuming budget while a fallback
remains; other thrown errors (or CORS errors on the last proxy) are
retried after a cooldown; an exhausted budget returns the response or
rethrows the error.  Each recursive call strictly decreases
`3 * retries + (CORS_PROXIES.length - proxyIdx)`, so the fuel supplied by
`fetchWithRetry` is never exhausted. -/
def fetchGo (env : Nat → FetchOutcome) : Nat → Nat → Nat → FetchResult × List FetchEvent
  | 0, _, _ => (.thrown false [], [])
  | fuel + 1, proxyIdx, retries =>
    match env proxyIdx with
    | .resp status =>
      if status = 503 ∧ 0 < retries then
        let r := fetchGo env fuel proxyIdx (retries - 1)
        (r.1, .attempt proxyIdx :: .cooldown RETRY_DELAY :: r.2)
      else (.resp status, [.attempt proxyIdx])
    | .exn isTE msg =>
      if isCORSError isTE msg ∧ proxyIdx < CORS_PROXIES.length - 1 then
        let r := fetchGo env fuel (proxyIdx + 1) retries
        (r.1, .attempt proxyIdx :: r.2)
      else if 0 < retries then
        let r := fetchGo env fuel proxyIdx (retries - 1)
        (r.1, .attempt proxyIdx :: .cooldown RETRY_DELAY :: r.2)
      else (.thrown isTE msg, [.attempt proxyIdx])

def fetchWithRetry (env : Nat → FetchOutcome) (proxyIdx retries : Nat) :
    FetchResult × List FetchEvent :=
  fetchGo env (3 * retries + CORS_PROXIES.length + 1) proxyIdx retries

/-- `response.ok`: status in the 200 range. -/
def respOk (status : Nat) : Bool := 200 ≤ status ∧ status ≤ 299

def httpErrMsg (status : Nat) : List Char := ("HTTP error! status: " ++ toString status).data

/-- The slice of a paper record the retrieval filter inspects (the XML
parser itself is a host `DOMParser` routine outside the claims; runs are
parameterised by its output). -/
structure ArxivPaper where
  title : String
  summary : String

def llmTerms : List String :=
  ["language model", "llm", "gpt", "transformer", "bert",
   "generative", "chatgpt", "claude", "gemini", "foundation model",
   "prompt", "fine-tuning", "rlhf", "multimodal", "rag"]

def isLLMPaper (p : ArxivPaper) : Bool :=
  llmTerms.any (fun t => containsSub (p.title ++ " " ++ p.summary).toLower.data t.data)

/-- The outcome `searchPapers` produces from a fetch result (on a cache
miss): non-ok responses become thrown `HTTP error!` errors, and the
`catch` block rethrows every error to the caller. -/
def searchPapersRun (env : Nat → FetchOutcome) (papers : List ArxivPaper) :
    Except (List Char) (List ArxivPaper) :=
  match fetchWithRetry env 0 MAX_RETRIES with
  | (.resp s, _) => if respOk s then .ok papers else .error (httpErrMsg s)
  | (.thrown _ msg, _) => .error msg

def corsHintMsg : List Char :=
  "CORS 错误：无法直接访问 arXiv API。请检查网络连接或使用代理。".data

/-- The outcome `getRecentPapersFromCategories` produces from a fetch
result (on a cache miss): its `catch` block rethrows only errors whose
message mentions CORS or a fetch failure, and returns an empty list for
every other error — including the `HTTP error!` it itself throws for a
non-ok response. -/
def getRecentRun (env : Nat → FetchOutcome) (papers : List ArxivPaper) (maxResults : Nat) :
    Except (List Char) (List ArxivPaper) :=
  let body : Except (List Char) (List ArxivPaper) :=
    match fetchWithRetry env 0 MAX_RETRIES with
    | (.resp s, _) =>
      if respOk s then
        let llm := papers.filter isLLMPaper
        .ok (if 5 ≤ llm.length then llm else papers.take maxResults)
      else .error (httpErrMsg s)
    | (.thrown _ msg, _) => .error msg
  match body with
  | .ok r => .ok r
  | .error msg =>
    if containsSub msg "CORS".data || containsSub msg "Failed to fetch".data then
      .error corsHintMsg
    else .ok []

/-! ### The retrieval response cache

`ArxivService.cache` is a plain `Map`; `setCache` inserts with a
timestamp and never evicts; expired entries are deleted only when
`getFromCache` touches them. -/

def ARXIV_CACHE_DURATION : Nat := 5 * 60 * 1000

structure ArxivCacheEntry where
  data : List ArxivPaper
  timestamp : Nat

def arxivSetCache (cache : List (String × ArxivCacheEntry)) (key : String)
    (data : List ArxivPaper) (now : Nat) : List (String × ArxivCacheEntry) :=
  mapSet cache key ⟨data, now⟩

def arxivGetFromCache (cache : List (String × ArxivCacheEntry)) (key : String) (now : Nat) :
    Option (List ArxivPaper) × List (String × ArxivCacheEntry) :=
  match mapGet cache key with
  | some e =>
    if ARXIV_CACHE_DURATION < now - e.timestamp then (none, mapDelete cache key)
    else (some e.data, cache)
  | none => (none, cache)

/-! ### The throttle

`throttleRequest` reads the shared watermark, suspends for the remainder
of the interval when the last dispatch was too recent, and writes the
watermark at resumption.  The machine below models the two synchronous
portions of the function: `.start t` is entry at time `t` (read of the
watermark, and the immediate dispatch when no wait is needed), `.resume t`
is the timer callback of a suspended caller firing at its due time
`t = last + REQUEST_DELAY` (computed from the watermark it read), which
writes the watermark and dispatches.  Interleavings of concurrent callers
are arbitrary event sequences. -/

inductive ThrottleEvent where
  | start (t : Nat)
  | resume (t : Nat)

structure ThrottleState where
  last : Nat
  pending : List Nat
  dispatches : List Nat

def throttleStep (st : ThrottleState) (e : ThrottleEvent) : ThrottleState :=
  match e with
  | .start t =>
    if t - st.last < REQUEST_DELAY then
      { st with pending := st.pending ++ [st.last + REQUEST_DELAY] }
    else { last := t, pending := st.pending, dispatches := st.dispatches ++ [t] }
  | .resume t =>
    if st.pending.contains t then
      { last := t, pending := st.pending.erase t, dispatches := st.dispatches ++ [t] }
    else st

def throttleInit : ThrottleState := ⟨0, [], []⟩

def throttleRun (es : List ThrottleEvent) : ThrottleState := es.foldl throttleStep throttleInit

/-- Sequential (non-overlapping) calls: each call's wait, if any,
completes before the next call starts. -/
def throttleSeqStep (st : ThrottleState) (t : Nat) : ThrottleState :=
  let st1 := throttleStep st (.start t)
  if t - st.last < REQUEST_DELAY then throttleStep st1 (.resume (st.last + REQUEST_DELAY))
  else st1

def throttleSeqRun (arrivals : List Nat) : ThrottleState :=
  arrivals.foldl throttleSeqStep throttleInit

/-! ## Summary cache (`src/services/summaryCache.ts`) -/

def CACHE_DURATION : Nat := 30 * 24 * 60 * 60 * 1000
def MAX_CACHE_SIZE : Nat := 50

structure CachedSummary where
  paperId : String
  summary : RawSummary
  createdAt : Nat
  provider : String
  model : String

def getCacheKey (paperId provider model : String) : String :=
  paperId ++ ":" ++ provider ++ ":" ++ model

abbrev SummaryCache : Type := List (String × CachedSummary)

/-- `SummaryCacheService.get`: a miss both on absence and on expiry; an
expired entry is deleted as a side effect. -/
def summaryGet (cache : SummaryCache) (now : Nat) (paperId provider model : String) :
    Option RawSummary × SummaryCache :=
  let key := getCacheKey paperId provider model
  match mapGet cache key with
  | none => (none, cache)
  | some e =>
    if CACHE_DURATION < now - e.createdAt then (none, mapDelete cache key)
    else (some e.summary, cache)

/-- The entry a stable ascending sort by `createdAt` puts first: minimal
timestamp, earliest inserted among ties. -/
def oldestEntry (cache : SummaryCache) : Option (String × CachedSummary) :=
  cache.foldl
    (fun best p =>
      match best with
      | none => some p
      | some b => if p.2.createdAt < b.2.createdAt then some p else some b)
    none

/-- `SummaryCacheService.set`: evict the oldest-inserted entry first when
at (or beyond) capacity, then insert. -/
def summarySet (cache : SummaryCache) (paperId : String) (summary : RawSummary)
    (provider model : String) (now : Nat) : SummaryCache :=
  let cache1 :=
    if MAX_CACHE_SIZE ≤ cache.length then
      match oldestEntry cache with
      | some old => mapDelete cache old.1
      | none => cache
    else cache
  mapSet cache1 (getCacheKey paperId provider model) ⟨paperId, summary, now, provider, model⟩

/-! ## Streaming pipeline controller
(`StreamingSummarizerService.streamSummarize`)

The network stream itself (`doStreamRequest`) is abstracted by its
outcome: the accumulated full text, or a thrown transport error message.
Intermediate `onChunk` updates are not part of the claims under study;
the run records the terminal callback, the resulting cache state and the
list of cache writes performed. -/

inductive StreamEvent where
  | complete (fullText : List Char) (summary : RawSummary)
  | errorMsg (msg : String)

structure StreamRun where
  returned : Bool
  events : List StreamEvent
  cache : SummaryCache
  writes : List RawSummary

def supportsStreaming (provider : String) : Bool :=
  provider = "openai" ∨ provider = "moonshot"

def streamSummarize (cache : SummaryCache) (now : Nat) (paperId provider model apiKey : String)
    (outcome : Except String (List Char)) : StreamRun :=
  let keyProv := if provider = "" then "local" else provider
  let lookup := summaryGet cache now paperId keyProv model
  match lookup.1 with
  | some c => ⟨true, [.complete [] c], lookup.2, []⟩
  | none =>
    if apiKey = "" then ⟨false, [.errorMsg "No API key configured"], lookup.2, []⟩
    else if ¬ supportsStreaming provider then
      ⟨false, [.errorMsg "Provider does not support streaming"], lookup.2, []⟩
    else
      match outcome with
      | .error msg => ⟨false, [.errorMsg msg], lookup.2, []⟩
      | .ok fullText =>
        match parseStreamedResponse fullText with
        | some s =>
          ⟨true, [.complete fullText s], summarySet lookup.2 paperId s keyProv model now, [s]⟩
        | none => ⟨false, [.errorMsg "Failed to parse summary"], lookup.2, []⟩

/-! # Theorems -/

/-! ## C2 — the `max_results` cap -/

/-- C2 (amended): every retrieval path that goes through `searchPapers` —
direct search with arbitrary filters, `searchCustom`, and the
non-first-page branch of `getLatestPapers` — caps the upstream
`max_results` at 10 whatever the caller passes; the first-page branch
(`getRecentPapersFromCategories`) is exempt. -/
theorem max_results_capped_except_first_page (q : Option String) (qc : String)
    (s mr : Nat) (f : Option SearchFilters) :
    (searchPapersParams q s mr f).max_results ≤ 10 ∧
    (searchCustomParams qc s mr).max_results ≤ 10 ∧
    (s ≠ 0 → (getLatestPapersParams s mr).max_results ≤ 10) := by
  refine ⟨Nat.min_le_right _ _, Nat.min_le_right _ _, fun hs => ?_⟩
  rw [getLatestPapersParams, if_neg hs]
  exact Nat.min_le_right _ _

theorem max_results_capped_witness :
    (getLatestPapersParams 1 50).max_results ≤ 10 :=
  (max_results_capped_except_first_page none "q" 1 50 none).2.2 (by decide)

/-- C2 (counterexample): `getLatestPapers` asked for the first page with
`maxResults = 50` sends `max_results = 50` upstream, exceeding 10. -/
theorem first_page_max_results_uncapped :
    (getLatestPapersParams 0 50).max_results = 50 ∧
    ¬ (getLatestPapersParams 0 50).max_results ≤ 10 :=
  ⟨rfl, by decide⟩

/-! ## C5 — retry-budget exhaustion on persistent 503 -/

/-- C5: when the selected endpoint answers 503 on every attempt,
`fetchWithRetry` makes the initial attempt plus exactly `MAX_RETRIES = 3`
retries — neither fewer nor more — with a fixed `RETRY_DELAY` cooldown
between consecutive attempts, and `searchPapers` surfaces the resulting
`HTTP error! status: 503` to its caller. -/
theorem retry_budget_exhaustion (papers : List ArxivPaper) :
    fetchWithRetry (fun _ => .resp 503) 0 MAX_RETRIES =
      (FetchResult.resp 503,
        [.attempt 0, .cooldown RETRY_DELAY, .attempt 0, .cooldown RETRY_DELAY,
         .attempt 0, .cooldown RETRY_DELAY, .attempt 0]) ∧
    searchPapersRun (fun _ => .resp 503) papers = .error (httpErrMsg 503) :=
  ⟨rfl, rfl⟩

/-! ## C6 — fallback routing on connectivity failures -/

/-- A connectivity-class outcome: a thrown error that
`fetchWithRetry` classifies as a CORS failure. -/
def isConnFailure : FetchOutcome → Bool
  | .exn isTE msg => isCORSError isTE msg
  | .resp _ => false

/-- C6: (a) when every endpoint before `k` raises a connectivity-class
failure and endpoint `k` responds, the attempts go through endpoints
`0, …, k` in configured order, exactly once each, with no cooldown and no
retry-budget consumption (the trace is the same for every budget `r`),
and the fetch succeeds at `k`; (b) when every endpoint raises a
connectivity-class failure, the cooldown-and-retry policy runs on the
last endpoint only, and exhausting it surfaces the error. -/
theorem fallback_order_and_exhaustion :
    (∀ (env : Nat → FetchOutcome) (k st r : Nat) (papers : List ArxivPaper),
      k < CORS_PROXIES.length →
      (∀ i, i < k → isConnFailure (env i) = true) →
      env k = .resp st → respOk st = true →
      fetchWithRetry env 0 r =
        (.resp st, (List.range (k + 1)).map FetchEvent.attempt) ∧
      searchPapersRun env papers = .ok papers) ∧
    (∀ (env : Nat → FetchOutcome) (isTE : Bool) (msg : List Char) (papers : List ArxivPaper),
      (∀ i, i < 2 → isConnFailure (env i) = true) →
      env 2 = .exn isTE msg → isCORSError isTE msg = true →
      fetchWithRetry env 0 MAX_RETRIES =
        (.thrown isTE msg,
          [.attempt 0, .attempt 1, .attempt 2, .cooldown RETRY_DELAY, .attempt 2,
           .cooldown RETRY_DELAY, .attempt 2, .cooldown RETRY_DELAY, .attempt 2]) ∧
      searchPapersRun env papers = .error msg) := by
  constructor
  · intro env k st r papers hk hconn henvk hok
    have hok' : 200 ≤ st ∧ st ≤ 299 := by simpa [respOk] using hok
    have hst : ¬ (st = 503 ∧ 0 < r) := by omega
    have hst3 : ¬ (st = 503 ∧ 0 < MAX_RETRIES) := by simp [MAX_RETRIES]; omega
    have hk3 : k < 3 := by simpa [CORS_PROXIES] using hk
    have hfetch : ∀ r', ¬ (st = 503 ∧ 0 < r') →
        fetchWithRetry env 0 r' = (.resp st, (List.range (k + 1)).map FetchEvent.attempt) := by
      intro r' hst'
      interval_cases k
      · rw [fetchWithRetry]
        simp only [fetchGo, henvk, if_neg hst']
        rfl
      · rcases h0 : env 0 with s0 | ⟨te0, m0⟩
        · exact absurd (hconn 0 (by omega)) (by simp [isConnFailure, h0])
        · have hc0 : isCORSError te0 m0 = true := by
            simpa [isConnFailure, h0] using hconn 0 (by omega)
          rw [fetchWithRetry]
          simp only [fetchGo, h0, henvk, hc0, CORS_PROXIES, if_neg hst']
          norm_num
          rfl
      · rcases h0 : env 0 with s0 | ⟨te0, m0⟩
        · exact absurd (hconn 0 (by omega)) (by simp [isConnFailure, h0])
        · rcases h1 : env 1 with s1 | ⟨te1, m1⟩
          · exact absurd (hconn 1 (by omega)) (by simp [isConnFailure, h1])
          · have hc0 : isCORSError te0 m0 = true := by
              simpa [isConnFailure, h0] using hconn 0 (by omega)
            have hc1 : isCORSError te1 m1 = true := by
              simpa [isConnFailure, h1] using hconn 1 (by omega)
            rw [fetchWithRetry]
            simp only [fetchGo, h0, h1, henvk, hc0, hc1, CORS_PROXIES, if_neg hst']
            norm_num
            rfl
    refine ⟨hfetch r hst, ?_⟩
    rw [searchPapersRun, hfetch MAX_RETRIES hst3]
    simp [hok]
  · intro env isTE msg papers hconn henv2 hcors
    rcases h0 : env 0 with s0 | ⟨te0, m0⟩
    · exact absurd (hconn 0 (by omega)) (by simp [isConnFailure, h0])
    · rcases h1 : env 1 with s1 | ⟨te1, m1⟩
      · exact absurd (hconn 1 (by omega)) (by simp [isConnFailure, h1])
      · have hc0 : isCORSError te0 m0 = true := by
          simpa [isConnFailure, h0] using hconn 0 (by omega)
        have hc1 : isCORSError te1 m1 = true := by
          simpa [isConnFailure, h1] using hconn 1 (by omega)
        have hfetch : fetchWithRetry env 0 MAX_RETRIES =
            (.thrown isTE msg,
              [.attempt 0, .attempt 1, .attempt 2, .cooldown RETRY_DELAY, .attempt 2,
               .cooldown RETRY_DELAY, .attempt 2, .cooldown RETRY_DELAY, .attempt 2]) := by
          rw [fetchWithRetry]
          simp only [MAX_RETRIES, fetchGo, h0, h1, henv2, hc0, hc1, CORS_PROXIES]
          norm_num
        refine ⟨hfetch, ?_⟩
        rw [searchPapersRun, hfetch]

/-! ## C4 — throttle spacing -/

theorem mem_of_getLast? {l : List Nat} {x : Nat} (h : x ∈ l.getLast?) : x ∈ l := by
  obtain ⟨hne, rfl⟩ := List.mem_getLast?_eq_getLast h
  exact List.getLast_mem hne

/-- C4 (amended): for sequential (non-overlapping) throttle calls the
recorded dispatch timestamps of consecutive dispatches differ by at least
`REQUEST_DELAY`, for every arrival schedule; concurrent interleavings can
violate the spacing (see the counterexample). -/
theorem throttle_sequential_spacing (arrivals : List Nat) :
    List.Chain' (fun a b => a + REQUEST_DELAY ≤ b) (throttleSeqRun arrivals).dispatches := by
  have key : ∀ (l : List Nat) (st : ThrottleState),
      List.Chain' (fun a b => a + REQUEST_DELAY ≤ b) st.dispatches →
      (∀ d ∈ st.dispatches, d ≤ st.last) →
      List.Chain' (fun a b => a + REQUEST_DELAY ≤ b) (l.foldl throttleSeqStep st).dispatches ∧
      ∀ d ∈ (l.foldl throttleSeqStep st).dispatches, d ≤ (l.foldl throttleSeqStep st).last := by
    intro l
    induction l with
    | nil => intro st h1 h2; exact ⟨h1, h2⟩
    | cons t ts ih =>
      intro st h1 h2
      rw [List.foldl_cons]
      by_cases hw : t - st.last < REQUEST_DELAY
      · have hstep : throttleSeqStep st t =
            { last := st.last + REQUEST_DELAY
              pending := (st.pending ++ [st.last + REQUEST_DELAY]).erase (st.last + REQUEST_DELAY)
              dispatches := st.dispatches ++ [st.last + REQUEST_DELAY] } := by
          simp [throttleSeqStep, throttleStep, hw]
        rw [hstep]
        apply ih
        · rw [List.chain'_append]
          refine ⟨h1, List.chain'_singleton _, ?_⟩
          intro x hx y hy
          simp only [List.head?_cons, Option.mem_def, Option.some.injEq] at hy
          subst hy
          have := h2 x (mem_of_getLast? hx)
          omega
        · intro d hd
          rcases List.mem_append.mp hd with hold | hnew
          · have := h2 d hold
            show d ≤ st.last + REQUEST_DELAY
            omega
          · simp at hnew
            show d ≤ st.last + REQUEST_DELAY
            omega
      · have hstep : throttleSeqStep st t =
            { last := t, pending := st.pending, dispatches := st.dispatches ++ [t] } := by
          simp [throttleSeqStep, throttleStep, hw]
        have ht : st.last + REQUEST_DELAY ≤ t := by
          simp only [REQUEST_DELAY] at hw ⊢; omega
        rw [hstep]
        apply ih
        · rw [List.chain'_append]
          refine ⟨h1, List.chain'_singleton _, ?_⟩
          intro x hx y hy
          simp only [List.head?_cons, Option.mem_def, Option.some.injEq] at hy
          subst hy
          have := h2 x (mem_of_getLast? hx)
          omega
        · intro d hd
          rcases List.mem_append.mp hd with hold | hnew
          · have := h2 d hold
            show d ≤ t
            omega
          · simp at hnew
            show d ≤ t
            omega
  exact (key arrivals throttleInit List.chain'_nil (by intro d hd; simp [throttleInit] at hd)).1

/-- C4 (counterexample): two callers entering the throttle while a third
dispatch is fresh both read the same watermark, both wait until the same
due instant, and both dispatch at it — recorded dispatches `[3000, 6000,
6000]` — violating the minimum spacing for the last consecutive pair. -/
theorem throttle_concurrent_violation :
    (throttleRun
        [.start 3000, .start 3100, .start 3100, .resume 6000, .resume 6000]).dispatches =
      [3000, 6000, 6000] ∧
    ¬ List.Chain' (fun a b => a + REQUEST_DELAY ≤ b)
        (throttleRun
          [.start 3000, .start 3100, .start 3100, .resume 6000, .resume 6000]).dispatches := by
  refine ⟨rfl, fun hch => ?_⟩
  have h : (throttleRun
      [.start 3000, .start 3100, .start 3100, .resume 6000, .resume 6000]).dispatches =
      [3000, 6000, 6000] := rfl
  rw [h] at hch
  have hbad := (List.chain'_cons.mp (List.chain'_cons.mp hch).2).1
  simp only [REQUEST_DELAY] at hbad
  omega

/-! ## C3 — cache capacity and eviction -/

theorem mapSet_length_le {V : Type} (m : List (String × V)) (k : String) (v : V) :
    (mapSet m k v).length ≤ m.length + 1 := by
  induction m with
  | nil => simp [mapSet]
  | cons p rest ih =>
    obtain ⟨k', v'⟩ := p
    by_cases h : k' = k
    · simp [mapSet, h]
    · simp only [mapSet, if_neg h, List.length_cons]
      omega

theorem mapDelete_length_of_mem {V : Type} (m : List (String × V)) (k : String)
    (h : k ∈ m.map Prod.fst) : (mapDelete m k).length + 1 = m.length := by
  induction m with
  | nil => simp at h
  | cons p rest ih =>
    obtain ⟨k', v'⟩ := p
    by_cases hk : k' = k
    · simp [mapDelete, hk]
    · have hmem : k ∈ rest.map Prod.fst := by
        simp only [List.map_cons, List.mem_cons] at h
        rcases h with rfl | h'
        · exact absurd rfl hk
        · exact h'
      simp [mapDelete, hk, ih hmem]

theorem oldestFold_sound :
    ∀ (l : List (String × CachedSummary)) (acc : Option (String × CachedSummary))
      (r : String × CachedSummary),
      l.foldl
          (fun best p =>
            match best with
            | none => some p
            | some b => if p.2.createdAt < b.2.createdAt then some p else some b)
          acc = some r →
      (r ∈ l ∨ acc = some r) ∧
        (∀ b, acc = some b → r.2.createdAt ≤ b.2.createdAt) ∧
        ∀ e ∈ l, r.2.createdAt ≤ e.2.createdAt := by
  intro l
  induction l with
  | nil =>
    intro acc r h
    simp only [List.foldl_nil] at h
    refine ⟨Or.inr h, fun b hb => ?_, by simp⟩
    rw [h] at hb; injection hb with hb; rw [hb]
  | cons p tl ih =>
    intro acc r h
    rw [List.foldl_cons] at h
    have hq : ∃ q,
        (match acc with
          | none => some p
          | some b => if p.2.createdAt < b.2.createdAt then some p else some b) = some q ∧
        (q = p ∨ acc = some q) ∧ q.2.createdAt ≤ p.2.createdAt ∧
        ∀ b, acc = some b → q.2.createdAt ≤ b.2.createdAt := by
      cases acc with
      | none => exact ⟨p, rfl, Or.inl rfl, Nat.le_refl _, by simp⟩
      | some b =>
        by_cases hlt : p.2.createdAt < b.2.createdAt
        · refine ⟨p, ?_, Or.inl rfl, Nat.le_refl _, fun b' hb' => ?_⟩
          · show (if p.2.createdAt < b.2.createdAt then some p else some b) = some p
            rw [if_pos hlt]
          · injection hb' with hb'
            subst hb'
            omega
        · refine ⟨b, ?_, Or.inr rfl, by omega, fun b' hb' => ?_⟩
          · show (if p.2.createdAt < b.2.createdAt then some p else some b) = some b
            rw [if_neg hlt]
          · injection hb' with hb'
            subst hb'
            omega
    obtain ⟨q, hqeq, hqmem, hqp, hqacc⟩ := hq
    rw [hqeq] at h
    obtain ⟨hmem, haccb, hall⟩ := ih _ r h
    have hrq : r.2.createdAt ≤ q.2.createdAt := by
      rcases hmem with h1 | h1
      · exact haccb q rfl
      · injection h1 with h1; rw [h1]
    refine ⟨?_, ?_, ?_⟩
    · rcases hmem with h1 | h1
      · exact Or.inl (List.mem_cons_of_mem _ h1)
      · injection h1 with h1
        subst h1
        rcases hqmem with h2 | h2
        · exact Or.inl (by rw [h2]; exact List.mem_cons_self _ _)
        · exact Or.inr h2
    · intro b hb
      have := hqacc b hb
      omega
    · intro e he
      rcases List.mem_cons.mp he with rfl | he'
      · omega
      · exact hall e he'

/-- C3 (amended): the long-lived summary cache respects the capacity
invariant — after any sequence of `set` operations from the empty cache
the size never exceeds `MAX_CACHE_SIZE`, and a `set` at capacity first
evicts the single entry with the globally minimal insertion timestamp
(earliest-inserted among ties); the short-lived retrieval response cache
has no capacity bound (see the counterexample). -/
theorem summary_cache_bounded_and_evicts_oldest :
    (∀ ops : List (String × RawSummary × String × String × Nat),
      (ops.foldl
          (fun c op => summarySet c op.1 op.2.1 op.2.2.1 op.2.2.2.1 op.2.2.2.2) []).length ≤
        MAX_CACHE_SIZE) ∧
    (∀ (cache : SummaryCache) (pid : String) (s : RawSummary) (prov md : String) (now : Nat)
      (old : String × CachedSummary),
      MAX_CACHE_SIZE ≤ cache.length → oldestEntry cache = some old →
      (∀ e ∈ cache, old.2.createdAt ≤ e.2.createdAt) ∧
      summarySet cache pid s prov md now =
        mapSet (mapDelete cache old.1) (getCacheKey pid prov md) ⟨pid, s, now, prov, md⟩) := by
  have hstep : ∀ (c : SummaryCache) (pid : String) (s : RawSummary) (prov md : String)
      (now : Nat), c.length ≤ MAX_CACHE_SIZE →
      (summarySet c pid s prov md now).length ≤ MAX_CACHE_SIZE := by
    intro c pid s prov md now hc
    by_cases hcap : MAX_CACHE_SIZE ≤ c.length
    · have hne : c ≠ [] := by
        intro hnil
        rw [hnil] at hcap
        simp [MAX_CACHE_SIZE] at hcap
      obtain ⟨p, tl, rfl⟩ := List.exists_cons_of_ne_nil hne
      have hsome : ∃ old, oldestEntry (p :: tl) = some old := by
        rw [oldestEntry, List.foldl_cons]
        have : ∀ (l : List (String × CachedSummary)) (b : String × CachedSummary),
            ∃ old, l.foldl
              (fun best q =>
                match best with
                | none => some q
                | some b' => if q.2.createdAt < b'.2.createdAt then some q else some b')
              (some b) = some old := by
          intro l
          induction l with
          | nil => exact fun b => ⟨b, rfl⟩
          | cons q tl' ih =>
            intro b
            rw [List.foldl_cons]
            by_cases hlt : q.2.createdAt < b.2.createdAt
            · simpa [hlt] using ih q
            · simpa [hlt] using ih b
        exact this tl p
      obtain ⟨old, hold⟩ := hsome
      have hmem : old ∈ p :: tl := by
        rcases (oldestFold_sound (p :: tl) none old (by rwa [oldestEntry] at hold)).1 with
          hm | hcontra
        · exact hm
        · exact absurd hcontra (by simp)
      have hkey : old.1 ∈ (p :: tl).map Prod.fst := List.mem_map_of_mem Prod.fst hmem
      have hdel := mapDelete_length_of_mem (p :: tl) old.1 hkey
      have heq : summarySet (p :: tl) pid s prov md now =
          mapSet (mapDelete (p :: tl) old.1) (getCacheKey pid prov md)
            ⟨pid, s, now, prov, md⟩ := by
        rw [summarySet, if_pos hcap, hold]
      rw [heq]
      have := mapSet_length_le (mapDelete (p :: tl) old.1) (getCacheKey pid prov md)
        ⟨pid, s, now, prov, md⟩
      omega
    · rw [summarySet, if_neg hcap]
      have := mapSet_length_le c (getCacheKey pid prov md) ⟨pid, s, now, prov, md⟩
      omega
  constructor
  · intro ops
    have main : ∀ (l : List (String × RawSummary × String × String × Nat)) (c : SummaryCache),
        c.length ≤ MAX_CACHE_SIZE →
        (l.foldl (fun c op => summarySet c op.1 op.2.1 op.2.2.1 op.2.2.2.1 op.2.2.2.2)
            c).length ≤ MAX_CACHE_SIZE := by
      intro l
      induction l with
      | nil => exact fun c hc => hc
      | cons op tl ih =>
        intro c hc
        rw [List.foldl_cons]
        exact ih _ (hstep c op.1 op.2.1 op.2.2.1 op.2.2.2.1 op.2.2.2.2 hc)
    exact main ops [] (by simp [MAX_CACHE_SIZE])
  · intro cache pid s prov md now old hcap hold
    have hsound := oldestFold_sound cache none old (by rwa [oldestEntry] at hold)
    refine ⟨hsound.2.2, ?_⟩
    rw [summarySet, if_pos hcap, hold]

theorem summary_cache_bounded_witness :
    summarySet ((List.range 50).map
        (fun i => ("k" ++ toString i, ⟨"p", emptyRaw, i, "pr", "md"⟩))) "p2" emptyRaw
        "openai" "m" 77 =
      mapSet
        (mapDelete ((List.range 50).map
          (fun i => ("k" ++ toString i, ⟨"p", emptyRaw, i, "pr", "md"⟩))) "k0")
        (getCacheKey "p2" "openai" "m") ⟨"p2", emptyRaw, 77, "openai", "m"⟩ :=
  (summary_cache_bounded_and_evicts_oldest.2
    ((List.range 50).map (fun i => ("k" ++ toString i, ⟨"p", emptyRaw, i, "pr", "md"⟩)))
    "p2" emptyRaw "openai" "m" 77 ("k0", ⟨"p", emptyRaw, 0, "pr", "md"⟩)
    (by simp [MAX_CACHE_SIZE]) rfl).2

/-- C3 (counterexample): the retrieval response cache of `ArxivService`
grows without bound — fifty-one `setCache` operations with distinct keys
leave fifty-one entries, exceeding the only fixed capacity in the program
(`MAX_CACHE_SIZE = 50`); no insertion ever evicts. -/
theorem arxiv_cache_unbounded :
    (((List.range 51).map (fun i => "k" ++ toString i)).foldl
        (fun m k => arxivSetCache m k [] 0) []).length = 51 ∧
    ¬ (((List.range 51).map (fun i => "k" ++ toString i)).foldl
        (fun m k => arxivSetCache m k [] 0) []).length ≤ MAX_CACHE_SIZE := by
  have h : (((List.range 51).map (fun i => "k" ++ toString i)).foldl
      (fun m k => arxivSetCache m k [] 0) []).length = 51 := by rfl
  refine ⟨h, ?_⟩
  rw [h]
  decide

theorem fallback_order_witness :
    fetchWithRetry (fun i => if i < 1 then .exn true "Failed to fetch".data else .resp 200) 0
        MAX_RETRIES =
      (.resp 200, [.attempt 0, .attempt 1]) ∧
    fetchWithRetry (fun _ => .exn true "Failed to fetch".data) 0 MAX_RETRIES =
      (.thrown true "Failed to fetch".data,
        [.attempt 0, .attempt 1, .attempt 2, .cooldown RETRY_DELAY, .attempt 2,
         .cooldown RETRY_DELAY, .attempt 2, .cooldown RETRY_DELAY, .attempt 2]) :=
  ⟨(fallback_order_and_exhaustion.1
      (fun i => if i < 1 then .exn true "Failed to fetch".data else .resp 200) 1 200
      MAX_RETRIES [] (by decide) (by decide) rfl (by decide)).1,
   (fallback_order_and_exhaustion.2 (fun _ => .exn true "Failed to fetch".data) true
      "Failed to fetch".data [] (by decide) rfl (by decide)).1⟩

/-! ## C8 — distinguishing failure from an empty result -/

/-- C8 (amended): `searchPapers` surfaces every retrieval failure as a
typed thrown error — a non-ok HTTP response and an exhausted-retry thrown
error both become `.error`, never an empty `.ok` list.  The latest-papers
first-page entry point surfaces only failures whose message carries a
connectivity marker (`CORS` / `Failed to fetch`); every other failure is
swallowed into an empty `.ok` list (see the counterexample). -/
theorem search_error_surfacing_amended :
    (∀ (env : Nat → FetchOutcome) (papers : List ArxivPaper) (s : Nat),
      (fetchWithRetry env 0 MAX_RETRIES).1 = .resp s → respOk s = false →
      searchPapersRun env papers = .error (httpErrMsg s)) ∧
    (∀ (env : Nat → FetchOutcome) (papers : List ArxivPaper) (isTE : Bool) (msg : List Char),
      (fetchWithRetry env 0 MAX_RETRIES).1 = .thrown isTE msg →
      searchPapersRun env papers = .error msg) ∧
    (∀ (env : Nat → FetchOutcome) (papers : List ArxivPaper) (mr : Nat) (isTE : Bool)
      (msg : List Char),
      (fetchWithRetry env 0 MAX_RETRIES).1 = .thrown isTE msg →
      (containsSub msg "CORS".data || containsSub msg "Failed to fetch".data) = true →
      getRecentRun env papers mr = .error corsHintMsg) := by
  refine ⟨?_, ?_, ?_⟩
  · intro env papers s h1 h2
    rw [searchPapersRun]
    rcases hfe : fetchWithRetry env 0 MAX_RETRIES with ⟨res, tr⟩
    rw [hfe] at h1
    simp only at h1
    subst h1
    simp [h2]
  · intro env papers isTE msg h1
    rw [searchPapersRun]
    rcases hfe : fetchWithRetry env 0 MAX_RETRIES with ⟨res, tr⟩
    rw [hfe] at h1
    simp only at h1
    subst h1
    rfl
  · intro env papers mr isTE msg h1 h2
    rw [getRecentRun]
    rcases hfe : fetchWithRetry env 0 MAX_RETRIES with ⟨res, tr⟩
    rw [hfe] at h1
    simp only at h1
    subst h1
    simp [h2]

theorem search_error_surfacing_witness :
    searchPapersRun (fun _ => .resp 503) [] = .error (httpErrMsg 503) ∧
    getRecentRun (fun _ => .exn true "Failed to fetch".data) [] 10 = .error corsHintMsg :=
  ⟨search_error_surfacing_amended.1 (fun _ => .resp 503) [] 503 rfl rfl,
   search_error_surfacing_amended.2.2 (fun _ => .exn true "Failed to fetch".data) [] 10 true
     "Failed to fetch".data rfl (by decide)⟩

/-- C8 (counterexample): a persistent 503 makes
`getRecentPapersFromCategories` return an empty `.ok` list — the caller
cannot distinguish this retrieval failure from an empty result set —
while the same failure through `searchPapers` is a typed error. -/
theorem get_recent_swallows_http_error :
    getRecentRun (fun _ => .resp 503) [] 10 = .ok [] ∧
    searchPapersRun (fun _ => .resp 503) [] = .error (httpErrMsg 503) :=
  ⟨rfl, rfl⟩

/-! ## C9 — the cache hit precedes the precondition checks -/

/-- C9: whenever the long-lived cache lookup for
`(paperId, provider, model)` yields an unexpired summary, `streamSummarize`
reports completion with the cached result and returns `true`, for every
`apiKey` (including none) and every `provider` (including non-streaming
ones), performing no cache write; precondition errors can only be
reported on a cache miss. -/
theorem cache_hit_precedes_preconditions
    (cache : SummaryCache) (now : Nat) (paperId provider model apiKey : String)
    (outcome : Except String (List Char)) (c : RawSummary)
    (h : (summaryGet cache now paperId (if provider = "" then "local" else provider)
        model).1 = some c) :
    streamSummarize cache now paperId provider model apiKey outcome =
      ⟨true, [.complete [] c],
        (summaryGet cache now paperId (if provider = "" then "local" else provider) model).2,
        []⟩ := by
  rw [streamSummarize.eq_def]
  simp only [h]

theorem cache_hit_witness :
    streamSummarize [(getCacheKey "p" "local" "", ⟨"p", emptyRaw, 0, "local", ""⟩)] 5
        "p" "" "" "" (.error "e") =
      ⟨true, [.complete [] emptyRaw],
        [(getCacheKey "p" "local" "", ⟨"p", emptyRaw, 0, "local", ""⟩)], []⟩ :=
  cache_hit_precedes_preconditions
    [(getCacheKey "p" "local" "", ⟨"p", emptyRaw, 0, "local", ""⟩)] 5 "p" "" "" ""
    (.error "e") emptyRaw rfl

/-! ## C7 — the final parse gates the cache write -/

/-- C7: on a cache miss with the preconditions satisfied, when the stream
completes with buffer `ft`: if the final reconstruction pass yields
nothing, `streamSummarize` reports the parse failure through the error
callback, performs no cache write, and leaves the cache unchanged; a
cache write occurs exactly when the final parse yields a result, and then
completion is reported with that result. -/
theorem final_parse_gates_cache_write
    (cache : SummaryCache) (now : Nat) (paperId provider model apiKey : String)
    (ft : List Char)
    (habs : mapGet cache
        (getCacheKey paperId (if provider = "" then "local" else provider) model) = none)
    (hkey : apiKey ≠ "")
    (hprov : supportsStreaming provider = true) :
    (parseStreamedResponse ft = none →
      streamSummarize cache now paperId provider model apiKey (.ok ft) =
        ⟨false, [.errorMsg "Failed to parse summary"], cache, []⟩) ∧
    (∀ s, parseStreamedResponse ft = some s →
      streamSummarize cache now paperId provider model apiKey (.ok ft) =
        ⟨true, [.complete ft s],
          summarySet cache paperId s (if provider = "" then "local" else provider) model now,
          [s]⟩) := by
  have hlook : summaryGet cache now paperId (if provider = "" then "local" else provider)
      model = (none, cache) := by
    rw [summaryGet, habs]
  constructor
  · intro hp
    rw [streamSummarize.eq_def]
    simp only [hlook, hkey, hprov, hp]
    simp
  · intro sres hp
    rw [streamSummarize.eq_def]
    simp only [hlook, hkey, hprov, hp]
    simp

theorem final_parse_gates_cache_write_witness :
    streamSummarize [] 9 "p" "openai" "m" "k" (.ok "hello".data) =
      ⟨false, [.errorMsg "Failed to parse summary"], [], []⟩ ∧
    streamSummarize [] 9 "p" "openai" "m" "k" (.ok ['{', '"', 't', 'i', 't', 'l', 'e', '"', ':', '"', 'A', '"', '}']) =
      ⟨true,
        [.complete ['{', '"', 't', 'i', 't', 'l', 'e', '"', ':', '"', 'A', '"', '}']
          ⟨Json.str ['A'], [], Json.str [], Json.str [], Json.str [], Json.str []⟩],
        summarySet [] "p" ⟨Json.str ['A'], [], Json.str [], Json.str [], Json.str [], Json.str []⟩
          "openai" "m" 9,
        [⟨Json.str ['A'], [], Json.str [], Json.str [], Json.str [], Json.str []⟩]⟩ :=
  ⟨(final_parse_gates_cache_write [] 9 "p" "openai" "m" "k" "hello".data rfl
      (by decide) rfl).1 rfl,
   (final_parse_gates_cache_write [] 9 "p" "openai" "m" "k" ['{', '"', 't', 'i', 't', 'l', 'e', '"', ':', '"', 'A', '"', '}'] rfl
      (by decide) rfl).2
     ⟨Json.str ['A'], [], Json.str [], Json.str [], Json.str [], Json.str []⟩ rfl⟩

/-! ## C10 — a recognized-field-free object parses to the empty summary -/

/-- C10: whenever the text contains a JSON-parseable outermost `{...}`
span whose object carries none of the recognized field names or synonyms,
`parseStreamedResponse` returns the non-null all-empty summary rather
than `null`; and `null` can only arise from the partial-extraction
fallback path. -/
theorem full_parse_defaults_empty :
    (∀ (cs : List Char) (o : List (List Char × Json)),
      jsonParse (jsonSlice cs) = some (Json.obj o) →
      (∀ name ∈ [litTitle, litKeyPoints, litMethodology, litMethods, litFindings,
          litResults, litImplications, litSignificance, litOverallSummary, litSummary,
          litAbstract], objGet o name = none) →
      parseStreamedResponse cs = some emptyRaw) ∧
    (∀ cs, parseStreamedResponse cs = none → extractPartialFields cs = none) := by
  constructor
  · intro cs o hj habs
    have ht := habs litTitle (by simp)
    have hkp := habs litKeyPoints (by simp)
    have hm := habs litMethodology (by simp)
    have hm2 := habs litMethods (by simp)
    have hf := habs litFindings (by simp)
    have hf2 := habs litResults (by simp)
    have hi := habs litImplications (by simp)
    have hi2 := habs litSignificance (by simp)
    have ho := habs litOverallSummary (by simp)
    have ho2 := habs litSummary (by simp)
    have ho3 := habs litAbstract (by simp)
    rw [parseStreamedResponse, hj]
    have hmap : mapParsed (Json.obj o) = some emptyRaw := by
      have hexp : mapParsed (Json.obj o) = some
          ⟨jsOrEmpty (Json.obj o) [litTitle],
            (match jsGet (Json.obj o) litKeyPoints with
              | some (.arr xs) => xs
              | _ => []),
            jsOrEmpty (Json.obj o) [litMethodology, litMethods],
            jsOrEmpty (Json.obj o) [litFindings, litResults],
            jsOrEmpty (Json.obj o) [litImplications, litSignificance],
            jsOrEmpty (Json.obj o) [litOverallSummary, litSummary, litAbstract]⟩ := rfl
      rw [hexp]
      simp only [jsOrEmpty, jsGet, ht, hkp, hm, hm2, hf, hf2, hi, hi2, ho, ho2, ho3,
        List.filterMap_cons, List.filterMap_nil, List.find?_nil]
      rfl
    show (match mapParsed (Json.obj o) with
      | some r => some r
      | none => extractPartialFields cs) = some emptyRaw
    rw [hmap]
  · intro cs h
    rw [parseStreamedResponse] at h
    rcases hj : jsonParse (jsonSlice cs) with _ | j
    · rw [hj] at h
      exact h
    · rw [hj] at h
      have h2 : (match mapParsed j with
          | some r => some r
          | none => extractPartialFields cs) = none := h
      rcases hm : mapParsed j with _ | r
      · rw [hm] at h2
        exact h2
      · rw [hm] at h2
        exact absurd h2 (by simp)

theorem full_parse_defaults_empty_witness :
    parseStreamedResponse "{}".data = some emptyRaw ∧
    extractPartialFields "xyz".data = none :=
  ⟨full_parse_defaults_empty.1 "{}".data [] rfl (by intro name h; rfl),
   full_parse_defaults_empty.2 "xyz".data rfl⟩

/-! ## C1 — prefix monotonicity of the reconstructor

### Parser: returned rests are suffixes of the input -/

theorem skipWs_suffix (cs : List Char) : skipWs cs <:+ cs := List.dropWhile_suffix _

theorem parseJStrBodyF_nil (fuel : Nat) : parseJStrBodyF fuel [] = none := by
  cases fuel <;> simp [parseJStrBodyF]

theorem hex4_suffix (xs : List Char) (n : Nat) (ys : List Char) (h : hex4 xs = some (n, ys)) :
    ys <:+ xs := by
  match xs, h with
  | [], h => exact absurd h (by simp [hex4])
  | [a], h => exact absurd h (by simp [hex4])
  | [a, b], h => exact absurd h (by simp [hex4])
  | [a, b, c], h => exact absurd h (by simp [hex4])
  | a :: b :: c :: d :: rest, h =>
    have h2 : (match hexVal a, hexVal b, hexVal c, hexVal d with
        | some x, some y, some z, some w => some ((((x * 16 + y) * 16 + z) * 16 + w, rest))
        | _, _, _, _ => none) = some (n, ys) := h
    split at h2
    · injection h2 with h3
      injection h3 with h4 h5
      subst h5
      exact ⟨[a, b, c, d], rfl⟩
    · exact absurd h2 (by simp)

theorem parseSurWith_suffix (recur : List Char → Option (List Char × List Char))
    (hrec : ∀ cs s r, recur cs = some (s, r) → r <:+ cs)
    (n : Nat) (rest3 s r : List Char) (h : parseSurWith recur n rest3 = some (s, r)) :
    r <:+ rest3 := by
  match rest3, h with
  | c1 :: c2 :: more, h =>
    have h2 :
        (if c1 = '\\' ∧ c2 = 'u' then
          match hex4 more with
          | some (m, rest4) =>
            if 0xDC00 ≤ m ∧ m ≤ 0xDFFF then
              (recur rest4).map
                (fun p =>
                  (Char.ofNat (0x10000 + (n - 0xD800) * 0x400 + (m - 0xDC00)) :: p.1, p.2))
            else (recur (c1 :: c2 :: more)).map (fun p => ('�' :: p.1, p.2))
          | none => (recur (c1 :: c2 :: more)).map (fun p => ('�' :: p.1, p.2))
        else (recur (c1 :: c2 :: more)).map (fun p => ('�' :: p.1, p.2))) = some (s, r) := h
    clear h
    by_cases hcu : c1 = '\\' ∧ c2 = 'u'
    · rw [if_pos hcu] at h2
      split at h2
      · rename_i m rest4 hh
        have hs4 : rest4 <:+ more := hex4_suffix _ _ _ hh
        by_cases hlow : 0xDC00 ≤ m ∧ m ≤ 0xDFFF
        · rw [if_pos hlow] at h2
          obtain ⟨⟨s', r'⟩, hrec2, heq⟩ := Option.map_eq_some'.mp h2
          injection heq with he1 he2
          subst he2
          exact (hrec _ _ _ hrec2).trans (hs4.trans ⟨[c1, c2], rfl⟩)
        · rw [if_neg hlow] at h2
          obtain ⟨⟨s', r'⟩, hrec2, heq⟩ := Option.map_eq_some'.mp h2
          injection heq with he1 he2
          subst he2
          exact hrec _ _ _ hrec2
      · obtain ⟨⟨s', r'⟩, hrec2, heq⟩ := Option.map_eq_some'.mp h2
        injection heq with he1 he2
        subst he2
        exact hrec _ _ _ hrec2
    · rw [if_neg hcu] at h2
      obtain ⟨⟨s', r'⟩, hrec2, heq⟩ := Option.map_eq_some'.mp h2
      injection heq with he1 he2
      subst he2
      exact hrec _ _ _ hrec2
  | [], h =>
    obtain ⟨⟨s', r'⟩, hrec2, heq⟩ := Option.map_eq_some'.mp h
    injection heq with he1 he2
    subst he2
    exact hrec _ _ _ hrec2
  | [c1], h =>
    obtain ⟨⟨s', r'⟩, hrec2, heq⟩ := Option.map_eq_some'.mp h
    injection heq with he1 he2
    subst he2
    exact hrec _ _ _ hrec2

theorem parseEscWith_suffix (recur : List Char → Option (List Char × List Char))
    (hrec : ∀ cs s r, recur cs = some (s, r) → r <:+ cs)
    (e : Char) (rest2 s r : List Char) (h : parseEscWith recur e rest2 = some (s, r)) :
    r <:+ rest2 := by
  rw [parseEscWith] at h
  by_cases hu : e = 'u'
  · rw [if_pos hu] at h
    split at h
    · exact absurd h (by simp)
    · rename_i n rest3 hh
      have hs3 : rest3 <:+ rest2 := hex4_suffix _ _ _ hh
      by_cases hsur : 0xD800 ≤ n ∧ n ≤ 0xDBFF
      · rw [if_pos hsur] at h
        exact (parseSurWith_suffix recur hrec n rest3 s r h).trans hs3
      · rw [if_neg hsur] at h
        obtain ⟨⟨s', r'⟩, hrec2, heq⟩ := Option.map_eq_some'.mp h
        injection heq with he1 he2
        subst he2
        exact (hrec _ _ _ hrec2).trans hs3
  · rw [if_neg hu] at h
    split at h
    · rename_i d hd
      obtain ⟨⟨s', r'⟩, hrec2, heq⟩ := Option.map_eq_some'.mp h
      injection heq with he1 he2
      subst he2
      exact hrec _ _ _ hrec2
    · exact absurd h (by simp)

theorem parseJStrBodyF_cons (f : Nat) (c : Char) (rest : List Char) :
    parseJStrBodyF (f + 1) (c :: rest) =
      (if c = '"' then some (([] : List Char), rest)
      else if c = '\\' then
        match rest with
        | [] => none
        | e :: rest2 => parseEscWith (parseJStrBodyF f) e rest2
      else if c.toNat < 32 then none
      else (parseJStrBodyF f rest).map (fun p => (c :: p.1, p.2))) := rfl

theorem parseJStrBodyF_suffix :
    ∀ (fuel : Nat) (cs s r : List Char), parseJStrBodyF fuel cs = some (s, r) → r <:+ cs := by
  intro fuel
  induction fuel with
  | zero => intro cs s r h; exact absurd h (by simp [parseJStrBodyF])
  | succ f ih =>
    intro cs s r h
    match cs, h with
    | [], h => exact absurd h (by simp [parseJStrBodyF])
    | c :: rest, h =>
      rw [parseJStrBodyF_cons] at h
      by_cases hc : c = '"'
      · rw [if_pos hc] at h
        injection h with h3
        injection h3 with h4 h5
        subst h5
        exact ⟨[c], rfl⟩
      · rw [if_neg hc] at h
        by_cases hb : c = '\\'
        · rw [if_pos hb] at h
          match rest, h with
          | [], h => exact absurd h (by simp)
          | e :: rest2, h =>
            exact (parseEscWith_suffix _ ih e rest2 s r h).trans ⟨[c, e], rfl⟩
        · rw [if_neg hb] at h
          by_cases hctl : c.toNat < 32
          · rw [if_pos hctl] at h
            exact absurd h (by simp)
          · rw [if_neg hctl] at h
            obtain ⟨⟨s', r'⟩, hrec, heq⟩ := Option.map_eq_some'.mp h
            injection heq with he1 he2
            subst he2
            exact (ih _ _ _ hrec).trans ⟨[c], rfl⟩

theorem parseJStrBody_suffix (cs s r : List Char) (h : parseJStrBody cs = some (s, r)) :
    r <:+ cs :=
  parseJStrBodyF_suffix _ cs s r h

theorem parseJNumFrac_suffix (cs : List Char) : (parseJNumFrac cs).2 <:+ cs := by
  rw [parseJNumFrac.eq_def]
  split
  · dsimp only
    split
    · exact List.suffix_refl _
    · exact (List.dropWhile_suffix _).trans ⟨['.'], rfl⟩
  · exact List.suffix_refl _

theorem parseJNumExp_suffix (cs : List Char) : (parseJNumExp cs).2 <:+ cs := by
  rw [parseJNumExp.eq_def]
  split
  · rename_i e rest
    split
    · dsimp only
      split
      · exact List.suffix_refl _
      · split
        · exact (List.dropWhile_suffix _).trans ⟨[e, '+'], rfl⟩
        · exact (List.dropWhile_suffix _).trans ⟨[e, '-'], rfl⟩
        · exact (List.dropWhile_suffix _).trans ⟨[e], rfl⟩
    · exact List.suffix_refl _
  · exact List.suffix_refl _
theorem parseJNum_suffix (cs lex r : List Char) (h : parseJNum cs = some (lex, r)) :
    r <:+ cs := by
  rw [parseJNum.eq_def] at h
  split at h
  · rename_i rest0
    dsimp only at h
    split at h
    · rename_i rest
      injection h with h1
      injection h1 with h2 h3
      subst h3
      exact ((parseJNumExp_suffix _).trans (parseJNumFrac_suffix rest)).trans ⟨['-', '0'], rfl⟩
    · rename_i c tl
      split at h
      · injection h with h1
        injection h1 with h2 h3
        subst h3
        exact ((((parseJNumExp_suffix _).trans (parseJNumFrac_suffix _)).trans
          (List.dropWhile_suffix _))).trans ⟨['-'], rfl⟩
      · exact absurd h (by simp)
    · exact absurd h (by simp)
  · dsimp only at h
    split at h
    · rename_i rest hne
      injection h with h1
      injection h1 with h2 h3
      subst h3
      exact ((parseJNumExp_suffix _).trans (parseJNumFrac_suffix rest)).trans ⟨['0'], rfl⟩
    · rename_i c tl hne
      split at h
      · injection h with h1
        injection h1 with h2 h3
        subst h3
        exact ((parseJNumExp_suffix _).trans (parseJNumFrac_suffix _)).trans
          (List.dropWhile_suffix _)
      · exact absurd h (by simp)
    · exact absurd h (by simp)

theorem parseVal_succ (f : Nat) (cs : List Char) :
    parseVal (f + 1) cs =
      (match skipWs cs with
      | '{' :: rest => parseMembers f (skipWs rest)
      | '[' :: rest => parseElems f (skipWs rest)
      | '"' :: rest => (parseJStrBody rest).map (fun p => (Json.str p.1, p.2))
      | 't' :: 'r' :: 'u' :: 'e' :: rest => some (Json.bool true, rest)
      | 'f' :: 'a' :: 'l' :: 's' :: 'e' :: rest => some (Json.bool false, rest)
      | 'n' :: 'u' :: 'l' :: 'l' :: rest => some (Json.null, rest)
      | other => (parseJNum other).map (fun p => (Json.num p.1, p.2))) := rfl

theorem parseMembers_succ (f : Nat) (cs : List Char) :
    parseMembers (f + 1) cs =
      (match cs with
      | '}' :: rest => some (Json.obj [], rest)
      | '"' :: rest =>
        match parseJStrBody rest with
        | some (k, r1) =>
          match skipWs r1 with
          | ':' :: r2 =>
            match parseVal f r2 with
            | some (v, r3) =>
              match skipWs r3 with
              | ',' :: r4 =>
                match skipWs r4 with
                | '}' :: _ => none
                | r5 =>
                  match parseMembers f r5 with
                  | some (Json.obj ms, r6) => some (Json.obj ((k, v) :: ms), r6)
                  | _ => none
              | '}' :: r4 => some (Json.obj [(k, v)], r4)
              | _ => none
            | none => none
          | _ => none
        | none => none
      | _ => none) := rfl

theorem parseElems_succ (f : Nat) (cs : List Char) :
    parseElems (f + 1) cs =
      (match cs with
      | ']' :: rest => some (Json.arr [], rest)
      | _ =>
        match parseVal f cs with
        | some (v, r1) =>
          match skipWs r1 with
          | ',' :: r2 =>
            match skipWs r2 with
            | ']' :: _ => none
            | r3 =>
              match parseElems f r3 with
              | some (Json.arr vs, r4) => some (Json.arr (v :: vs), r4)
              | _ => none
          | ']' :: r2 => some (Json.arr [v], r2)
          | _ => none
        | none => none) := rfl

set_option maxHeartbeats 1600000 in
theorem parser_suffix :
    ∀ fuel : Nat,
      (∀ cs v r, parseVal fuel cs = some (v, r) → r <:+ cs) ∧
      (∀ cs v r, parseMembers fuel cs = some (v, r) → r <:+ cs) ∧
      (∀ cs v r, parseElems fuel cs = some (v, r) → r <:+ cs) := by
  intro fuel
  induction fuel with
  | zero =>
    refine ⟨?_, ?_, ?_⟩ <;>
      (intro cs v r h; exact absurd h (by intro hc; exact Option.noConfusion hc))
  | succ f ih =>
    obtain ⟨ihv, ihm, ihe⟩ := ih
    have hskip : ∀ (cs r : List Char), r <:+ skipWs cs → r <:+ cs :=
      fun cs r h => h.trans (skipWs_suffix cs)
    refine ⟨?_, ?_, ?_⟩
    · intro cs v r h
      rw [parseVal_succ] at h
      split at h
      all_goals rename_i heq
      · exact hskip _ _ (heq ▸ (ihm _ _ _ h).trans ((skipWs_suffix _).trans ⟨['{'], rfl⟩))
      · exact hskip _ _ (heq ▸ (ihe _ _ _ h).trans ((skipWs_suffix _).trans ⟨['['], rfl⟩))
      · obtain ⟨⟨s', r'⟩, hrec, heqm⟩ := Option.map_eq_some'.mp h
        injection heqm with he1 he2
        subst he2
        exact hskip _ _ (heq ▸ (parseJStrBody_suffix _ _ _ hrec).trans ⟨['"'], rfl⟩)
      · injection h with h1
        injection h1 with h2 h3
        subst h3
        exact hskip _ _ (heq ▸ ⟨['t', 'r', 'u', 'e'], rfl⟩)
      · injection h with h1
        injection h1 with h2 h3
        subst h3
        exact hskip _ _ (heq ▸ ⟨['f', 'a', 'l', 's', 'e'], rfl⟩)
      · injection h with h1
        injection h1 with h2 h3
        subst h3
        exact hskip _ _ (heq ▸ ⟨['n', 'u', 'l', 'l'], rfl⟩)
      · obtain ⟨⟨s', r'⟩, hrec, heqm⟩ := Option.map_eq_some'.mp h
        injection heqm with he1 he2
        subst he2
        exact hskip _ _ (parseJNum_suffix _ _ _ hrec)
    · intro cs v r h
      rw [parseMembers_succ] at h
      split at h
      · injection h with h1
        injection h1 with h2 h3
        subst h3
        exact ⟨['}'], rfl⟩
      · rename_i rest
        split at h
        · rename_i k r1 hjs
          split at h
          · rename_i r2 hsk1
            split at h
            · rename_i v' r3 hpv
              have hr3 : r3 <:+ rest :=
                ((ihv _ _ _ hpv).trans
                  ((List.suffix_cons ':' r2).trans
                    (hsk1 ▸ skipWs_suffix r1))).trans (parseJStrBody_suffix _ _ _ hjs)
              split at h
              · rename_i r4 hsk3
                have hr4 : r4 <:+ rest :=
                  ((List.suffix_cons ',' r4).trans (hsk3 ▸ skipWs_suffix r3)).trans hr3
                split at h
                · exact absurd h (by simp)
                · rename_i r5 hne
                  split at h
                  · rename_i ms r6 hpm
                    injection h with h1
                    injection h1 with h2 h3
                    subst h3
                    exact (((ihm _ _ _ hpm).trans (skipWs_suffix r4)).trans hr4).trans
                      ⟨['"'], rfl⟩
                  · exact absurd h (by simp)
              · rename_i r4 hsk3
                injection h with h1
                injection h1 with h2 h3
                subst h3
                exact (((List.suffix_cons '}' r4).trans
                  (hsk3 ▸ skipWs_suffix r3)).trans hr3).trans ⟨['"'], rfl⟩
              · exact absurd h (by simp)
            · exact absurd h (by simp)
          · exact absurd h (by simp)
        · exact absurd h (by simp)
      · exact absurd h (by simp)
    · intro cs v r h
      rw [parseElems_succ] at h
      split at h
      · injection h with h1
        injection h1 with h2 h3
        subst h3
        exact ⟨[']'], rfl⟩
      · split at h
        · rename_i v' r1 hpv
          have hr1 : r1 <:+ cs := ihv _ _ _ hpv
          split at h
          · rename_i r2 hsk1
            have hr2 : r2 <:+ cs :=
              ((List.suffix_cons ',' r2).trans (hsk1 ▸ skipWs_suffix r1)).trans hr1
            split at h
            · exact absurd h (by simp)
            · rename_i r3 hne
              split at h
              · rename_i vs r4 hpe
                injection h with h1
                injection h1 with h2 h3
                subst h3
                exact ((ihe _ _ _ hpe).trans (skipWs_suffix r2)).trans hr2
              · exact absurd h (by simp)
          · rename_i r2 hsk1
            injection h with h1
            injection h1 with h2 h3
            subst h3
            exact ((List.suffix_cons ']' r2).trans (hsk1 ▸ skipWs_suffix r1)).trans hr1
          · exact absurd h (by simp)
        · exact absurd h (by simp)

theorem notMem_of_suffix {a : Char} {l₁ l₂ : List Char} (h : l₁ <:+ l₂) (hn : a ∉ l₂) :
    a ∉ l₁ := fun hm => hn (h.subset hm)

theorem findIdxQ_none {c : Char} :
    ∀ l : List Char, c ∉ l → l.findIdx? (fun x => decide (x = c)) = none := by
  intro l h
  rw [List.findIdx?_eq_none_iff]
  intro x hx
  simp only [decide_eq_false_iff_not]
  intro he
  exact h (he ▸ hx)

set_option maxHeartbeats 1600000 in
theorem parseMembers_noRBrace : ∀ fuel cs, '}' ∉ cs → parseMembers fuel cs = none := by
  intro fuel
  induction fuel with
  | zero => intro cs h; rfl
  | succ f ih =>
    intro cs h
    rw [parseMembers_succ]
    split
    · rename_i rest
      exact absurd (List.mem_cons_self '}' rest) h
    · rename_i rest
      have hr : '}' ∉ rest := fun hm => h (List.mem_cons_of_mem _ hm)
      split
      · rename_i k r1 heq1
        have h1 : '}' ∉ r1 := notMem_of_suffix (parseJStrBody_suffix _ _ _ heq1) hr
        split
        · rename_i r2 heq2
          have h2 : '}' ∉ r2 :=
            notMem_of_suffix ((List.suffix_cons ':' r2).trans (heq2 ▸ skipWs_suffix r1)) h1
          split
          · rename_i v r3 heq3
            have h3 : '}' ∉ r3 := notMem_of_suffix ((parser_suffix f).1 _ _ _ heq3) h2
            split
            · rename_i r4 heq4
              have h4 : '}' ∉ r4 :=
                notMem_of_suffix ((List.suffix_cons ',' r4).trans (heq4 ▸ skipWs_suffix r3)) h3
              split
              · rfl
              · rename_i hne
                have h5 : '}' ∉ skipWs r4 := notMem_of_suffix (skipWs_suffix r4) h4
                rw [ih _ h5]
            · rename_i r4 heq4
              exact absurd ((heq4 ▸ skipWs_suffix r3).subset (List.mem_cons_self '}' r4)) h3
            · rfl
          · rfl
        · rfl
      · rfl
    · rfl

theorem skipWs_cons_nws (c : Char) (body : List Char) (h : isWs c = false) :
    skipWs (c :: body) = c :: body := by
  simp [skipWs, List.dropWhile_cons, h]

theorem jsonSlice_noRBrace (cs : List Char) (h : '}' ∉ cs) : jsonSlice cs = cs := by
  have h2 : cs.reverse.findIdx? (fun x => decide (x = '}')) = none :=
    findIdxQ_none _ (fun hm => h (List.mem_reverse.mp hm))
  unfold jsonSlice
  rw [h2]
  split
  · rename_i i k heq
    exact Option.noConfusion heq
  · rfl

set_option maxHeartbeats 800000 in
theorem jsonParse_obj_noRBrace (body : List Char) (h : '}' ∉ body) :
    jsonParse ('{' :: body) = none := by
  have hsk : skipWs ('{' :: body) = '{' :: body := skipWs_cons_nws _ _ (by decide)
  have hv : parseVal (('{' :: body).length + 1) ('{' :: body) = none := by
    rw [List.length_cons, parseVal_succ, hsk]
    exact parseMembers_noRBrace _ _ (fun hm => h ((skipWs_suffix body).subset hm))
  unfold jsonParse
  rw [hv]

theorem psr_obj_noRBrace (body : List Char) (h : '}' ∉ body) :
    parseStreamedResponse ('{' :: body) = extractPartialFields ('{' :: body) := by
  have hsl : jsonSlice ('{' :: body) = '{' :: body :=
    jsonSlice_noRBrace _ (by
      intro hm
      rcases List.mem_cons.mp hm with he | hm'
      · exact absurd he (by decide)
      · exact h hm')
  unfold parseStreamedResponse
  rw [hsl, jsonParse_obj_noRBrace body h]

theorem serialize_eq_head_concat (t : TargetSummary) :
    serialize t = serialHead t ++ ['}'] := by
  simp [serialize, serialHead, List.cons_append, List.append_assoc]

theorem plain_headChar {v : List Char} (hv : plainL v = true) : ∀ c ∈ v, headChar c :=
  fun c hc => Or.inl (List.all_eq_true.mp hv c hc)

theorem kvSeg_chars {name v : List Char} (hn : ∀ c ∈ name, headChar c)
    (hv : ∀ c ∈ v, headChar c) : ∀ c ∈ kvSeg name v, headChar c := by
  simp only [kvSeg, List.forall_mem_cons, List.forall_mem_append,
    List.forall_mem_singleton]
  repeat' apply And.intro
  all_goals first | decide | exact hn | exact hv

theorem itemsSeg_chars :
    ∀ ps : List (List Char), (∀ p ∈ ps, ∀ c ∈ p, headChar c) →
      ∀ c ∈ itemsSeg ps, headChar c := by
  intro ps
  induction ps with
  | nil => intro _ c hc; exact absurd hc (by intro hx; exact (List.not_mem_nil c) hx)
  | cons p ps ih =>
    intro hall
    match ps with
    | [] =>
      simp only [itemsSeg, List.forall_mem_cons, List.forall_mem_append,
        List.forall_mem_singleton, List.forall_mem_nil]
      repeat' apply And.intro
      all_goals first | decide | trivial | exact hall p (List.mem_cons_self _ _)
    | q :: qs =>
      simp only [itemsSeg, List.forall_mem_cons, List.forall_mem_append]
      repeat' apply And.intro
      all_goals
        first
        | decide
        | exact hall p (List.mem_cons_self _ _)
        | exact ih (fun r hr => hall r (List.mem_cons_of_mem _ hr))

theorem serialHead_chars (t : TargetSummary) (hp : plainTarget t = true) :
    ∀ c ∈ serialHead t, headChar c := by
  have h6 := hp
  simp only [plainTarget, Bool.and_eq_true] at h6
  obtain ⟨⟨⟨⟨⟨h1, h2⟩, h3⟩, h4⟩, h5⟩, h6'⟩ := h6
  simp only [serialHead, List.forall_mem_cons, List.forall_mem_append]
  repeat' apply And.intro
  all_goals
    first
    | decide
    | exact kvSeg_chars (by decide) (plain_headChar h1)
    | exact kvSeg_chars (by decide) (plain_headChar h3)
    | exact kvSeg_chars (by decide) (plain_headChar h4)
    | exact kvSeg_chars (by decide) (plain_headChar h5)
    | exact kvSeg_chars (by decide) (plain_headChar h6')
    | exact itemsSeg_chars _ (fun p hp' => plain_headChar (List.all_eq_true.mp h2 p hp'))

theorem serialHead_no_rbrace (t : TargetSummary) (hp : plainTarget t = true) :
    '}' ∉ serialHead t := by
  intro hm
  have h := serialHead_chars t hp '}' hm
  revert h
  decide

theorem prefix_falls_to_partial (t : TargetSummary) (hp : plainTarget t = true)
    (n : Nat) (hn : n < (serialize t).length) :
    parseStreamedResponse ((serialize t).take n) =
      extractPartialFields ((serialize t).take n) := by
  obtain ⟨hs, hhs⟩ : ∃ hs, serialHead t = '{' :: hs := ⟨_, rfl⟩
  have hlen : (serialize t).length = hs.length + 2 := by
    rw [serialize_eq_head_concat, hhs]
    simp
  match n with
  | 0 =>
    rw [List.take_zero]
    rfl
  | m + 1 =>
    have hm : m ≤ hs.length := by
      rw [hlen] at hn
      omega
    have hrw : (serialize t).take (m + 1) = '{' :: hs.take m := by
      rw [serialize_eq_head_concat, hhs, List.cons_append, List.take_succ_cons,
        List.take_append_of_le_length hm]
    rw [hrw]
    exact psr_obj_noRBrace _ (fun hmem =>
      serialHead_no_rbrace t hp (hhs ▸ List.mem_cons_of_mem '{' (List.take_subset m hs hmem)))

theorem plainChar_props {c : Char} (h : plainChar c = true) :
    c ≠ '"' ∧ c ≠ '\\' ∧ ¬ c.toNat < 32 := by
  simp only [plainChar, Bool.and_eq_true, decide_eq_true_eq] at h
  exact ⟨h.1, h.2.1, by omega⟩

theorem plainL_cons {c : Char} {v : List Char} (h : plainL (c :: v) = true) :
    plainChar c = true ∧ plainL v = true := by
  simp only [plainL, List.all_cons, Bool.and_eq_true] at h
  exact h

theorem parseJStrBodyF_plain (v : List Char) (hv : plainL v = true) :
    ∀ (fuel : Nat) (rest : List Char), v.length < fuel →
      parseJStrBodyF fuel (v ++ '"' :: rest) = some (v, rest) := by
  induction v with
  | nil =>
    intro fuel rest hf
    match fuel, hf with
    | f + 1, _ => rfl
  | cons c v ih =>
    intro fuel rest hf
    obtain ⟨hc, hv'⟩ := plainL_cons hv
    obtain ⟨h1, h2, h3⟩ := plainChar_props hc
    match fuel, hf with
    | f + 1, hf =>
      rw [List.cons_append, parseJStrBodyF_cons, if_neg h1, if_neg h2, if_neg h3,
        ih hv' f rest (by simpa using Nat.lt_of_succ_lt_succ hf)]
      rfl

theorem itemsSeg_cons₂ (p q : List Char) (qs : List (List Char)) :
    itemsSeg (p :: q :: qs) = '"' :: p ++ '"' :: ',' :: itemsSeg (q :: qs) := rfl

theorem itemsSeg_cons_head (q : List Char) (qs : List (List Char)) :
    ∃ Z, itemsSeg (q :: qs) = '"' :: Z := by
  match qs with
  | [] => exact ⟨q ++ ['"'], rfl⟩
  | r :: rs => exact ⟨q ++ '"' :: ',' :: itemsSeg (r :: rs), rfl⟩

theorem parseVal_quote (f : Nat) (X : List Char) :
    parseVal (f + 1) ('"' :: X) =
      (parseJStrBody X).map (fun p => (Json.str p.1, p.2)) := rfl

theorem parseVal_lbrack (f : Nat) (X : List Char) :
    parseVal (f + 1) ('[' :: X) = parseElems f (skipWs X) := rfl

theorem parseElems_rb (f : Nat) (rest : List Char) :
    parseElems (f + 1) (']' :: rest) = some (Json.arr [], rest) := rfl

theorem parseElems_quote (f : Nat) (X : List Char) :
    parseElems (f + 1) ('"' :: X) =
      (match parseVal f ('"' :: X) with
      | some (v, r1) =>
        match skipWs r1 with
        | ',' :: r2 =>
          match skipWs r2 with
          | ']' :: _ => none
          | r3 =>
            match parseElems f r3 with
            | some (Json.arr vs, r4) => some (Json.arr (v :: vs), r4)
            | _ => none
        | ']' :: r2 => some (Json.arr [v], r2)
        | _ => none
      | none => none) := rfl

theorem parseMembers_quote (f : Nat) (X : List Char) :
    parseMembers (f + 1) ('"' :: X) =
      (match parseJStrBody X with
      | some (k, r1) =>
        match skipWs r1 with
        | ':' :: r2 =>
          match parseVal f r2 with
          | some (v, r3) =>
            match skipWs r3 with
            | ',' :: r4 =>
              match skipWs r4 with
              | '}' :: _ => none
              | r5 =>
                match parseMembers f r5 with
                | some (Json.obj ms, r6) => some (Json.obj ((k, v) :: ms), r6)
                | _ => none
            | '}' :: r4 => some (Json.obj [(k, v)], r4)
            | _ => none
          | none => none
        | _ => none
      | none => none) := rfl

theorem parseJStrBody_plain (v : List Char) (hv : plainL v = true) (rest : List Char) :
    parseJStrBody (v ++ '"' :: rest) = some (v, rest) :=
  parseJStrBodyF_plain v hv _ rest
    (by simp [List.length_append]; omega)

theorem parseVal_str (f : Nat) (v : List Char) (hv : plainL v = true) (rest : List Char) :
    parseVal (f + 1) ('"' :: (v ++ '"' :: rest)) = some (Json.str v, rest) := by
  rw [parseVal_quote, parseJStrBody_plain v hv rest]
  rfl

theorem skipWs_colon (X : List Char) : skipWs (':' :: X) = ':' :: X :=
  skipWs_cons_nws _ _ (by decide)

theorem skipWs_comma (X : List Char) : skipWs (',' :: X) = ',' :: X :=
  skipWs_cons_nws _ _ (by decide)

theorem skipWs_quote (X : List Char) : skipWs ('"' :: X) = '"' :: X :=
  skipWs_cons_nws _ _ (by decide)

theorem skipWs_rb (X : List Char) : skipWs (']' :: X) = ']' :: X :=
  skipWs_cons_nws _ _ (by decide)

theorem skipWs_rcb (X : List Char) : skipWs ('}' :: X) = '}' :: X :=
  skipWs_cons_nws _ _ (by decide)

theorem parseMembers_str_step (f : Nat) (name v X : List Char)
    (hn : plainL name = true) (hv : plainL v = true) :
    parseMembers (f + 1 + 1) ('"' :: (name ++ '"' :: ':' :: '"' :: (v ++ '"' :: ',' :: '"' :: X)))
      = (match parseMembers (f + 1) ('"' :: X) with
        | some (Json.obj ms, r6) => some (Json.obj ((name, Json.str v) :: ms), r6)
        | _ => none) := by
  conv_lhs =>
    simp only [parseMembers_quote, parseJStrBody_plain name hn, skipWs_colon,
      parseVal_str f v hv, skipWs_comma, skipWs_quote]
  rfl

theorem parseMembers_str_last (f : Nat) (name v rest : List Char)
    (hn : plainL name = true) (hv : plainL v = true) :
    parseMembers (f + 1 + 1) ('"' :: (name ++ '"' :: ':' :: '"' :: (v ++ '"' :: '}' :: rest)))
      = some (Json.obj [(name, Json.str v)], rest) := by
  conv_lhs =>
    simp only [parseMembers_quote, parseJStrBody_plain name hn, skipWs_colon,
      parseVal_str f v hv, skipWs_rcb]

theorem skipWs_items (ps : List (List Char)) (Y : List Char) :
    skipWs (itemsSeg ps ++ ']' :: Y) = itemsSeg ps ++ ']' :: Y := by
  match ps with
  | [] => exact skipWs_rb Y
  | q :: qs =>
    obtain ⟨Z, hZ⟩ := itemsSeg_cons_head q qs
    rw [hZ, List.cons_append, skipWs_quote]

theorem parseElems_items :
    ∀ ps : List (List Char), ps.all plainL = true →
      ∀ (f : Nat) (rest : List Char), ps.length + 1 ≤ f →
        parseElems f (itemsSeg ps ++ ']' :: rest) =
          some (Json.arr (ps.map Json.str), rest) := by
  intro ps
  induction ps with
  | nil =>
    intro _ f rest hf
    match f, hf with
    | f' + 1, _ => exact parseElems_rb f' rest
  | cons p ps ih =>
    intro hall f rest hf
    have hps' := List.all_cons .. ▸ hall
    have hp : plainL p = true := (Bool.and_eq_true ..  ▸ hps').1
    have hps : ps.all plainL = true := (Bool.and_eq_true .. ▸ hps').2
    match ps with
    | [] =>
      match f, hf with
      | f'' + 1 + 1, _ =>
        have hshape : itemsSeg [p] ++ ']' :: rest = '"' :: (p ++ '"' :: ']' :: rest) := by
          simp [itemsSeg, List.cons_append, List.append_assoc]
        rw [hshape]
        conv_lhs =>
          simp only [parseElems_quote, parseVal_str f'' p hp, skipWs_rb]
        rfl
    | q :: qs =>
      match f, hf with
      | f' + 1 + 1, hf =>
        obtain ⟨Z, hZ⟩ := itemsSeg_cons_head q qs
        have hshape : itemsSeg (p :: q :: qs) ++ ']' :: rest
            = '"' :: (p ++ '"' :: ',' :: '"' :: (Z ++ ']' :: rest)) := by
          rw [itemsSeg_cons₂, hZ]
          simp [List.cons_append, List.append_assoc]
        rw [hshape]
        conv_lhs =>
          simp only [parseElems_quote, parseVal_str f' p hp, skipWs_comma,
            skipWs_quote]
        show (match parseElems (f' + 1) ('"' :: (Z ++ ']' :: rest)) with
              | some (Json.arr vs, r4) => some (Json.arr (Json.str p :: vs), r4)
              | _ => none) =
            some (Json.arr ((p :: q :: qs).map Json.str), rest)
        have hback : ('"' : Char) :: (Z ++ ']' :: rest) = itemsSeg (q :: qs) ++ ']' :: rest := by
          rw [hZ, List.cons_append]
        rw [hback, ih hps (f' + 1) rest (by simp at hf ⊢; omega)]
        rfl

theorem parseMembers_arr_step (f : Nat) (name : List Char) (ps : List (List Char))
    (X : List Char) (hn : plainL name = true) (hps : ps.all plainL = true)
    (hf : ps.length + 1 ≤ f) :
    parseMembers (f + 1 + 1)
        ('"' :: (name ++ '"' :: ':' :: '[' :: (itemsSeg ps ++ ']' :: ',' :: '"' :: X)))
      = (match parseMembers (f + 1) ('"' :: X) with
        | some (Json.obj ms, r6) =>
          some (Json.obj ((name, Json.arr (ps.map Json.str)) :: ms), r6)
        | _ => none) := by
  have hitems := parseElems_items ps hps f (',' :: '"' :: X) hf
  conv_lhs =>
    simp only [parseMembers_quote, parseJStrBody_plain name hn, skipWs_colon,
      parseVal_lbrack, skipWs_items, hitems, skipWs_comma, skipWs_quote]
  rfl

theorem plainTarget_fields {t : TargetSummary} (hp : plainTarget t = true) :
    plainL t.title = true ∧ t.keyPoints.all plainL = true ∧ plainL t.methodology = true ∧
      plainL t.findings = true ∧ plainL t.implications = true ∧
      plainL t.overallSummary = true := by
  simp only [plainTarget, Bool.and_eq_true] at hp
  exact ⟨hp.1.1.1.1.1, hp.1.1.1.1.2, hp.1.1.1.2, hp.1.1.2, hp.1.2, hp.2⟩

theorem parseMembers_full (K : Nat) (t : TargetSummary) (hp : plainTarget t = true)
    (hk : t.keyPoints.length + 1 ≤ K + 4) :
    parseMembers (K + 1 + 1 + 1 + 1 + 1 + 1 + 1)
        ('"' :: (litTitle ++ '"' :: ':' :: '"' :: (t.title ++ '"' :: ',' :: '"' ::
          (litKeyPoints ++ '"' :: ':' :: '[' :: (itemsSeg t.keyPoints ++ ']' :: ',' :: '"' ::
          (litMethodology ++ '"' :: ':' :: '"' :: (t.methodology ++ '"' :: ',' :: '"' ::
          (litFindings ++ '"' :: ':' :: '"' :: (t.findings ++ '"' :: ',' :: '"' ::
          (litImplications ++ '"' :: ':' :: '"' :: (t.implications ++ '"' :: ',' :: '"' ::
          (litOverallSummary ++ '"' :: ':' :: '"' ::
            (t.overallSummary ++ '"' :: '}' :: ([] : List Char))))))))))))))
      = some (objFor t, []) := by
  obtain ⟨h1, h2, h3, h4, h5, h6⟩ := plainTarget_fields hp
  rw [parseMembers_str_step (K + 1 + 1 + 1 + 1 + 1) litTitle t.title _ (by decide) h1]
  rw [parseMembers_arr_step (K + 1 + 1 + 1 + 1) litKeyPoints t.keyPoints _ (by decide) h2
    (by omega)]
  rw [parseMembers_str_step (K + 1 + 1 + 1) litMethodology t.methodology _ (by decide) h3]
  rw [parseMembers_str_step (K + 1 + 1) litFindings t.findings _ (by decide) h4]
  rw [parseMembers_str_step (K + 1) litImplications t.implications _ (by decide) h5]
  rw [parseMembers_str_last K litOverallSummary t.overallSummary [] (by decide) h6]
  rfl

theorem parseVal_lbrace (f : Nat) (X : List Char) :
    parseVal (f + 1) ('{' :: X) = parseMembers f (skipWs X) := rfl

theorem itemsSeg_length_ge : ∀ ps : List (List Char), ps.length ≤ (itemsSeg ps).length + 1 := by
  intro ps
  induction ps with
  | nil => simp [itemsSeg]
  | cons p ps ih =>
    match ps with
    | [] => simp [itemsSeg]
    | q :: qs =>
      rw [itemsSeg_cons₂]
      simp only [List.length_cons, List.length_append] at ih ⊢
      omega

theorem serialize_length_ge (t : TargetSummary) :
    t.keyPoints.length + 11 ≤ (serialize t).length := by
  have h1 := itemsSeg_length_ge t.keyPoints
  simp only [serialize, kvSeg, litTitle, litKeyPoints, litMethodology, litFindings,
    litImplications, litOverallSummary, List.length_append, List.length_cons,
    List.length_nil]
  omega

theorem serialize_normal (t : TargetSummary) :
    serialize t = '{' :: '"' :: (litTitle ++ '"' :: ':' :: '"' :: (t.title ++ '"' :: ',' :: '"' ::
      (litKeyPoints ++ '"' :: ':' :: '[' :: (itemsSeg t.keyPoints ++ ']' :: ',' :: '"' ::
      (litMethodology ++ '"' :: ':' :: '"' :: (t.methodology ++ '"' :: ',' :: '"' ::
      (litFindings ++ '"' :: ':' :: '"' :: (t.findings ++ '"' :: ',' :: '"' ::
      (litImplications ++ '"' :: ':' :: '"' :: (t.implications ++ '"' :: ',' :: '"' ::
      (litOverallSummary ++ '"' :: ':' :: '"' ::
        (t.overallSummary ++ '"' :: '}' :: ([] : List Char))))))))))))) := by
  simp [serialize, kvSeg, List.cons_append, List.append_assoc]

theorem jsonParse_serialize (t : TargetSummary) (hp : plainTarget t = true) :
    jsonParse (serialize t) = some (objFor t) := by
  obtain ⟨K, hK⟩ : ∃ K, (serialize t).length = K + 1 + 1 + 1 + 1 + 1 + 1 + 1 :=
    ⟨(serialize t).length - 7, by have := serialize_length_ge t; omega⟩
  have hk : t.keyPoints.length + 1 ≤ K + 4 := by
    have h1 := serialize_length_ge t
    omega
  unfold jsonParse
  rw [hK]
  conv_lhs => rw [serialize_normal t]
  rw [parseVal_lbrace, skipWs_quote, parseMembers_full K t hp hk]
  rfl

theorem jsonSlice_serialize (t : TargetSummary) : jsonSlice (serialize t) = serialize t := by
  have hfst : (serialize t).findIdx? (fun x => decide (x = '{')) = some 0 := by
    rw [serialize_normal t]
    rfl
  have hlast : (serialize t).reverse.findIdx? (fun x => decide (x = '}')) = some 0 := by
    rw [serialize_eq_head_concat t, List.reverse_append]
    rfl
  have hlen := serialize_length_ge t
  unfold jsonSlice
  rw [hfst, hlast]
  show (if 0 < (serialize t).length - 1 - 0 then
      ((serialize t).take ((serialize t).length - 1 - 0 + 1)).drop 0
    else serialize t) = serialize t
  rw [if_pos (by omega)]
  have hj : (serialize t).length - 1 - 0 + 1 = (serialize t).length := by omega
  rw [hj, List.take_length, List.drop_zero]

theorem mapParsed_objFor (t : TargetSummary) : mapParsed (objFor t) = some (rawOf t) := by
  obtain ⟨T, ps, m, fd, im, os⟩ := t
  have hT : jsOrEmpty (objFor ⟨T, ps, m, fd, im, os⟩) [litTitle] = Json.str T := by
    cases T with
    | nil => rfl
    | cons a l => rfl
  have hM : jsOrEmpty (objFor ⟨T, ps, m, fd, im, os⟩) [litMethodology, litMethods]
      = Json.str m := by
    cases m with
    | nil => rfl
    | cons a l => rfl
  have hF : jsOrEmpty (objFor ⟨T, ps, m, fd, im, os⟩) [litFindings, litResults]
      = Json.str fd := by
    cases fd with
    | nil => rfl
    | cons a l => rfl
  have hI : jsOrEmpty (objFor ⟨T, ps, m, fd, im, os⟩) [litImplications, litSignificance]
      = Json.str im := by
    cases im with
    | nil => rfl
    | cons a l => rfl
  have hO : jsOrEmpty (objFor ⟨T, ps, m, fd, im, os⟩)
      [litOverallSummary, litSummary, litAbstract] = Json.str os := by
    cases os with
    | nil => rfl
    | cons a l => rfl
  show some
      ({ title := jsOrEmpty (objFor ⟨T, ps, m, fd, im, os⟩) [litTitle]
         keyPoints :=
           match jsGet (objFor ⟨T, ps, m, fd, im, os⟩) litKeyPoints with
           | some (.arr xs) => xs
           | _ => []
         methodology := jsOrEmpty (objFor ⟨T, ps, m, fd, im, os⟩) [litMethodology, litMethods]
         findings := jsOrEmpty (objFor ⟨T, ps, m, fd, im, os⟩) [litFindings, litResults]
         implications :=
           jsOrEmpty (objFor ⟨T, ps, m, fd, im, os⟩) [litImplications, litSignificance]
         overallSummary :=
           jsOrEmpty (objFor ⟨T, ps, m, fd, im, os⟩)
             [litOverallSummary, litSummary, litAbstract] } : RawSummary)
      = some (rawOf ⟨T, ps, m, fd, im, os⟩)
  rw [hT, hM, hF, hI, hO]
  rfl

theorem psr_serialize (t : TargetSummary) (hp : plainTarget t = true) :
    parseStreamedResponse (serialize t) = some (rawOf t) := by
  unfold parseStreamedResponse
  simp only [jsonSlice_serialize t, jsonParse_serialize t hp, mapParsed_objFor t]

theorem matchLit_self_trunc (L : List Char) :
    ∀ (R : List Char) (k : Nat),
      matchLit L ((L ++ R).take k) =
        if L.length ≤ k then some (R.take (k - L.length)) else none := by
  induction L with
  | nil =>
    intro R k
    simp [matchLit]
  | cons a L ih =>
    intro R k
    match k with
    | 0 => simp [matchLit]
    | k + 1 =>
      rw [List.cons_append, List.take_succ_cons]
      show (if a = a then matchLit L ((L ++ R).take k) else none) = _
      rw [if_pos rfl, ih R k]
      by_cases h : L.length ≤ k
      · rw [if_pos h, if_pos (by simpa using Nat.succ_le_succ h)]
        have he : k + 1 - (a :: L).length = k - L.length := by
          simp only [List.length_cons]
          omega
        rw [he]
      · rw [if_neg h, if_neg (by simpa using fun hh => h (Nat.le_of_succ_le_succ hh))]

theorem matchLit_pq (F : List Char) :
    ∀ (V R : List Char), plainL F = true → plainL V = true →
      matchLit (F ++ ['"']) (V ++ '"' :: R) = if F = V then some R else none := by
  induction F with
  | nil =>
    intro V R _ hV
    match V with
    | [] => rfl
    | c :: V' =>
      obtain ⟨hc, _⟩ := plainL_cons hV
      obtain ⟨h1, _, _⟩ := plainChar_props hc
      rw [List.nil_append, List.cons_append]
      show (if c = '"' then matchLit [] (V' ++ '"' :: R) else none) = _
      rw [if_neg h1, if_neg (by intro h; exact List.noConfusion h)]
  | cons a F' ih =>
    intro V R hF hV
    obtain ⟨ha, hF'⟩ := plainL_cons hF
    obtain ⟨ha1, _, _⟩ := plainChar_props ha
    match V with
    | [] =>
      rw [List.nil_append, List.cons_append]
      show (if '"' = a then matchLit (F' ++ ['"']) R else none) = _
      rw [if_neg (fun h => ha1 h.symm), if_neg (by intro h; exact List.noConfusion h)]
    | c :: V' =>
      obtain ⟨hc, hV'⟩ := plainL_cons hV
      rw [List.cons_append, List.cons_append]
      show (if c = a then matchLit (F' ++ ['"']) (V' ++ '"' :: R) else none) = _
      by_cases hca : c = a
      · rw [if_pos hca, ih V' R hF' hV']
        subst hca
        by_cases hFV : F' = V'
        · rw [if_pos hFV, if_pos (by rw [hFV])]
        · rw [if_neg hFV, if_neg (by intro h; exact hFV (List.cons.injEq .. ▸ h).2)]
      · rw [if_neg hca, if_neg (by intro h; exact hca ((List.cons.injEq .. ▸ h).1).symm)]

theorem matchLit_cons (l : Char) (ls : List Char) (c : Char) (cs : List Char) :
    matchLit (l :: ls) (c :: cs) = if c = l then matchLit ls cs else none := rfl

theorem matchPat_quote_eq (name : List Char) (op : Char) (X : List Char) :
    matchPat name op ('"' :: X) =
      (match matchLit (name ++ ['"']) X with
      | some r1 =>
        match skipWs r1 with
        | ':' :: r2 =>
          match skipWs r2 with
          | c :: r3 => if c = op then some r3 else none
          | [] => none
        | _ => none
      | none => none) := rfl

theorem matchPat_not_quote (name : List Char) (op c : Char) (R : List Char) (hc : c ≠ '"') :
    matchPat name op (c :: R) = none := by
  unfold matchPat
  split
  · rename_i rest heq
    exact absurd (List.cons.injEq .. ▸ heq).1 hc
  · rfl

theorem matchPat_val_quote (F V : List Char) (op c : Char) (R : List Char)
    (hF : plainL F = true) (hV : plainL V = true) (hcw : isWs c = false) (hcc : c ≠ ':') :
    matchPat F op ('"' :: (V ++ '"' :: c :: R)) = none := by
  rw [matchPat_quote_eq, matchLit_pq F V (c :: R) hF hV]
  by_cases hFV : F = V
  · rw [if_pos hFV]
    show (match skipWs (c :: R) with
          | ':' :: r2 =>
            match skipWs r2 with
            | c' :: r3 => if c' = op then some r3 else none
            | [] => none
          | _ => none) = none
    rw [skipWs_cons_nws c R hcw]
    split
    · rename_i r2 heq
      exact absurd (List.cons.injEq .. ▸ heq).1 hcc
    · rfl
  · rw [if_neg hFV]

theorem matchPat_name_ne (F V : List Char) (op : Char) (R : List Char)
    (hF : plainL F = true) (hV : plainL V = true) (hne : F ≠ V) :
    matchPat F op ('"' :: (V ++ '"' :: R)) = none := by
  rw [matchPat_quote_eq, matchLit_pq F V R hF hV, if_neg hne]

theorem matchPat_second_ne (f₀ : Char) (F' : List Char) (op c : Char) (R : List Char)
    (hc : c ≠ f₀) : matchPat (f₀ :: F') op ('"' :: c :: R) = none := by
  rw [matchPat_quote_eq, List.cons_append, matchLit_cons, if_neg hc]

theorem matchPat_canon_trunc (F W : List Char) (op : Char) (m : Nat)
    (hop : isWs op = false) :
    matchPat F op (('"' :: (F ++ '"' :: ':' :: op :: W)).take m) =
      if F.length + 4 ≤ m then some (W.take (m - (F.length + 4))) else none := by
  match m with
  | 0 =>
    rw [List.take_zero, if_neg (by omega)]
    rfl
  | k + 1 =>
    rw [List.take_succ_cons, matchPat_quote_eq]
    have hassoc : F ++ '"' :: ':' :: op :: W = (F ++ ['"']) ++ (':' :: op :: W) := by simp
    rw [hassoc, matchLit_self_trunc (F ++ ['"']) (':' :: op :: W) k]
    have hlen1 : (F ++ ['"']).length = F.length + 1 := by simp
    by_cases h1 : (F ++ ['"']).length ≤ k
    · rw [if_pos h1, hlen1]
      obtain hj | hj | hj : k - (F.length + 1) = 0 ∨ k - (F.length + 1) = 1 ∨
          2 ≤ k - (F.length + 1) := by omega
      · rw [hj, if_neg (by rw [hlen1] at h1; omega)]
        rfl
      · rw [hj, if_neg (by rw [hlen1] at h1; omega)]
        rfl
      · obtain ⟨j, hjj⟩ : ∃ j, k - (F.length + 1) = j + 1 + 1 :=
          ⟨k - (F.length + 1) - 2, by omega⟩
        rw [hjj, List.take_succ_cons, List.take_succ_cons]
        show (match skipWs (op :: W.take j) with
              | c' :: r3 => if c' = op then some r3 else none
              | [] => none) = _
        rw [skipWs_cons_nws op _ hop]
        show (if op = op then some (W.take j) else none) = _
        rw [if_pos rfl, if_pos (by rw [hlen1] at h1; omega)]
        have he : k + 1 - (F.length + 4) = j := by rw [hlen1] at h1; omega
        rw [he]
    · rw [if_neg h1, if_neg (by rw [hlen1] at h1; omega)]

theorem matchLit_extend :
    ∀ (L P : List Char) (r E : List Char), matchLit L P = some r →
      matchLit L (P ++ E) = some (r ++ E) := by
  intro L
  induction L with
  | nil =>
    intro P r E h
    injection h with h1
    subst h1
    rfl
  | cons l ls ih =>
    intro P r E h
    match P with
    | [] => exact absurd h (by simp [matchLit])
    | c :: cs =>
      rw [matchLit_cons] at h
      rw [List.cons_append, matchLit_cons]
      by_cases hc : c = l
      · rw [if_pos hc] at h ⊢
        exact ih cs r E h
      · rw [if_neg hc] at h
        exact absurd h (by simp)

theorem skipWs_extend :
    ∀ (X : List Char) (c : Char) (Y E : List Char), skipWs X = c :: Y →
      skipWs (X ++ E) = c :: (Y ++ E) := by
  intro X
  induction X with
  | nil =>
    intro c Y E h
    exact absurd h (by simp [skipWs])
  | cons a X' ih =>
    intro c Y E h
    rw [show skipWs (a :: X') = if isWs a then skipWs X' else a :: X' from
      List.dropWhile_cons ..] at h
    rw [List.cons_append, show skipWs (a :: (X' ++ E)) =
      if isWs a then skipWs (X' ++ E) else a :: (X' ++ E) from List.dropWhile_cons ..]
    by_cases ha : isWs a
    · rw [if_pos ha] at h
      rw [if_pos ha]
      exact ih c Y E h
    · rw [if_neg ha] at h
      rw [if_neg ha]
      injection h with h1 h2
      subst h1
      subst h2
      rfl

theorem matchPat_extend (F : List Char) (op : Char) :
    ∀ (P r E : List Char), matchPat F op P = some r →
      matchPat F op (P ++ E) = some (r ++ E) := by
  intro P r E h
  match P with
  | [] => exact absurd h (by intro hc; exact Option.noConfusion hc)
  | c :: rest =>
    by_cases hc : c = '"'
    · subst hc
      rw [matchPat_quote_eq] at h
      rw [List.cons_append, matchPat_quote_eq]
      split at h
      · rename_i r1 hlit
        split at h
        · rename_i r2 hsk1
          split at h
          · rename_i c' r3 hsk2
            split at h
            · rename_i hcop
              injection h with h1
              subst h1
              simp only [matchLit_extend _ _ _ E hlit, skipWs_extend _ _ _ E hsk1,
                skipWs_extend _ _ _ E hsk2, if_pos hcop]
            · exact absurd h (by simp)
          · exact absurd h (by simp)
        · exact absurd h (by simp)
      · exact absurd h (by simp)
    · rw [matchPat_not_quote F op c rest hc] at h
      exact absurd h (by simp)

theorem matchPat_none_prefix (F : List Char) (op : Char) (P S : List Char)
    (hpre : P <+: S) (h : matchPat F op S = none) : matchPat F op P = none := by
  obtain ⟨E, hE⟩ := hpre
  cases hm : matchPat F op P with
  | none => rfl
  | some r =>
    rw [← hE, matchPat_extend F op P r E hm] at h
    exact absurd h (by simp)

theorem findPat_cons (F : List Char) (op c : Char) (cs : List Char) :
    findPat F op (c :: cs) =
      (match matchPat F op (c :: cs) with
      | some r => some r
      | none => findPat F op cs) := rfl

theorem findPat_nomatch_concat (F : List Char) (op : Char) :
    ∀ (A B : List Char), (∀ i, i < A.length → matchPat F op (A.drop i ++ B) = none) →
      findPat F op (A ++ B) = findPat F op B := by
  intro A
  induction A with
  | nil => intro B _; rfl
  | cons a A' ih =>
    intro B h
    have h0 := h 0 (by simp)
    simp only [List.drop_zero] at h0
    rw [List.cons_append, findPat_cons, ← List.cons_append, h0]
    exact ih B (fun i hi => h (i + 1) (by simpa using Nat.succ_lt_succ hi))

theorem findPat_none_all (F : List Char) (op : Char) :
    ∀ X : List Char, (∀ i, matchPat F op (X.drop i) = none) → findPat F op X = none := by
  intro X
  induction X with
  | nil => intro _; rfl
  | cons a X' ih =>
    intro h
    have h0 := h 0
    simp only [List.drop_zero] at h0
    rw [findPat_cons, h0]
    exact ih (fun i => h (i + 1))

theorem nm_append (F : List Char) (op : Char) (A M B : List Char)
    (hA : ∀ i < A.length, matchPat F op (A.drop i ++ (M ++ B)) = none)
    (hM : ∀ i < M.length, matchPat F op (M.drop i ++ B) = none) :
    ∀ i < (A ++ M).length, matchPat F op ((A ++ M).drop i ++ B) = none := by
  intro i hi
  rcases Nat.lt_or_ge i A.length with h | h
  · rw [List.drop_append_of_le_length (le_of_lt h), List.append_assoc]
    exact hA i h
  · obtain ⟨j, rfl⟩ : ∃ j, i = A.length + j := ⟨i - A.length, by omega⟩
    rw [List.drop_append]
    exact hM j (by simp only [List.length_append] at hi; omega)

theorem nm_plain (F : List Char) (op : Char) (B V : List Char)
    (hV : ∀ c ∈ V, c ≠ '"') :
    ∀ i < V.length, matchPat F op (V.drop i ++ B) = none := by
  intro i hi
  rw [List.drop_eq_getElem_cons hi, List.cons_append]
  exact matchPat_not_quote _ _ _ _ (hV _ (List.getElem_mem hi))

theorem plainL_no_quote {V : List Char} (hV : plainL V = true) : ∀ c ∈ V, c ≠ '"' :=
  fun c hc => (plainChar_props (List.all_eq_true.mp hV c hc)).1

theorem nm_kvSeg (f₀ : Char) (F' : List Char) (op : Char) (name v : List Char)
    (c : Char) (R : List Char)
    (hF : plainL (f₀ :: F') = true) (hname : plainL name = true) (hv : plainL v = true)
    (hFname : (f₀ :: F') ≠ name) (hq1 : ':' ≠ f₀) (hcf : c ≠ f₀)
    (hcw : isWs c = false) (hcc : c ≠ ':') :
    ∀ i < (kvSeg name v).length,
      matchPat (f₀ :: F') op ((kvSeg name v).drop i ++ (c :: R)) = none := by
  have hkv : kvSeg name v =
      ['"'] ++ (name ++ (['"'] ++ ([':'] ++ (['"'] ++ (v ++ ['"']))))) := by
    simp [kvSeg]
  rw [hkv]
  have nm6 : ∀ i < (['"'] : List Char).length,
      matchPat (f₀ :: F') op ((['"'] : List Char).drop i ++ (c :: R)) = none := by
    intro i hi
    have h0 : i = 0 := by simpa using hi
    subst h0
    exact matchPat_second_ne f₀ F' op c R hcf
  have nm5 : ∀ i < (v ++ ['"']).length,
      matchPat (f₀ :: F') op ((v ++ ['"']).drop i ++ (c :: R)) = none :=
    nm_append _ _ v ['"'] _ (nm_plain _ _ _ v (plainL_no_quote hv)) nm6
  have nm4 : ∀ i < (['"'] : List Char).length,
      matchPat (f₀ :: F') op ((['"'] : List Char).drop i ++ ((v ++ ['"']) ++ (c :: R))) = none := by
    intro i hi
    have h0 : i = 0 := by simpa using hi
    subst h0
    simpa only [List.drop_zero, List.singleton_append, List.cons_append, List.append_assoc] using
      matchPat_val_quote (f₀ :: F') v op c R hF hv hcw hcc
  have nm45 : ∀ i < (['"'] ++ (v ++ ['"'])).length,
      matchPat (f₀ :: F') op ((['"'] ++ (v ++ ['"'])).drop i ++ (c :: R)) = none :=
    nm_append _ _ ['"'] (v ++ ['"']) _ nm4 nm5
  have nm3 : ∀ i < ([':'] : List Char).length,
      matchPat (f₀ :: F') op
        (([':'] : List Char).drop i ++ ((['"'] ++ (v ++ ['"'])) ++ (c :: R))) = none :=
    nm_plain _ _ _ [':'] (by decide)
  have nm35 : ∀ i < ([':'] ++ (['"'] ++ (v ++ ['"']))).length,
      matchPat (f₀ :: F') op
        (([':'] ++ (['"'] ++ (v ++ ['"']))).drop i ++ (c :: R)) = none :=
    nm_append _ _ [':'] (['"'] ++ (v ++ ['"'])) _ nm3 nm45
  have nm2 : ∀ i < (['"'] : List Char).length,
      matchPat (f₀ :: F') op
        ((['"'] : List Char).drop i ++
          (([':'] ++ (['"'] ++ (v ++ ['"']))) ++ (c :: R))) = none := by
    intro i hi
    have h0 : i = 0 := by simpa using hi
    subst h0
    simpa only [List.drop_zero, List.singleton_append, List.cons_append, List.append_assoc] using
      matchPat_second_ne f₀ F' op ':' ('"' :: (v ++ '"' :: c :: R)) hq1
  have nm25 : ∀ i < (['"'] ++ ([':'] ++ (['"'] ++ (v ++ ['"'])))).length,
      matchPat (f₀ :: F') op
        ((['"'] ++ ([':'] ++ (['"'] ++ (v ++ ['"'])))).drop i ++ (c :: R)) = none :=
    nm_append _ _ ['"'] ([':'] ++ (['"'] ++ (v ++ ['"']))) _ nm2 nm35
  have nm1 : ∀ i < name.length,
      matchPat (f₀ :: F') op
        (name.drop i ++ ((['"'] ++ ([':'] ++ (['"'] ++ (v ++ ['"'])))) ++ (c :: R))) = none :=
    nm_plain _ _ _ name (plainL_no_quote hname)
  have nm15 : ∀ i < (name ++ (['"'] ++ ([':'] ++ (['"'] ++ (v ++ ['"']))))).length,
      matchPat (f₀ :: F') op
        ((name ++ (['"'] ++ ([':'] ++ (['"'] ++ (v ++ ['"']))))).drop i ++ (c :: R)) = none :=
    nm_append _ _ name (['"'] ++ ([':'] ++ (['"'] ++ (v ++ ['"'])))) _ nm1 nm25
  have nm0 : ∀ i < (['"'] : List Char).length,
      matchPat (f₀ :: F') op
        ((['"'] : List Char).drop i ++
          ((name ++ (['"'] ++ ([':'] ++ (['"'] ++ (v ++ ['"']))))) ++ (c :: R))) = none := by
    intro i hi
    have h0 : i = 0 := by simpa using hi
    subst h0
    simpa only [List.drop_zero, List.singleton_append, List.cons_append, List.append_assoc] using
      matchPat_name_ne (f₀ :: F') name op (':' :: '"' :: (v ++ '"' :: c :: R)) hF hname hFname
  exact nm_append _ _ ['"'] (name ++ (['"'] ++ ([':'] ++ (['"'] ++ (v ++ ['"']))))) _ nm0 nm15

theorem nm_itemsSeg (f₀ : Char) (F' : List Char) (op : Char)
    (hF : plainL (f₀ :: F') = true) (hqc : ',' ≠ f₀) (hqr : ']' ≠ f₀) :
    ∀ ps : List (List Char), ps.all plainL = true →
      ∀ R : List Char, ∀ i < (itemsSeg ps).length,
        matchPat (f₀ :: F') op ((itemsSeg ps).drop i ++ (']' :: R)) = none := by
  intro ps
  induction ps with
  | nil =>
    intro _ R i hi
    simp [itemsSeg] at hi
  | cons p ps ih =>
    intro hall R
    have hp : plainL p = true := (Bool.and_eq_true .. ▸ (List.all_cons .. ▸ hall)).1
    have hps : ps.all plainL = true := (Bool.and_eq_true .. ▸ (List.all_cons .. ▸ hall)).2
    match ps with
    | [] =>
      have hseg : itemsSeg [p] = ['"'] ++ (p ++ ['"']) := by simp [itemsSeg]
      rw [hseg]
      have nmC : ∀ i < (['"'] : List Char).length,
          matchPat (f₀ :: F') op ((['"'] : List Char).drop i ++ (']' :: R)) = none := by
        intro i hi
        have h0 : i = 0 := by simpa using hi
        subst h0
        exact matchPat_second_ne f₀ F' op ']' R hqr
      have nmP : ∀ i < (p ++ ['"']).length,
          matchPat (f₀ :: F') op ((p ++ ['"']).drop i ++ (']' :: R)) = none :=
        nm_append _ _ p ['"'] _ (nm_plain _ _ _ p (plainL_no_quote hp)) nmC
      have nmO : ∀ i < (['"'] : List Char).length,
          matchPat (f₀ :: F') op
            ((['"'] : List Char).drop i ++ ((p ++ ['"']) ++ (']' :: R))) = none := by
        intro i hi
        have h0 : i = 0 := by simpa using hi
        subst h0
        simpa only [List.drop_zero, List.singleton_append, List.cons_append,
          List.append_assoc] using
          matchPat_val_quote (f₀ :: F') p op ']' R hF hp (by decide) (by decide)
      exact nm_append _ _ ['"'] (p ++ ['"']) _ nmO nmP
    | q :: qs =>
      have hseg : itemsSeg (p :: q :: qs)
          = ['"'] ++ (p ++ (['"'] ++ ([','] ++ itemsSeg (q :: qs)))) := by
        rw [itemsSeg_cons₂]
        simp [List.cons_append, List.append_assoc]
      rw [hseg]
      have nmI : ∀ i < (itemsSeg (q :: qs)).length,
          matchPat (f₀ :: F') op ((itemsSeg (q :: qs)).drop i ++ (']' :: R)) = none :=
        ih hps R
      have nmM : ∀ i < ([','] : List Char).length,
          matchPat (f₀ :: F') op
            (([','] : List Char).drop i ++ (itemsSeg (q :: qs) ++ (']' :: R))) = none :=
        nm_plain _ _ _ [','] (by decide)
      have nmMI : ∀ i < ([','] ++ itemsSeg (q :: qs)).length,
          matchPat (f₀ :: F') op
            (([','] ++ itemsSeg (q :: qs)).drop i ++ (']' :: R)) = none :=
        nm_append _ _ [','] (itemsSeg (q :: qs)) _ nmM nmI
      have nmC : ∀ i < (['"'] : List Char).length,
          matchPat (f₀ :: F') op
            ((['"'] : List Char).drop i ++ (([','] ++ itemsSeg (q :: qs)) ++ (']' :: R))) = none := by
        intro i hi
        have h0 : i = 0 := by simpa using hi
        subst h0
        simpa only [List.drop_zero, List.singleton_append, List.cons_append,
          List.append_assoc] using
          matchPat_second_ne f₀ F' op ',' (itemsSeg (q :: qs) ++ ']' :: R) hqc
      have nmCMI : ∀ i < (['"'] ++ ([','] ++ itemsSeg (q :: qs))).length,
          matchPat (f₀ :: F') op
            ((['"'] ++ ([','] ++ itemsSeg (q :: qs))).drop i ++ (']' :: R)) = none :=
        nm_append _ _ ['"'] ([','] ++ itemsSeg (q :: qs)) _ nmC nmMI
      have nmP : ∀ i < (p ++ (['"'] ++ ([','] ++ itemsSeg (q :: qs)))).length,
          matchPat (f₀ :: F') op
            ((p ++ (['"'] ++ ([','] ++ itemsSeg (q :: qs)))).drop i ++ (']' :: R)) = none :=
        nm_append _ _ p (['"'] ++ ([','] ++ itemsSeg (q :: qs))) _
          (nm_plain _ _ _ p (plainL_no_quote hp)) nmCMI
      have nmO : ∀ i < (['"'] : List Char).length,
          matchPat (f₀ :: F') op
            ((['"'] : List Char).drop i ++
              ((p ++ (['"'] ++ ([','] ++ itemsSeg (q :: qs)))) ++ (']' :: R))) = none := by
        intro i hi
        have h0 : i = 0 := by simpa using hi
        subst h0
        simpa only [List.drop_zero, List.singleton_append, List.cons_append,
          List.append_assoc] using
          matchPat_val_quote (f₀ :: F') p op ',' (itemsSeg (q :: qs) ++ ']' :: R) hF hp
            (by decide) (by decide)
      exact nm_append _ _ ['"'] (p ++ (['"'] ++ ([','] ++ itemsSeg (q :: qs)))) _ nmO nmP

theorem nm_zone (f₀ : Char) (F' : List Char) (op : Char) (B : List Char)
    (hF : plainL (f₀ :: F') = true) (hq1 : ':' ≠ f₀) :
    ∀ i < ((f₀ :: F') ++ ['"', ':']).length,
      matchPat (f₀ :: F') op (((f₀ :: F') ++ ['"', ':']).drop i ++ B) = none := by
  have nmq : ∀ i < (['"', ':'] : List Char).length,
      matchPat (f₀ :: F') op ((['"', ':'] : List Char).drop i ++ B) = none := by
    intro i hi
    match i, hi with
    | 0, _ =>
      show matchPat (f₀ :: F') op ('"' :: ':' :: B) = none
      exact matchPat_second_ne f₀ F' op ':' B hq1
    | 1, _ =>
      show matchPat (f₀ :: F') op (':' :: B) = none
      exact matchPat_not_quote _ _ _ _ (by decide)
  exact nm_append _ _ (f₀ :: F') ['"', ':'] B
    (nm_plain _ _ _ _ (plainL_no_quote hF)) nmq

theorem matchPat_nil (F : List Char) (op : Char) : matchPat F op [] = none := rfl

theorem findPat_canon (f₀ : Char) (F' W Pre : List Char) (op : Char)
    (hF : plainL (f₀ :: F') = true) (hq1 : ':' ≠ f₀) (hop : isWs op = false)
    (hPre : ∀ i < Pre.length,
      matchPat (f₀ :: F') op
        (Pre.drop i ++ ('"' :: ((f₀ :: F') ++ '"' :: ':' :: op :: W))) = none) :
    ∀ n, findPat (f₀ :: F') op
        ((Pre ++ '"' :: ((f₀ :: F') ++ '"' :: ':' :: op :: W)).take n) =
      if Pre.length + (f₀ :: F').length + 4 ≤ n then
        some (W.take (n - (Pre.length + (f₀ :: F').length + 4)))
      else none := by
  intro n
  by_cases hn : n ≤ Pre.length
  · rw [List.take_append_of_le_length hn,
      if_neg (by simp only [List.length_cons]; omega)]
    apply findPat_none_all
    intro i
    by_cases hi : i < (Pre.take n).length
    · have hilt : i < Pre.length := lt_of_lt_of_le hi (by simp [List.length_take])
      have hpfx : (Pre.take n).drop i <+:
          Pre.drop i ++ ('"' :: ((f₀ :: F') ++ '"' :: ':' :: op :: W)) := by
        rw [List.drop_take]
        exact (List.take_prefix _ _).trans (List.prefix_append _ _)
      exact matchPat_none_prefix _ _ _ _ hpfx (hPre i hilt)
    · rw [List.drop_eq_nil_of_le (by omega)]
      exact matchPat_nil _ _
  · push_neg at hn
    obtain ⟨m, rfl⟩ : ∃ m, n = Pre.length + m := ⟨n - Pre.length, by omega⟩
    rw [List.take_append]
    rw [findPat_nomatch_concat _ _ Pre _ (fun i hi =>
      matchPat_none_prefix _ _ _ _
        ⟨('"' :: ((f₀ :: F') ++ '"' :: ':' :: op :: W)).drop m, by
          rw [List.append_assoc, List.take_append_drop]⟩
        (hPre i hi))]
    match m with
    | 0 =>
      rw [List.take_zero, if_neg (by simp only [List.length_cons]; omega)]
      rfl
    | k + 1 =>
      have hcanon := matchPat_canon_trunc (f₀ :: F') W op (k + 1) hop
      rw [List.take_succ_cons] at hcanon
      rw [List.take_succ_cons, findPat_cons, hcanon]
      by_cases hbig : (f₀ :: F').length + 4 ≤ k + 1
      · rw [if_pos hbig, if_pos (show Pre.length + (f₀ :: F').length + 4 ≤
          Pre.length + (k + 1) by omega)]
        have harg : Pre.length + (k + 1) - (Pre.length + (f₀ :: F').length + 4)
            = k + 1 - ((f₀ :: F').length + 4) := by omega
        rw [harg]
      · rw [if_neg hbig, if_neg (show ¬ Pre.length + (f₀ :: F').length + 4 ≤
          Pre.length + (k + 1) by omega)]
        show findPat (f₀ :: F') op (((f₀ :: F') ++ '"' :: ':' :: op :: W).take k) = none
        apply findPat_none_all
        intro i
        by_cases hik : i < k
        · have hzone := nm_zone f₀ F' op (op :: W) hF hq1 i
            (by simp only [List.length_append, List.length_cons] at hbig ⊢; omega)
          have hsplit : (f₀ :: F') ++ '"' :: ':' :: op :: W =
              ((f₀ :: F') ++ ['"', ':']) ++ (op :: W) := by
            simp
          have hfull : ((f₀ :: F') ++ '"' :: ':' :: op :: W).drop i =
              ((f₀ :: F') ++ ['"', ':']).drop i ++ (op :: W) := by
            rw [hsplit, List.drop_append_of_le_length
              (by simp only [List.length_append, List.length_cons] at hbig ⊢; omega)]
          have hpfx : (((f₀ :: F') ++ '"' :: ':' :: op :: W).take k).drop i <+:
              ((f₀ :: F') ++ '"' :: ':' :: op :: W).drop i := by
            rw [List.drop_take]
            exact List.take_prefix _ _
          exact matchPat_none_prefix _ _ _ _ hpfx (hfull ▸ hzone)
        · rw [List.drop_eq_nil_of_le (by simp [List.length_take]; omega)]
          exact matchPat_nil _ _

theorem plainL_take {V : List Char} (hV : plainL V = true) (k : Nat) :
    plainL (V.take k) = true := by
  rw [plainL, List.all_eq_true]
  intro c hc
  exact List.all_eq_true.mp hV c (List.take_subset k V hc)

theorem plain_no_backslash {V : List Char} (hV : plainL V = true) : '\\' ∉ V := by
  intro hm
  have h := List.all_eq_true.mp hV _ hm
  simp only [plainChar, Bool.and_eq_true, decide_eq_true_eq] at h
  exact h.2.1 rfl

theorem munchRaw_cons_plain (c : Char) (X : List Char) (hq : c ≠ '"') (hb : c ≠ '\\') :
    munchRaw (c :: X) = c :: munchRaw X := by
  rw [munchRaw.eq_def]
  split
  · rename_i heq
    exact absurd heq (by simp)
  · rename_i heq
    exact absurd (List.cons.injEq .. ▸ heq).1 hq
  · rename_i heq
    exact absurd (List.cons.injEq .. ▸ heq).1 hb
  · rename_i c2 rest heq
    exact absurd (List.cons.injEq .. ▸ heq).1 hb
  · rename_i c2 rest heq hne1 hne2 hne3
    obtain ⟨h1', h2'⟩ := List.cons.injEq .. ▸ hne3
    rw [← h1', ← h2']

theorem munchRaw_take (V : List Char) (hV : plainL V = true) :
    ∀ (k : Nat) (R : List Char), munchRaw ((V ++ '"' :: R).take k) = V.take k := by
  induction V with
  | nil =>
    intro k R
    match k with
    | 0 => rfl
    | k + 1 => rfl
  | cons c V' ih =>
    intro k R
    obtain ⟨hc, hV'⟩ := plainL_cons hV
    obtain ⟨h1, h2, _⟩ := plainChar_props hc
    match k with
    | 0 => rfl
    | k + 1 =>
      rw [List.cons_append, List.take_succ_cons, List.take_succ_cons,
        munchRaw_cons_plain c _ h1 h2, ih hV' k R]

theorem replPair_cons₂ (a b r x y : Char) (rest : List Char) :
    replPair a b r (x :: y :: rest) =
      (if x = a ∧ y = b then r :: replPair a b r rest
      else x :: replPair a b r (y :: rest)) := rfl

theorem replPair_no_occ (a b r : Char) :
    ∀ X : List Char, a ∉ X → replPair a b r X = X := by
  intro X
  induction X with
  | nil => intro _; rfl
  | cons x X' ih =>
    intro h
    match X' with
    | [] => rfl
    | y :: rest =>
      have hx : x ≠ a := fun he => h (he ▸ List.mem_cons_self ..)
      rw [replPair_cons₂, if_neg (fun hc => hx hc.1),
        ih (fun hm => h (List.mem_cons_of_mem _ hm))]

theorem unescape_plain (V : List Char) (hV : plainL V = true) : unescape V = V := by
  have hb : '\\' ∉ V := plain_no_backslash hV
  rw [unescape, replPair_no_occ _ _ _ V hb, replPair_no_occ _ _ _ V hb]

theorem closedString_cons_plain (c : Char) (X : List Char) (hq : c ≠ '"') (hb : c ≠ '\\') :
    closedString (c :: X) = (closedString X).map (fun p => (c :: p.1, p.2)) := by
  rw [closedString.eq_def]
  split
  · rename_i heq
    exact absurd heq (by simp)
  · rename_i heq
    exact absurd (List.cons.injEq .. ▸ heq).1 hq
  · rename_i heq
    exact absurd (List.cons.injEq .. ▸ heq).1 hb
  · rename_i c2 rest heq
    exact absurd (List.cons.injEq .. ▸ heq).1 hb
  · rename_i c2 rest heq hne1 hne2 hne3
    obtain ⟨h1', h2'⟩ := List.cons.injEq .. ▸ hne3
    rw [← h1', ← h2']

theorem closedString_plain_trunc (p : List Char) (hp : plainL p = true) :
    ∀ (k : Nat) (R : List Char),
      closedString ((p ++ '"' :: R).take k) =
        if p.length + 1 ≤ k then some (p, R.take (k - (p.length + 1))) else none := by
  induction p with
  | nil =>
    intro k R
    match k with
    | 0 => rfl
    | k + 1 =>
      rw [List.nil_append, List.take_succ_cons]
      show some ([], R.take k) = _
      rw [if_pos (by simp)]
      rfl
  | cons c p' ih =>
    intro k R
    obtain ⟨hc, hp'⟩ := plainL_cons hp
    obtain ⟨h1, h2, _⟩ := plainChar_props hc
    match k with
    | 0 =>
      rw [List.take_zero, if_neg (by simp)]
      rfl
    | k + 1 =>
      rw [List.cons_append, List.take_succ_cons, closedString_cons_plain c _ h1 h2,
        ih hp' k R]
      by_cases h : p'.length + 1 ≤ k
      · rw [if_pos h, if_pos (by simp only [List.length_cons]; omega)]
        show some (c :: p', R.take (k - (p'.length + 1))) = _
        have he : k + 1 - ((c :: p').length + 1) = k - (p'.length + 1) := by
          simp only [List.length_cons]
          omega
        rw [he]
      · rw [if_neg h, if_neg (by simp only [List.length_cons]; omega)]
        rfl

theorem findNextItem_noquote :
    ∀ X : List Char, (∀ c ∈ X, c ≠ '"') → findNextItem X = none := by
  intro X
  induction X with
  | nil => intro _; rfl
  | cons c X' ih =>
    intro h
    rw [findNextItem.eq_def]
    split
    · rename_i heq
      exact absurd heq (by simp)
    · rename_i rest heq
      exact absurd (List.cons.injEq .. ▸ heq).1 (h c (List.mem_cons_self ..))
    · rename_i c2 rest heq hne
      obtain ⟨h1', h2'⟩ := List.cons.injEq .. ▸ hne
      rw [← h2']
      exact ih (fun d hd => h d (List.mem_cons_of_mem _ hd))

theorem findNextItem_cons_nq (c : Char) (X : List Char) (hc : c ≠ '"') :
    findNextItem (c :: X) = findNextItem X := by
  rw [findNextItem.eq_def]
  split
  · rename_i heq
    exact absurd heq (by simp)
  · rename_i rest heq
    exact absurd (List.cons.injEq .. ▸ heq).1 hc
  · rename_i c2 rest heq hne
    obtain ⟨h1', h2'⟩ := List.cons.injEq .. ▸ hne
    rw [← h2']

theorem scanItems_nil : ∀ f : Nat, scanItems f [] = [] := by
  intro f
  match f with
  | 0 => rfl
  | f + 1 => rfl

theorem scanItems_cons_nq (f : Nat) (c : Char) (X : List Char) (hc : c ≠ '"') :
    scanItems (f + 1) (c :: X) = scanItems (f + 1) X := by
  show (match findNextItem (c :: X) with
        | some (s, r) => s :: scanItems f r
        | none => []) =
      (match findNextItem X with
      | some (s, r) => s :: scanItems f r
      | none => [])
  rw [findNextItem_cons_nq c X hc]

theorem findNextItem_quote (X : List Char) :
    findNextItem ('"' :: X) =
      (match closedString X with
      | some p => some p
      | none => findNextItem X) := rfl

theorem scanItems_succ (f : Nat) (X : List Char) :
    scanItems (f + 1) X =
      (match findNextItem X with
      | some (s, r) => s :: scanItems f r
      | none => []) := rfl

theorem takenItems_cons (p : List Char) (ps : List (List Char)) (k : Nat) :
    takenItems (p :: ps) k =
      if p.length + 2 ≤ k then p :: takenItems ps (k - (p.length + 3)) else [] := rfl

theorem scanItems_items :
    ∀ ps : List (List Char), ps.all plainL = true →
      ∀ (k fuel : Nat), ((itemsSeg ps).take k).length ≤ fuel →
        scanItems fuel ((itemsSeg ps).take k) = takenItems ps k := by
  intro ps
  induction ps with
  | nil =>
    intro _ k fuel _
    show scanItems fuel (([] : List Char).take k) = []
    rw [List.take_nil, scanItems_nil]
  | cons p ps ih =>
    intro hall k fuel hfuel
    have hp : plainL p = true := (Bool.and_eq_true .. ▸ (List.all_cons .. ▸ hall)).1
    have hps : ps.all plainL = true := (Bool.and_eq_true .. ▸ (List.all_cons .. ▸ hall)).2
    match ps with
    | [] =>
      have hI : itemsSeg [p] = '"' :: (p ++ '"' :: []) := by simp [itemsSeg]
      rw [hI] at hfuel ⊢
      match k with
      | 0 =>
        rw [List.take_zero, scanItems_nil, takenItems_cons, if_neg (by omega)]
      | k' + 1 =>
        rw [List.take_succ_cons] at hfuel ⊢
        have hfuel1 : 1 ≤ fuel := by
          simp only [List.length_cons] at hfuel
          omega
        obtain ⟨f, rfl⟩ : ∃ f, fuel = f + 1 := ⟨fuel - 1, by omega⟩
        rw [scanItems_succ, findNextItem_quote, closedString_plain_trunc p hp k' []]
        by_cases h : p.length + 1 ≤ k'
        · rw [if_pos h]
          show p :: scanItems f ([].take (k' - (p.length + 1))) = _
          rw [List.take_nil, scanItems_nil, takenItems_cons p [] (k' + 1),
            if_pos (by omega)]
          rfl
        · rw [if_neg h]
          have htk : (p ++ '"' :: []).take k' = p.take k' :=
            List.take_append_of_le_length (by omega)
          rw [htk, findNextItem_noquote _ (plainL_no_quote (plainL_take hp k')),
            takenItems_cons, if_neg (by omega)]
    | q :: qs =>
      have hI : itemsSeg (p :: q :: qs) = '"' :: (p ++ '"' :: ',' :: itemsSeg (q :: qs)) := by
        rw [itemsSeg_cons₂]
        simp [List.cons_append]
      rw [hI] at hfuel ⊢
      match k with
      | 0 =>
        rw [List.take_zero, scanItems_nil, takenItems_cons, if_neg (by omega)]
      | k' + 1 =>
        rw [List.take_succ_cons] at hfuel ⊢
        have hfuel1 : 1 ≤ fuel := by
          simp only [List.length_cons] at hfuel
          omega
        obtain ⟨f, rfl⟩ : ∃ f, fuel = f + 1 := ⟨fuel - 1, by omega⟩
        rw [scanItems_succ, findNextItem_quote,
          closedString_plain_trunc p hp k' (',' :: itemsSeg (q :: qs))]
        by_cases h : p.length + 1 ≤ k'
        · rw [if_pos h]
          obtain hj | hj : k' - (p.length + 1) = 0 ∨
              ∃ j', k' - (p.length + 1) = j' + 1 := by
            rcases Nat.eq_zero_or_pos (k' - (p.length + 1)) with h0 | h0
            · exact Or.inl h0
            · exact Or.inr ⟨k' - (p.length + 1) - 1, by omega⟩
          · rw [hj]
            show p :: scanItems f ((',' :: itemsSeg (q :: qs)).take 0) = _
            rw [List.take_zero, scanItems_nil, takenItems_cons p (q :: qs) (k' + 1),
              if_pos (by omega)]
            have hz : k' + 1 - (p.length + 3) = 0 := by omega
            rw [hz, takenItems_cons q qs 0, if_neg (by omega)]
          · obtain ⟨j', hj⟩ := hj
            rw [hj]
            show p :: scanItems f ((',' :: itemsSeg (q :: qs)).take (j' + 1)) = _
            rw [List.take_succ_cons]
            have hflen : 1 ≤ f := by
              simp only [List.length_cons, List.length_take, List.length_append]
                at hfuel
              omega
            obtain ⟨f'', rfl⟩ : ∃ f'', f = f'' + 1 := ⟨f - 1, by omega⟩
            rw [scanItems_cons_nq f'' ',' _ (by decide)]
            rw [ih hps j' (f'' + 1) (by
              simp only [List.length_cons, List.length_take, List.length_append]
                at hfuel ⊢
              omega)]
            rw [takenItems_cons p (q :: qs) (k' + 1), if_pos (by omega)]
            have harith : k' + 1 - (p.length + 3) = j' := by omega
            rw [harith]
        · rw [if_neg h]
          have htk : (p ++ '"' :: ',' :: itemsSeg (q :: qs)).take k' = p.take k' :=
            List.take_append_of_le_length (by omega)
          rw [htk, findNextItem_noquote _ (plainL_no_quote (plainL_take hp k')),
            takenItems_cons, if_neg (by omega)]

theorem itemsSeg_no_rbracket :
    ∀ ps : List (List Char), ps.all plainL = true → ']' ∉ itemsSeg ps := by
  intro ps
  induction ps with
  | nil => intro _ hm; exact absurd hm (List.not_mem_nil _)
  | cons p ps ih =>
    intro hall hm
    have hp : plainL p = true := (Bool.and_eq_true .. ▸ (List.all_cons .. ▸ hall)).1
    have hps : ps.all plainL = true := (Bool.and_eq_true .. ▸ (List.all_cons .. ▸ hall)).2
    have hinp : ']' ∉ p := by
      intro hmem
      have h := List.all_eq_true.mp hp _ hmem
      revert h
      decide
    match ps with
    | [] =>
      rw [show itemsSeg [p] = '"' :: (p ++ '"' :: []) from by simp [itemsSeg]] at hm
      rcases List.mem_cons.mp hm with he | hm'
      · exact absurd he (by decide)
      rcases List.mem_append.mp hm' with h | h
      · exact hinp h
      rcases List.mem_cons.mp h with he | h0
      · exact absurd he (by decide)
      · exact absurd h0 (List.not_mem_nil _)
    | q :: qs =>
      rw [show itemsSeg (p :: q :: qs) = '"' :: (p ++ '"' :: ',' :: itemsSeg (q :: qs))
        from by rw [itemsSeg_cons₂]; simp [List.cons_append]] at hm
      rcases List.mem_cons.mp hm with he | hm'
      · exact absurd he (by decide)
      rcases List.mem_append.mp hm' with h | h
      · exact hinp h
      rcases List.mem_cons.mp h with he | h0
      · exact absurd he (by decide)
      rcases List.mem_cons.mp h0 with he | h1
      · exact absurd he (by decide)
      · exact ih hps h1

theorem takeWhile_nrb_all :
    ∀ X : List Char, (∀ c ∈ X, c ≠ ']') → X.takeWhile (fun c => decide (c ≠ ']')) = X := by
  intro X
  induction X with
  | nil => intro _; rfl
  | cons c X' ih =>
    intro h
    rw [List.takeWhile_cons]
    rw [if_pos (by simp [h c (List.mem_cons_self ..)])]
    rw [ih (fun d hd => h d (List.mem_cons_of_mem _ hd))]

theorem upToRBracket_append_stop :
    ∀ (A X : List Char), (∀ c ∈ A, c ≠ ']') → upToRBracket (A ++ ']' :: X) = A := by
  intro A
  induction A with
  | nil =>
    intro X _
    rfl
  | cons c A' ih =>
    intro X h
    rw [List.cons_append]
    show (c :: (A' ++ ']' :: X)).takeWhile (fun d => decide (d ≠ ']')) = c :: A'
    rw [List.takeWhile_cons, if_pos (by simp [h c (List.mem_cons_self ..)])]
    exact congrArg (c :: ·) (ih X (fun d hd => h d (List.mem_cons_of_mem _ hd)))

theorem upToRBracket_take (A R : List Char) (hA : ']' ∉ A) (k : Nat) :
    upToRBracket ((A ++ ']' :: R).take k) = A.take k := by
  have hA' : ∀ c ∈ A, c ≠ ']' := fun c hc he => hA (he ▸ hc)
  by_cases h : k ≤ A.length
  · rw [List.take_append_of_le_length h]
    exact takeWhile_nrb_all _ (fun c hc => hA' c (List.take_subset k A hc))
  · push_neg at h
    obtain ⟨i, rfl⟩ : ∃ i, k = A.length + (i + 1) :=
      ⟨k - A.length - 1, by omega⟩
    rw [List.take_append, List.take_succ_cons]
    rw [upToRBracket_append_stop A _ hA']
    rw [List.take_of_length_le (by omega)]

theorem nm_kpMember (f₀ : Char) (F' : List Char) (op : Char) (ps : List (List Char))
    (X : List Char) (hF : plainL (f₀ :: F') = true) (hps : ps.all plainL = true)
    (hne : (f₀ :: F') ≠ litKeyPoints) (hq1 : ':' ≠ f₀) (hqc : ',' ≠ f₀) (hqr : ']' ≠ f₀) :
    ∀ i < (['"'] ++ (litKeyPoints ++ (['"'] ++ ([':'] ++
        (['['] ++ (itemsSeg ps ++ [']'])))))).length,
      matchPat (f₀ :: F') op
        ((['"'] ++ (litKeyPoints ++ (['"'] ++ ([':'] ++
          (['['] ++ (itemsSeg ps ++ [']'])))))).drop i ++ (',' :: X)) = none := by
  have nmRB : ∀ i < ([']'] : List Char).length,
      matchPat (f₀ :: F') op (([']'] : List Char).drop i ++ (',' :: X)) = none :=
    nm_plain _ _ _ [']'] (by decide)
  have nmIt : ∀ i < (itemsSeg ps).length,
      matchPat (f₀ :: F') op ((itemsSeg ps).drop i ++ ([']'] ++ (',' :: X))) = none := by
    intro i hi
    simpa only [List.singleton_append] using nm_itemsSeg f₀ F' op hF hqc hqr ps hps (',' :: X) i hi
  have nmISRB : ∀ i < (itemsSeg ps ++ [']']).length,
      matchPat (f₀ :: F') op ((itemsSeg ps ++ [']']).drop i ++ (',' :: X)) = none :=
    nm_append _ _ (itemsSeg ps) [']'] _ nmIt nmRB
  have nmLB : ∀ i < (['['] : List Char).length,
      matchPat (f₀ :: F') op
        ((['['] : List Char).drop i ++ ((itemsSeg ps ++ [']']) ++ (',' :: X))) = none :=
    nm_plain _ _ _ ['['] (by decide)
  have nmLBI : ∀ i < (['['] ++ (itemsSeg ps ++ [']'])).length,
      matchPat (f₀ :: F') op
        ((['['] ++ (itemsSeg ps ++ [']'])).drop i ++ (',' :: X)) = none :=
    nm_append _ _ ['['] (itemsSeg ps ++ [']']) _ nmLB nmISRB
  have nmCo : ∀ i < ([':'] : List Char).length,
      matchPat (f₀ :: F') op
        (([':'] : List Char).drop i ++ ((['['] ++ (itemsSeg ps ++ [']'])) ++ (',' :: X))) = none :=
    nm_plain _ _ _ [':'] (by decide)
  have nmCoI : ∀ i < ([':'] ++ (['['] ++ (itemsSeg ps ++ [']']))).length,
      matchPat (f₀ :: F') op
        (([':'] ++ (['['] ++ (itemsSeg ps ++ [']']))).drop i ++ (',' :: X)) = none :=
    nm_append _ _ [':'] (['['] ++ (itemsSeg ps ++ [']'])) _ nmCo nmLBI
  have nmQC : ∀ i < (['"'] : List Char).length,
      matchPat (f₀ :: F') op
        ((['"'] : List Char).drop i ++
          (([':'] ++ (['['] ++ (itemsSeg ps ++ [']']))) ++ (',' :: X))) = none := by
    intro i hi
    have h0 : i = 0 := by simpa using hi
    subst h0
    simpa only [List.drop_zero, List.singleton_append, List.cons_append,
      List.append_assoc] using
      matchPat_second_ne f₀ F' op ':' ('[' :: (itemsSeg ps ++ ']' :: ',' :: X)) hq1
  have nmQCI : ∀ i < (['"'] ++ ([':'] ++ (['['] ++ (itemsSeg ps ++ [']'])))).length,
      matchPat (f₀ :: F') op
        ((['"'] ++ ([':'] ++ (['['] ++ (itemsSeg ps ++ [']'])))).drop i ++ (',' :: X)) = none :=
    nm_append _ _ ['"'] ([':'] ++ (['['] ++ (itemsSeg ps ++ [']']))) _ nmQC nmCoI
  have nmName : ∀ i < litKeyPoints.length,
      matchPat (f₀ :: F') op
        (litKeyPoints.drop i ++
          ((['"'] ++ ([':'] ++ (['['] ++ (itemsSeg ps ++ [']'])))) ++ (',' :: X))) = none :=
    nm_plain _ _ _ litKeyPoints (plainL_no_quote (by decide))
  have nmNI : ∀ i < (litKeyPoints ++ (['"'] ++ ([':'] ++ (['['] ++ (itemsSeg ps ++ [']']))))).length,
      matchPat (f₀ :: F') op
        ((litKeyPoints ++ (['"'] ++ ([':'] ++ (['['] ++ (itemsSeg ps ++ [']']))))).drop i
          ++ (',' :: X)) = none :=
    nm_append _ _ litKeyPoints (['"'] ++ ([':'] ++ (['['] ++ (itemsSeg ps ++ [']'])))) _
      nmName nmQCI
  have nmQO : ∀ i < (['"'] : List Char).length,
      matchPat (f₀ :: F') op
        ((['"'] : List Char).drop i ++
          ((litKeyPoints ++ (['"'] ++ ([':'] ++ (['['] ++ (itemsSeg ps ++ [']'])))))
            ++ (',' :: X))) = none := by
    intro i hi
    have h0 : i = 0 := by simpa using hi
    subst h0
    simpa only [List.drop_zero, List.singleton_append, List.cons_append,
      List.append_assoc] using
      matchPat_name_ne (f₀ :: F') litKeyPoints op
        (':' :: '[' :: (itemsSeg ps ++ ']' :: ',' :: X)) hF (by decide) hne
  exact nm_append _ _ ['"']
    (litKeyPoints ++ (['"'] ++ ([':'] ++ (['['] ++ (itemsSeg ps ++ [']']))))) _ nmQO nmNI

theorem scalarField_title (t : TargetSummary) (hp : plainTarget t = true) :
    ∀ n, scalarField litTitle ((serialize t).take n) =
      if 10 ≤ n then some (t.title.take (n - 10)) else none := by
  obtain ⟨h1, h2, h3, h4, h5, h6⟩ := plainTarget_fields hp
  obtain ⟨K, hlay⟩ : ∃ K, serialize t =
      ['{'] ++ '"' :: (('t' :: ['i', 't', 'l', 'e']) ++ '"' :: ':' :: '"' ::
        (t.title ++ '"' :: ',' :: '"' :: K)) :=
    ⟨_, by rw [serialize_normal]; rfl⟩
  intro n
  have hPre : ∀ i < (['{'] : List Char).length,
      matchPat ('t' :: ['i', 't', 'l', 'e']) '"'
        ((['{'] : List Char).drop i ++
          ('"' :: (('t' :: ['i', 't', 'l', 'e']) ++ '"' :: ':' :: '"' ::
            (t.title ++ '"' :: ',' :: '"' :: K)))) = none := by
    intro i hi
    have h0 : i = 0 := by simpa using hi
    subst h0
    exact matchPat_not_quote _ _ _ _ (by decide)
  have hcanon := findPat_canon 't' ['i', 't', 'l', 'e']
    (t.title ++ '"' :: ',' :: '"' :: K) ['{'] '"' (by decide) (by decide) (by decide)
    hPre n
  show (findPat litTitle '"' ((serialize t).take n)).map (fun r => unescape (munchRaw r)) = _
  rw [show litTitle = 't' :: ['i', 't', 'l', 'e'] from rfl, hlay, hcanon]
  have hel : (['{'] : List Char).length + ('t' :: ['i', 't', 'l', 'e'] : List Char).length + 4
      = 10 := rfl
  rw [hel]
  by_cases he : 10 ≤ n
  · rw [if_pos he, if_pos he]
    show some (unescape (munchRaw ((t.title ++ '"' :: (',' :: '"' :: K)).take (n - 10)))) = _
    rw [munchRaw_take t.title h1 (n - 10) (',' :: '"' :: K),
      unescape_plain _ (plainL_take h1 _)]
  · rw [if_neg he, if_neg he]
    rfl

theorem kpExtract_take (t : TargetSummary) (hp : plainTarget t = true) :
    ∀ n, kpExtract ((serialize t).take n) =
      if t.title.length + 25 ≤ n then
        (match takenItems t.keyPoints (n - (t.title.length + 25)) with
        | [] => none
        | l => some l)
      else none := by
  obtain ⟨h1, h2, h3, h4, h5, h6⟩ := plainTarget_fields hp
  obtain ⟨K, hlay⟩ : ∃ K, serialize t =
      (['{'] ++ (kvSeg litTitle t.title ++ [','])) ++ '"' ::
        (('k' :: ['e', 'y', 'P', 'o', 'i', 'n', 't', 's']) ++ '"' :: ':' :: '[' ::
          (itemsSeg t.keyPoints ++ ']' :: ',' :: '"' :: K)) :=
    ⟨_, by rw [serialize_normal]; simp [kvSeg, List.cons_append, List.append_assoc]; rfl⟩
  intro n
  have hPre : ∀ i < (['{'] ++ (kvSeg litTitle t.title ++ [','])).length,
      matchPat ('k' :: ['e', 'y', 'P', 'o', 'i', 'n', 't', 's']) '['
        ((['{'] ++ (kvSeg litTitle t.title ++ [','])).drop i ++
          ('"' :: (('k' :: ['e', 'y', 'P', 'o', 'i', 'n', 't', 's']) ++ '"' :: ':' :: '[' ::
            (itemsSeg t.keyPoints ++ ']' :: ',' :: '"' :: K)))) = none := by
    have nmComma : ∀ i < ([','] : List Char).length,
        matchPat ('k' :: ['e', 'y', 'P', 'o', 'i', 'n', 't', 's']) '['
          (([','] : List Char).drop i ++
            ('"' :: (('k' :: ['e', 'y', 'P', 'o', 'i', 'n', 't', 's']) ++ '"' :: ':' :: '[' ::
              (itemsSeg t.keyPoints ++ ']' :: ',' :: '"' :: K)))) = none :=
      nm_plain _ _ _ [','] (by decide)
    have nmKv : ∀ i < (kvSeg litTitle t.title).length,
        matchPat ('k' :: ['e', 'y', 'P', 'o', 'i', 'n', 't', 's']) '['
          ((kvSeg litTitle t.title).drop i ++
            ([','] ++ ('"' :: (('k' :: ['e', 'y', 'P', 'o', 'i', 'n', 't', 's']) ++
              '"' :: ':' :: '[' ::
              (itemsSeg t.keyPoints ++ ']' :: ',' :: '"' :: K))))) = none := by
      intro i hi
      simpa only [List.singleton_append] using
        nm_kvSeg 'k' ['e', 'y', 'P', 'o', 'i', 'n', 't', 's'] '[' litTitle t.title ','
          ('"' :: (('k' :: ['e', 'y', 'P', 'o', 'i', 'n', 't', 's']) ++ '"' :: ':' :: '[' ::
            (itemsSeg t.keyPoints ++ ']' :: ',' :: '"' :: K)))
          (by decide) (by decide) h1 (by decide) (by decide) (by decide) (by decide)
          (by decide) i hi
    have nmKvC : ∀ i < (kvSeg litTitle t.title ++ [',']).length,
        matchPat ('k' :: ['e', 'y', 'P', 'o', 'i', 'n', 't', 's']) '['
          ((kvSeg litTitle t.title ++ [',']).drop i ++
            ('"' :: (('k' :: ['e', 'y', 'P', 'o', 'i', 'n', 't', 's']) ++ '"' :: ':' :: '[' ::
              (itemsSeg t.keyPoints ++ ']' :: ',' :: '"' :: K)))) = none :=
      nm_append _ _ (kvSeg litTitle t.title) [','] _ nmKv nmComma
    have nmBrace : ∀ i < (['{'] : List Char).length,
        matchPat ('k' :: ['e', 'y', 'P', 'o', 'i', 'n', 't', 's']) '['
          ((['{'] : List Char).drop i ++
            ((kvSeg litTitle t.title ++ [',']) ++
              ('"' :: (('k' :: ['e', 'y', 'P', 'o', 'i', 'n', 't', 's']) ++ '"' :: ':' :: '[' ::
                (itemsSeg t.keyPoints ++ ']' :: ',' :: '"' :: K))))) = none :=
      nm_plain _ _ _ ['{'] (by decide)
    exact nm_append _ _ ['{'] (kvSeg litTitle t.title ++ [',']) _ nmBrace nmKvC
  have hcanon := findPat_canon 'k' ['e', 'y', 'P', 'o', 'i', 'n', 't', 's']
    (itemsSeg t.keyPoints ++ ']' :: ',' :: '"' :: K)
    (['{'] ++ (kvSeg litTitle t.title ++ [','])) '[' (by decide) (by decide) (by decide)
    hPre n
  show (findPat litKeyPoints '[' ((serialize t).take n)).bind
      (fun r =>
        match scanAll (upToRBracket r) with
        | [] => none
        | ps => some ps) = _
  rw [show litKeyPoints = 'k' :: ['e', 'y', 'P', 'o', 'i', 'n', 't', 's'] from rfl,
    hlay, hcanon]
  have hel : (['{'] ++ (kvSeg litTitle t.title ++ [','])).length +
      ('k' :: ['e', 'y', 'P', 'o', 'i', 'n', 't', 's'] : List Char).length + 4
      = t.title.length + 25 := by
    simp [kvSeg, litTitle]
  rw [hel]
  by_cases he : t.title.length + 25 ≤ n
  · rw [if_pos he, if_pos he]
    rw [Option.some_bind]
    rw [upToRBracket_take (itemsSeg t.keyPoints) (',' :: '"' :: K)
      (itemsSeg_no_rbracket t.keyPoints h2) (n - (t.title.length + 25))]
    rw [show scanAll ((itemsSeg t.keyPoints).take (n - (t.title.length + 25)))
        = takenItems t.keyPoints (n - (t.title.length + 25)) from
      scanItems_items t.keyPoints h2 _ _ (le_refl _)]
  · rw [if_neg he, if_neg he]
    rfl

theorem nm_docPrefix (f₀ : Char) (F' : List Char) (op : Char) (T : List Char)
    (ps : List (List Char)) (X₀ tail : List Char)
    (hF : plainL (f₀ :: F') = true) (h1 : plainL T = true) (h2 : ps.all plainL = true)
    (hneT : (f₀ :: F') ≠ litTitle) (hneK : (f₀ :: F') ≠ litKeyPoints)
    (hq1 : ':' ≠ f₀) (hqc : ',' ≠ f₀) (hqr : ']' ≠ f₀)
    (hX₀ : ∀ i < X₀.length, matchPat (f₀ :: F') op (X₀.drop i ++ tail) = none) :
    ∀ i < (['{'] ++ (kvSeg litTitle T ++ ([','] ++
        ((['"'] ++ (litKeyPoints ++ (['"'] ++ ([':'] ++ (['['] ++ (itemsSeg ps ++ [']']))))))
          ++ ([','] ++ X₀))))).length,
      matchPat (f₀ :: F') op
        ((['{'] ++ (kvSeg litTitle T ++ ([','] ++
          ((['"'] ++ (litKeyPoints ++ (['"'] ++ ([':'] ++ (['['] ++ (itemsSeg ps ++ [']']))))))
            ++ ([','] ++ X₀))))).drop i ++ tail) = none := by
  have nmCX : ∀ i < ([','] ++ X₀).length,
      matchPat (f₀ :: F') op (([','] ++ X₀).drop i ++ tail) = none :=
    nm_append _ _ [','] X₀ _ (nm_plain _ _ _ [','] (by decide)) hX₀
  have nmKP : ∀ i < (['"'] ++ (litKeyPoints ++ (['"'] ++ ([':'] ++
      (['['] ++ (itemsSeg ps ++ [']'])))))).length,
      matchPat (f₀ :: F') op
        ((['"'] ++ (litKeyPoints ++ (['"'] ++ ([':'] ++
          (['['] ++ (itemsSeg ps ++ [']'])))))).drop i ++ (([','] ++ X₀) ++ tail)) = none := by
    intro i hi
    simpa only [List.singleton_append, List.cons_append, List.append_assoc] using
      nm_kpMember f₀ F' op ps (X₀ ++ tail) hF h2 hneK hq1 hqc hqr i hi
  have nmKPC : ∀ i < ((['"'] ++ (litKeyPoints ++ (['"'] ++ ([':'] ++
      (['['] ++ (itemsSeg ps ++ [']'])))))) ++ ([','] ++ X₀)).length,
      matchPat (f₀ :: F') op
        (((['"'] ++ (litKeyPoints ++ (['"'] ++ ([':'] ++
          (['['] ++ (itemsSeg ps ++ [']'])))))) ++ ([','] ++ X₀)).drop i ++ tail) = none :=
    nm_append _ _ _ ([','] ++ X₀) _ nmKP nmCX
  have nmC1 : ∀ i < ([','] : List Char).length,
      matchPat (f₀ :: F') op
        (([','] : List Char).drop i ++
          (((['"'] ++ (litKeyPoints ++ (['"'] ++ ([':'] ++
            (['['] ++ (itemsSeg ps ++ [']'])))))) ++ ([','] ++ X₀)) ++ tail)) = none :=
    nm_plain _ _ _ [','] (by decide)
  have nmC1KPC : ∀ i < ([','] ++ ((['"'] ++ (litKeyPoints ++ (['"'] ++ ([':'] ++
      (['['] ++ (itemsSeg ps ++ [']'])))))) ++ ([','] ++ X₀))).length,
      matchPat (f₀ :: F') op
        (([','] ++ ((['"'] ++ (litKeyPoints ++ (['"'] ++ ([':'] ++
          (['['] ++ (itemsSeg ps ++ [']'])))))) ++ ([','] ++ X₀))).drop i ++ tail) = none :=
    nm_append _ _ [','] _ _ nmC1 nmKPC
  have nmKv : ∀ i < (kvSeg litTitle T).length,
      matchPat (f₀ :: F') op
        ((kvSeg litTitle T).drop i ++
          (([','] ++ ((['"'] ++ (litKeyPoints ++ (['"'] ++ ([':'] ++
            (['['] ++ (itemsSeg ps ++ [']'])))))) ++ ([','] ++ X₀))) ++ tail)) = none := by
    intro i hi
    simpa only [List.singleton_append, List.cons_append, List.append_assoc] using
      nm_kvSeg f₀ F' op litTitle T ','
        (((['"'] ++ (litKeyPoints ++ (['"'] ++ ([':'] ++
          (['['] ++ (itemsSeg ps ++ [']'])))))) ++ ([','] ++ X₀)) ++ tail)
        hF (by decide) h1 hneT hq1 hqc (by decide) (by decide) i hi
  have nmKvT : ∀ i < (kvSeg litTitle T ++ ([','] ++ ((['"'] ++ (litKeyPoints ++ (['"'] ++
      ([':'] ++ (['['] ++ (itemsSeg ps ++ [']'])))))) ++ ([','] ++ X₀)))).length,
      matchPat (f₀ :: F') op
        ((kvSeg litTitle T ++ ([','] ++ ((['"'] ++ (litKeyPoints ++ (['"'] ++ ([':'] ++
          (['['] ++ (itemsSeg ps ++ [']'])))))) ++ ([','] ++ X₀)))).drop i ++ tail) = none :=
    nm_append _ _ (kvSeg litTitle T) _ _ nmKv nmC1KPC
  have nmB : ∀ i < (['{'] : List Char).length,
      matchPat (f₀ :: F') op
        ((['{'] : List Char).drop i ++
          ((kvSeg litTitle T ++ ([','] ++ ((['"'] ++ (litKeyPoints ++ (['"'] ++ ([':'] ++
            (['['] ++ (itemsSeg ps ++ [']'])))))) ++ ([','] ++ X₀)))) ++ tail)) = none :=
    nm_plain _ _ _ ['{'] (by decide)
  exact nm_append _ _ ['{'] _ _ nmB nmKvT

theorem scalarField_methodology (t : TargetSummary) (hp : plainTarget t = true) :
    ∀ n, scalarField litMethodology ((serialize t).take n) =
      if t.title.length + (itemsSeg t.keyPoints).length + 42 ≤ n then
        some (t.methodology.take (n - (t.title.length + (itemsSeg t.keyPoints).length + 42)))
      else none := by
  obtain ⟨h1, h2, h3, h4, h5, h6⟩ := plainTarget_fields hp
  obtain ⟨K, hlay⟩ : ∃ K, serialize t =
      (['{'] ++ (kvSeg litTitle t.title ++ ([','] ++
        ((['"'] ++ (litKeyPoints ++ (['"'] ++ ([':'] ++ (['['] ++ (itemsSeg t.keyPoints ++ [']'])))))) ++ ([','] ++ ([] : List Char)))))) ++ '"' ::
        (('m' :: ['e', 't', 'h', 'o', 'd', 'o', 'l', 'o', 'g', 'y']) ++ '"' :: ':' :: '"' ::
          (t.methodology ++ '"' :: ',' :: '"' :: K)) :=
    ⟨_, by rw [serialize_normal]; simp [kvSeg, List.cons_append, List.append_assoc]; rfl⟩
  intro n
  have hX : ∀ i < ([] : List Char).length,
      matchPat ('m' :: ['e', 't', 'h', 'o', 'd', 'o', 'l', 'o', 'g', 'y']) '"'
        (([] : List Char).drop i ++
          ('"' :: (('m' :: ['e', 't', 'h', 'o', 'd', 'o', 'l', 'o', 'g', 'y']) ++ '"' :: ':' :: '"' ::
            (t.methodology ++ '"' :: ',' :: '"' :: K)))) = none := by
    intro i hi
    simp at hi
  have hPre := nm_docPrefix 'm' ['e', 't', 'h', 'o', 'd', 'o', 'l', 'o', 'g', 'y'] '"' t.title t.keyPoints
    ([] : List Char)
    ('"' :: (('m' :: ['e', 't', 'h', 'o', 'd', 'o', 'l', 'o', 'g', 'y']) ++ '"' :: ':' :: '"' ::
      (t.methodology ++ '"' :: ',' :: '"' :: K)))
    (by decide) h1 h2 (by decide) (by decide) (by decide) (by decide) (by decide) hX
  have hcanon := findPat_canon 'm' ['e', 't', 'h', 'o', 'd', 'o', 'l', 'o', 'g', 'y']
    (t.methodology ++ '"' :: ',' :: '"' :: K)
    (['{'] ++ (kvSeg litTitle t.title ++ ([','] ++
      ((['"'] ++ (litKeyPoints ++ (['"'] ++ ([':'] ++ (['['] ++ (itemsSeg t.keyPoints ++ [']'])))))) ++ ([','] ++ ([] : List Char)))))) '"'
    (by decide) (by decide) (by decide) hPre n
  show (findPat litMethodology '"' ((serialize t).take n)).map (fun r => unescape (munchRaw r)) = _
  rw [show litMethodology = 'm' :: ['e', 't', 'h', 'o', 'd', 'o', 'l', 'o', 'g', 'y'] from rfl, hlay, hcanon]
  have hel : (['{'] ++ (kvSeg litTitle t.title ++ ([','] ++
      ((['"'] ++ (litKeyPoints ++ (['"'] ++ ([':'] ++ (['['] ++ (itemsSeg t.keyPoints ++ [']'])))))) ++ ([','] ++ ([] : List Char)))))).length +
      ('m' :: ['e', 't', 'h', 'o', 'd', 'o', 'l', 'o', 'g', 'y'] : List Char).length + 4 = t.title.length + (itemsSeg t.keyPoints).length + 42 := by
    simp [kvSeg, litTitle, litKeyPoints, litMethodology, litFindings, litImplications]
    omega
  rw [hel]
  by_cases he : t.title.length + (itemsSeg t.keyPoints).length + 42 ≤ n
  · rw [if_pos he, if_pos he]
    show some (unescape (munchRaw
      ((t.methodology ++ '"' :: (',' :: '"' :: K)).take (n - (t.title.length + (itemsSeg t.keyPoints).length + 42))))) = _
    rw [munchRaw_take t.methodology h3 _ (',' :: '"' :: K),
      unescape_plain _ (plainL_take h3 _)]
  · rw [if_neg he, if_neg he]
    rfl

theorem scalarField_findings (t : TargetSummary) (hp : plainTarget t = true) :
    ∀ n, scalarField litFindings ((serialize t).take n) =
      if t.title.length + (itemsSeg t.keyPoints).length + t.methodology.length + 56 ≤ n then
        some (t.findings.take (n - (t.title.length + (itemsSeg t.keyPoints).length + t.methodology.length + 56)))
      else none := by
  obtain ⟨h1, h2, h3, h4, h5, h6⟩ := plainTarget_fields hp
  obtain ⟨K, hlay⟩ : ∃ K, serialize t =
      (['{'] ++ (kvSeg litTitle t.title ++ ([','] ++
        ((['"'] ++ (litKeyPoints ++ (['"'] ++ ([':'] ++ (['['] ++ (itemsSeg t.keyPoints ++ [']'])))))) ++ ([','] ++ (kvSeg litMethodology t.methodology ++ [','] : List Char)))))) ++ '"' ::
        (('f' :: ['i', 'n', 'd', 'i', 'n', 'g', 's']) ++ '"' :: ':' :: '"' ::
          (t.findings ++ '"' :: ',' :: '"' :: K)) :=
    ⟨_, by rw [serialize_normal]; simp [kvSeg, List.cons_append, List.append_assoc]; rfl⟩
  intro n
  have hX : ∀ i < (kvSeg litMethodology t.methodology ++ [','] : List Char).length,
      matchPat ('f' :: ['i', 'n', 'd', 'i', 'n', 'g', 's']) '"'
        ((kvSeg litMethodology t.methodology ++ [','] : List Char).drop i ++
          ('"' :: (('f' :: ['i', 'n', 'd', 'i', 'n', 'g', 's']) ++ '"' :: ':' :: '"' ::
            (t.findings ++ '"' :: ',' :: '"' :: K)))) = none := by
    refine nm_append _ _ (kvSeg litMethodology t.methodology) [','] _ ?_
      (nm_plain _ _ _ [','] (by decide))
    intro i hi
    simpa only [List.singleton_append, List.cons_append, List.append_assoc] using
      nm_kvSeg 'f' ['i', 'n', 'd', 'i', 'n', 'g', 's'] '"' litMethodology t.methodology ','
        ('"' :: (('f' :: ['i', 'n', 'd', 'i', 'n', 'g', 's']) ++ '"' :: ':' :: '"' ::
          (t.findings ++ '"' :: ',' :: '"' :: K)))
        (by decide) (by decide) h3 (by decide) (by decide) (by decide) (by decide)
        (by decide) i hi
  have hPre := nm_docPrefix 'f' ['i', 'n', 'd', 'i', 'n', 'g', 's'] '"' t.title t.keyPoints
    (kvSeg litMethodology t.methodology ++ [','] : List Char)
    ('"' :: (('f' :: ['i', 'n', 'd', 'i', 'n', 'g', 's']) ++ '"' :: ':' :: '"' ::
      (t.findings ++ '"' :: ',' :: '"' :: K)))
    (by decide) h1 h2 (by decide) (by decide) (by decide) (by decide) (by decide) hX
  have hcanon := findPat_canon 'f' ['i', 'n', 'd', 'i', 'n', 'g', 's']
    (t.findings ++ '"' :: ',' :: '"' :: K)
    (['{'] ++ (kvSeg litTitle t.title ++ ([','] ++
      ((['"'] ++ (litKeyPoints ++ (['"'] ++ ([':'] ++ (['['] ++ (itemsSeg t.keyPoints ++ [']'])))))) ++ ([','] ++ (kvSeg litMethodology t.methodology ++ [','] : List Char)))))) '"'
    (by decide) (by decide) (by decide) hPre n
  show (findPat litFindings '"' ((serialize t).take n)).map (fun r => unescape (munchRaw r)) = _
  rw [show litFindings = 'f' :: ['i', 'n', 'd', 'i', 'n', 'g', 's'] from rfl, hlay, hcanon]
  have hel : (['{'] ++ (kvSeg litTitle t.title ++ ([','] ++
      ((['"'] ++ (litKeyPoints ++ (['"'] ++ ([':'] ++ (['['] ++ (itemsSeg t.keyPoints ++ [']'])))))) ++ ([','] ++ (kvSeg litMethodology t.methodology ++ [','] : List Char)))))).length +
      ('f' :: ['i', 'n', 'd', 'i', 'n', 'g', 's'] : List Char).length + 4 = t.title.length + (itemsSeg t.keyPoints).length + t.methodology.length + 56 := by
    simp [kvSeg, litTitle, litKeyPoints, litMethodology, litFindings, litImplications]
    omega
  rw [hel]
  by_cases he : t.title.length + (itemsSeg t.keyPoints).length + t.methodology.length + 56 ≤ n
  · rw [if_pos he, if_pos he]
    show some (unescape (munchRaw
      ((t.findings ++ '"' :: (',' :: '"' :: K)).take (n - (t.title.length + (itemsSeg t.keyPoints).length + t.methodology.length + 56))))) = _
    rw [munchRaw_take t.findings h4 _ (',' :: '"' :: K),
      unescape_plain _ (plainL_take h4 _)]
  · rw [if_neg he, if_neg he]
    rfl

theorem scalarField_implications (t : TargetSummary) (hp : plainTarget t = true) :
    ∀ n, scalarField litImplications ((serialize t).take n) =
      if t.title.length + (itemsSeg t.keyPoints).length + t.methodology.length + t.findings.length + 74 ≤ n then
        some (t.implications.take (n - (t.title.length + (itemsSeg t.keyPoints).length + t.methodology.length + t.findings.length + 74)))
      else none := by
  obtain ⟨h1, h2, h3, h4, h5, h6⟩ := plainTarget_fields hp
  obtain ⟨K, hlay⟩ : ∃ K, serialize t =
      (['{'] ++ (kvSeg litTitle t.title ++ ([','] ++
        ((['"'] ++ (litKeyPoints ++ (['"'] ++ ([':'] ++ (['['] ++ (itemsSeg t.keyPoints ++ [']'])))))) ++ ([','] ++ (kvSeg litMethodology t.methodology ++ ([','] ++ (kvSeg litFindings t.findings ++ [','])) : List Char)))))) ++ '"' ::
        (('i' :: ['m', 'p', 'l', 'i', 'c', 'a', 't', 'i', 'o', 'n', 's']) ++ '"' :: ':' :: '"' ::
          (t.implications ++ '"' :: ',' :: '"' :: K)) :=
    ⟨_, by rw [serialize_normal]; simp [kvSeg, List.cons_append, List.append_assoc]; rfl⟩
  intro n
  have hX : ∀ i < (kvSeg litMethodology t.methodology ++ ([','] ++ (kvSeg litFindings t.findings ++ [','])) : List Char).length,
      matchPat ('i' :: ['m', 'p', 'l', 'i', 'c', 'a', 't', 'i', 'o', 'n', 's']) '"'
        ((kvSeg litMethodology t.methodology ++ ([','] ++ (kvSeg litFindings t.findings ++ [','])) : List Char).drop i ++
          ('"' :: (('i' :: ['m', 'p', 'l', 'i', 'c', 'a', 't', 'i', 'o', 'n', 's']) ++ '"' :: ':' :: '"' ::
            (t.implications ++ '"' :: ',' :: '"' :: K)))) = none := by
    have hkvf : ∀ i < (kvSeg litFindings t.findings ++ [',']).length,
        matchPat ('i' :: ['m', 'p', 'l', 'i', 'c', 'a', 't', 'i', 'o', 'n', 's']) '"'
          ((kvSeg litFindings t.findings ++ [',']).drop i ++
            ('"' :: (('i' :: ['m', 'p', 'l', 'i', 'c', 'a', 't', 'i', 'o', 'n', 's']) ++
              '"' :: ':' :: '"' ::
              (t.implications ++ '"' :: ',' :: '"' :: K)))) = none := by
      refine nm_append _ _ (kvSeg litFindings t.findings) [','] _ ?_
        (nm_plain _ _ _ [','] (by decide))
      intro i hi
      simpa only [List.singleton_append, List.cons_append, List.append_assoc] using
        nm_kvSeg 'i' ['m', 'p', 'l', 'i', 'c', 'a', 't', 'i', 'o', 'n', 's'] '"'
          litFindings t.findings ','
          ('"' :: (('i' :: ['m', 'p', 'l', 'i', 'c', 'a', 't', 'i', 'o', 'n', 's']) ++
            '"' :: ':' :: '"' :: (t.implications ++ '"' :: ',' :: '"' :: K)))
          (by decide) (by decide) h4 (by decide) (by decide) (by decide) (by decide)
          (by decide) i hi
    have hcv : ∀ i < ([','] ++ (kvSeg litFindings t.findings ++ [','])).length,
        matchPat ('i' :: ['m', 'p', 'l', 'i', 'c', 'a', 't', 'i', 'o', 'n', 's']) '"'
          (([','] ++ (kvSeg litFindings t.findings ++ [','])).drop i ++
            ('"' :: (('i' :: ['m', 'p', 'l', 'i', 'c', 'a', 't', 'i', 'o', 'n', 's']) ++
              '"' :: ':' :: '"' ::
              (t.implications ++ '"' :: ',' :: '"' :: K)))) = none :=
      nm_append _ _ [','] _ _ (nm_plain _ _ _ [','] (by decide)) hkvf
    refine nm_append _ _ (kvSeg litMethodology t.methodology)
      ([','] ++ (kvSeg litFindings t.findings ++ [','])) _ ?_ hcv
    intro i hi
    simpa only [List.singleton_append, List.cons_append, List.append_assoc] using
      nm_kvSeg 'i' ['m', 'p', 'l', 'i', 'c', 'a', 't', 'i', 'o', 'n', 's'] '"'
        litMethodology t.methodology ','
        ((kvSeg litFindings t.findings ++ [',']) ++
          ('"' :: (('i' :: ['m', 'p', 'l', 'i', 'c', 'a', 't', 'i', 'o', 'n', 's']) ++
            '"' :: ':' :: '"' :: (t.implications ++ '"' :: ',' :: '"' :: K))))
        (by decide) (by decide) h3 (by decide) (by decide) (by decide) (by decide)
        (by decide) i hi
  have hPre := nm_docPrefix 'i' ['m', 'p', 'l', 'i', 'c', 'a', 't', 'i', 'o', 'n', 's'] '"' t.title t.keyPoints
    (kvSeg litMethodology t.methodology ++ ([','] ++ (kvSeg litFindings t.findings ++ [','])) : List Char)
    ('"' :: (('i' :: ['m', 'p', 'l', 'i', 'c', 'a', 't', 'i', 'o', 'n', 's']) ++ '"' :: ':' :: '"' ::
      (t.implications ++ '"' :: ',' :: '"' :: K)))
    (by decide) h1 h2 (by decide) (by decide) (by decide) (by decide) (by decide) hX
  have hcanon := findPat_canon 'i' ['m', 'p', 'l', 'i', 'c', 'a', 't', 'i', 'o', 'n', 's']
    (t.implications ++ '"' :: ',' :: '"' :: K)
    (['{'] ++ (kvSeg litTitle t.title ++ ([','] ++
      ((['"'] ++ (litKeyPoints ++ (['"'] ++ ([':'] ++ (['['] ++ (itemsSeg t.keyPoints ++ [']'])))))) ++ ([','] ++ (kvSeg litMethodology t.methodology ++ ([','] ++ (kvSeg litFindings t.findings ++ [','])) : List Char)))))) '"'
    (by decide) (by decide) (by decide) hPre n
  show (findPat litImplications '"' ((serialize t).take n)).map (fun r => unescape (munchRaw r)) = _
  rw [show litImplications = 'i' :: ['m', 'p', 'l', 'i', 'c', 'a', 't', 'i', 'o', 'n', 's'] from rfl, hlay, hcanon]
  have hel : (['{'] ++ (kvSeg litTitle t.title ++ ([','] ++
      ((['"'] ++ (litKeyPoints ++ (['"'] ++ ([':'] ++ (['['] ++ (itemsSeg t.keyPoints ++ [']'])))))) ++ ([','] ++ (kvSeg litMethodology t.methodology ++ ([','] ++ (kvSeg litFindings t.findings ++ [','])) : List Char)))))).length +
      ('i' :: ['m', 'p', 'l', 'i', 'c', 'a', 't', 'i', 'o', 'n', 's'] : List Char).length + 4 = t.title.length + (itemsSeg t.keyPoints).length + t.methodology.length + t.findings.length + 74 := by
    simp [kvSeg, litTitle, litKeyPoints, litMethodology, litFindings, litImplications]
    omega
  rw [hel]
  by_cases he : t.title.length + (itemsSeg t.keyPoints).length + t.methodology.length + t.findings.length + 74 ≤ n
  · rw [if_pos he, if_pos he]
    show some (unescape (munchRaw
      ((t.implications ++ '"' :: (',' :: '"' :: K)).take (n - (t.title.length + (itemsSeg t.keyPoints).length + t.methodology.length + t.findings.length + 74))))) = _
    rw [munchRaw_take t.implications h5 _ (',' :: '"' :: K),
      unescape_plain _ (plainL_take h5 _)]
  · rw [if_neg he, if_neg he]
    rfl

theorem scalarField_overall (t : TargetSummary) (hp : plainTarget t = true) :
    ∀ n, scalarField litOverallSummary ((serialize t).take n) =
      if t.title.length + (itemsSeg t.keyPoints).length + t.methodology.length + t.findings.length + t.implications.length + 94 ≤ n then
        some (t.overallSummary.take (n - (t.title.length + (itemsSeg t.keyPoints).length + t.methodology.length + t.findings.length + t.implications.length + 94)))
      else none := by
  obtain ⟨h1, h2, h3, h4, h5, h6⟩ := plainTarget_fields hp
  obtain ⟨K, hlay⟩ : ∃ K, serialize t =
      (['{'] ++ (kvSeg litTitle t.title ++ ([','] ++
        ((['"'] ++ (litKeyPoints ++ (['"'] ++ ([':'] ++ (['['] ++ (itemsSeg t.keyPoints ++ [']'])))))) ++ ([','] ++ (kvSeg litMethodology t.methodology ++ ([','] ++ (kvSeg litFindings t.findings ++ ([','] ++ (kvSeg litImplications t.implications ++ [','])))) : List Char)))))) ++ '"' ::
        (('o' :: ['v', 'e', 'r', 'a', 'l', 'l', 'S', 'u', 'm', 'm', 'a', 'r', 'y']) ++ '"' :: ':' :: '"' ::
          (t.overallSummary ++ '"' :: '}' :: K)) :=
    ⟨_, by rw [serialize_normal]; simp [kvSeg, List.cons_append, List.append_assoc]; rfl⟩
  intro n
  have hX : ∀ i < (kvSeg litMethodology t.methodology ++ ([','] ++ (kvSeg litFindings t.findings ++ ([','] ++ (kvSeg litImplications t.implications ++ [','])))) : List Char).length,
      matchPat ('o' :: ['v', 'e', 'r', 'a', 'l', 'l', 'S', 'u', 'm', 'm', 'a', 'r', 'y']) '"'
        ((kvSeg litMethodology t.methodology ++ ([','] ++ (kvSeg litFindings t.findings ++ ([','] ++ (kvSeg litImplications t.implications ++ [','])))) : List Char).drop i ++
          ('"' :: (('o' :: ['v', 'e', 'r', 'a', 'l', 'l', 'S', 'u', 'm', 'm', 'a', 'r', 'y']) ++ '"' :: ':' :: '"' ::
            (t.overallSummary ++ '"' :: '}' :: K)))) = none := by
    have hkvi : ∀ i < (kvSeg litImplications t.implications ++ [',']).length,
        matchPat ('o' :: ['v', 'e', 'r', 'a', 'l', 'l', 'S', 'u', 'm', 'm', 'a', 'r', 'y']) '"'
          ((kvSeg litImplications t.implications ++ [',']).drop i ++
            ('"' :: (('o' :: ['v', 'e', 'r', 'a', 'l', 'l', 'S', 'u', 'm', 'm', 'a', 'r', 'y']) ++
              '"' :: ':' :: '"' ::
              (t.overallSummary ++ '"' :: '}' :: K)))) = none := by
      refine nm_append _ _ (kvSeg litImplications t.implications) [','] _ ?_
        (nm_plain _ _ _ [','] (by decide))
      intro i hi
      simpa only [List.singleton_append, List.cons_append, List.append_assoc] using
        nm_kvSeg 'o' ['v', 'e', 'r', 'a', 'l', 'l', 'S', 'u', 'm', 'm', 'a', 'r', 'y'] '"'
          litImplications t.implications ','
          ('"' :: (('o' :: ['v', 'e', 'r', 'a', 'l', 'l', 'S', 'u', 'm', 'm', 'a', 'r', 'y']) ++
            '"' :: ':' :: '"' :: (t.overallSummary ++ '"' :: '}' :: K)))
          (by decide) (by decide) h5 (by decide) (by decide) (by decide) (by decide)
          (by decide) i hi
    have hcvi : ∀ i < ([','] ++ (kvSeg litImplications t.implications ++ [','])).length,
        matchPat ('o' :: ['v', 'e', 'r', 'a', 'l', 'l', 'S', 'u', 'm', 'm', 'a', 'r', 'y']) '"'
          (([','] ++ (kvSeg litImplications t.implications ++ [','])).drop i ++
            ('"' :: (('o' :: ['v', 'e', 'r', 'a', 'l', 'l', 'S', 'u', 'm', 'm', 'a', 'r', 'y']) ++
              '"' :: ':' :: '"' ::
              (t.overallSummary ++ '"' :: '}' :: K)))) = none :=
      nm_append _ _ [','] _ _ (nm_plain _ _ _ [','] (by decide)) hkvi
    have hkvf2 : ∀ i < (kvSeg litFindings t.findings ++ ([','] ++
        (kvSeg litImplications t.implications ++ [',']))).length,
        matchPat ('o' :: ['v', 'e', 'r', 'a', 'l', 'l', 'S', 'u', 'm', 'm', 'a', 'r', 'y']) '"'
          ((kvSeg litFindings t.findings ++ ([','] ++
            (kvSeg litImplications t.implications ++ [',']))).drop i ++
            ('"' :: (('o' :: ['v', 'e', 'r', 'a', 'l', 'l', 'S', 'u', 'm', 'm', 'a', 'r', 'y']) ++
              '"' :: ':' :: '"' ::
              (t.overallSummary ++ '"' :: '}' :: K)))) = none := by
      refine nm_append _ _ (kvSeg litFindings t.findings) _ _ ?_ hcvi
      intro i hi
      simpa only [List.singleton_append, List.cons_append, List.append_assoc] using
        nm_kvSeg 'o' ['v', 'e', 'r', 'a', 'l', 'l', 'S', 'u', 'm', 'm', 'a', 'r', 'y'] '"'
          litFindings t.findings ','
          ((kvSeg litImplications t.implications ++ [',']) ++
            ('"' :: (('o' :: ['v', 'e', 'r', 'a', 'l', 'l', 'S', 'u', 'm', 'm', 'a', 'r', 'y']) ++
              '"' :: ':' :: '"' :: (t.overallSummary ++ '"' :: '}' :: K))))
          (by decide) (by decide) h4 (by decide) (by decide) (by decide) (by decide)
          (by decide) i hi
    have hcvf : ∀ i < ([','] ++ (kvSeg litFindings t.findings ++ ([','] ++
        (kvSeg litImplications t.implications ++ [','])))).length,
        matchPat ('o' :: ['v', 'e', 'r', 'a', 'l', 'l', 'S', 'u', 'm', 'm', 'a', 'r', 'y']) '"'
          (([','] ++ (kvSeg litFindings t.findings ++ ([','] ++
            (kvSeg litImplications t.implications ++ [','])))).drop i ++
            ('"' :: (('o' :: ['v', 'e', 'r', 'a', 'l', 'l', 'S', 'u', 'm', 'm', 'a', 'r', 'y']) ++
              '"' :: ':' :: '"' ::
              (t.overallSummary ++ '"' :: '}' :: K)))) = none :=
      nm_append _ _ [','] _ _ (nm_plain _ _ _ [','] (by decide)) hkvf2
    refine nm_append _ _ (kvSeg litMethodology t.methodology) _ _ ?_ hcvf
    intro i hi
    simpa only [List.singleton_append, List.cons_append, List.append_assoc] using
      nm_kvSeg 'o' ['v', 'e', 'r', 'a', 'l', 'l', 'S', 'u', 'm', 'm', 'a', 'r', 'y'] '"'
        litMethodology t.methodology ','
        ((kvSeg litFindings t.findings ++ ([','] ++
          (kvSeg litImplications t.implications ++ [',']))) ++
          ('"' :: (('o' :: ['v', 'e', 'r', 'a', 'l', 'l', 'S', 'u', 'm', 'm', 'a', 'r', 'y']) ++
            '"' :: ':' :: '"' :: (t.overallSummary ++ '"' :: '}' :: K))))
        (by decide) (by decide) h3 (by decide) (by decide) (by decide) (by decide)
        (by decide) i hi
  have hPre := nm_docPrefix 'o' ['v', 'e', 'r', 'a', 'l', 'l', 'S', 'u', 'm', 'm', 'a', 'r', 'y'] '"' t.title t.keyPoints
    (kvSeg litMethodology t.methodology ++ ([','] ++ (kvSeg litFindings t.findings ++ ([','] ++ (kvSeg litImplications t.implications ++ [','])))) : List Char)
    ('"' :: (('o' :: ['v', 'e', 'r', 'a', 'l', 'l', 'S', 'u', 'm', 'm', 'a', 'r', 'y']) ++ '"' :: ':' :: '"' ::
      (t.overallSummary ++ '"' :: '}' :: K)))
    (by decide) h1 h2 (by decide) (by decide) (by decide) (by decide) (by decide) hX
  have hcanon := findPat_canon 'o' ['v', 'e', 'r', 'a', 'l', 'l', 'S', 'u', 'm', 'm', 'a', 'r', 'y']
    (t.overallSummary ++ '"' :: '}' :: K)
    (['{'] ++ (kvSeg litTitle t.title ++ ([','] ++
      ((['"'] ++ (litKeyPoints ++ (['"'] ++ ([':'] ++ (['['] ++ (itemsSeg t.keyPoints ++ [']'])))))) ++ ([','] ++ (kvSeg litMethodology t.methodology ++ ([','] ++ (kvSeg litFindings t.findings ++ ([','] ++ (kvSeg litImplications t.implications ++ [','])))) : List Char)))))) '"'
    (by decide) (by decide) (by decide) hPre n
  show (findPat litOverallSummary '"' ((serialize t).take n)).map (fun r => unescape (munchRaw r)) = _
  rw [show litOverallSummary = 'o' :: ['v', 'e', 'r', 'a', 'l', 'l', 'S', 'u', 'm', 'm', 'a', 'r', 'y'] from rfl, hlay, hcanon]
  have hel : (['{'] ++ (kvSeg litTitle t.title ++ ([','] ++
      ((['"'] ++ (litKeyPoints ++ (['"'] ++ ([':'] ++ (['['] ++ (itemsSeg t.keyPoints ++ [']'])))))) ++ ([','] ++ (kvSeg litMethodology t.methodology ++ ([','] ++ (kvSeg litFindings t.findings ++ ([','] ++ (kvSeg litImplications t.implications ++ [','])))) : List Char)))))).length +
      ('o' :: ['v', 'e', 'r', 'a', 'l', 'l', 'S', 'u', 'm', 'm', 'a', 'r', 'y'] : List Char).length + 4 = t.title.length + (itemsSeg t.keyPoints).length + t.methodology.length + t.findings.length + t.implications.length + 94 := by
    simp [kvSeg, litTitle, litKeyPoints, litMethodology, litFindings, litImplications]
    omega
  rw [hel]
  by_cases he : t.title.length + (itemsSeg t.keyPoints).length + t.methodology.length + t.findings.length + t.implications.length + 94 ≤ n
  · rw [if_pos he, if_pos he]
    show some (unescape (munchRaw
      ((t.overallSummary ++ '"' :: ('}' :: K)).take (n - (t.title.length + (itemsSeg t.keyPoints).length + t.methodology.length + t.findings.length + t.implications.length + 94))))) = _
    rw [munchRaw_take t.overallSummary h6 _ ('}' :: K),
      unescape_plain _ (plainL_take h6 _)]
  · rw [if_neg he, if_neg he]
    rfl

theorem epf_take_model (t : TargetSummary) (hp : plainTarget t = true) (n : Nat) :
    extractPartialFields ((serialize t).take n) = epfModel t n := by
  show (let t? := scalarField litTitle ((serialize t).take n)
        let kp? := kpExtract ((serialize t).take n)
        let m? := scalarField litMethodology ((serialize t).take n)
        let f? := scalarField litFindings ((serialize t).take n)
        let i? := scalarField litImplications ((serialize t).take n)
        let o? := scalarField litOverallSummary ((serialize t).take n)
        if t?.isSome ∨ kp?.isSome ∨ m?.isSome ∨ f?.isSome ∨ i?.isSome ∨ o?.isSome then
          some
            { title := Json.str (t?.getD [])
              keyPoints :=
                (((kp?.getD []).map unescape).filter (fun p => ¬ p.isEmpty)).map Json.str
              methodology := Json.str (m?.getD [])
              findings := Json.str (f?.getD [])
              implications := Json.str (i?.getD [])
              overallSummary := Json.str (o?.getD []) }
        else none) = epfModel t n
  simp only [scalarField_title t hp n, kpExtract_take t hp n,
    scalarField_methodology t hp n, scalarField_findings t hp n,
    scalarField_implications t hp n, scalarField_overall t hp n]
  rfl

theorem epfModel_eq (t : TargetSummary) (n : Nat) :
    epfModel t n =
      if (fieldAt t.title (eTitle t) n).isSome ∨ (kpAt t.keyPoints (eKeyPoints t) n).isSome ∨
          (fieldAt t.methodology (eMethodology t) n).isSome ∨
          (fieldAt t.findings (eFindings t) n).isSome ∨
          (fieldAt t.implications (eImplications t) n).isSome ∨
          (fieldAt t.overallSummary (eOverall t) n).isSome then
        some
          { title := Json.str ((fieldAt t.title (eTitle t) n).getD [])
            keyPoints :=
              ((((kpAt t.keyPoints (eKeyPoints t) n).getD []).map unescape).filter
                (fun p => ¬ p.isEmpty)).map Json.str
            methodology := Json.str ((fieldAt t.methodology (eMethodology t) n).getD [])
            findings := Json.str ((fieldAt t.findings (eFindings t) n).getD [])
            implications := Json.str ((fieldAt t.implications (eImplications t) n).getD [])
            overallSummary := Json.str ((fieldAt t.overallSummary (eOverall t) n).getD []) }
      else none := rfl

theorem fieldAt_isSome_mono {v : List Char} {e n₁ n₂ : Nat} (h : n₁ ≤ n₂)
    (hs : (fieldAt v e n₁).isSome = true) : (fieldAt v e n₂).isSome = true := by
  unfold fieldAt at hs ⊢
  by_cases h1 : e ≤ n₁
  · rw [if_pos (le_trans h1 h)]
    rfl
  · rw [if_neg h1] at hs
    exact absurd hs (by simp)

theorem fieldAt_getD_ne_mono {v : List Char} {e n₁ n₂ : Nat} (h : n₁ ≤ n₂)
    (hne : (fieldAt v e n₁).getD [] ≠ []) : (fieldAt v e n₂).getD [] ≠ [] := by
  unfold fieldAt at hne ⊢
  by_cases h1 : e ≤ n₁
  · rw [if_pos h1] at hne
    rw [if_pos (le_trans h1 h)]
    simp only [Option.getD_some] at hne ⊢
    rw [Ne, List.take_eq_nil_iff] at hne ⊢
    push_neg at hne ⊢
    exact ⟨by omega, hne.2⟩
  · rw [if_neg h1] at hne
    exact absurd rfl hne

theorem fieldAt_getD_ne_full {v : List Char} {e n : Nat}
    (hne : (fieldAt v e n).getD [] ≠ []) : v ≠ [] := by
  unfold fieldAt at hne
  by_cases h1 : e ≤ n
  · rw [if_pos h1] at hne
    simp only [Option.getD_some] at hne
    rw [Ne, List.take_eq_nil_iff] at hne
    push_neg at hne
    exact hne.2
  · rw [if_neg h1] at hne
    exact absurd rfl hne

theorem takenItems_mono (ps : List (List Char)) :
    ∀ {k₁ k₂ : Nat}, k₁ ≤ k₂ → takenItems ps k₁ <+: takenItems ps k₂ := by
  induction ps with
  | nil => intro k₁ k₂ _; exact List.prefix_refl _
  | cons p ps ih =>
    intro k₁ k₂ h
    rw [takenItems_cons, takenItems_cons]
    by_cases h1 : p.length + 2 ≤ k₁
    · rw [if_pos h1, if_pos (by omega)]
      exact List.cons_prefix_cons.mpr ⟨rfl, ih (by omega)⟩
    · rw [if_neg h1]
      exact List.nil_prefix

theorem takenItems_subset (ps : List (List Char)) :
    ∀ (k : Nat) (x : List Char), x ∈ takenItems ps k → x ∈ ps := by
  induction ps with
  | nil => intro k x hx; exact absurd hx (List.not_mem_nil _)
  | cons p ps ih =>
    intro k x hx
    rw [takenItems_cons] at hx
    by_cases h1 : p.length + 2 ≤ k
    · rw [if_pos h1] at hx
      rcases List.mem_cons.mp hx with he | hm
      · exact he ▸ List.mem_cons_self _ _
      · exact List.mem_cons_of_mem _ (ih _ _ hm)
    · rw [if_neg h1] at hx
      exact absurd hx (List.not_mem_nil _)

theorem kpAt_getD (ps : List (List Char)) (e n : Nat) :
    (kpAt ps e n).getD [] = if e ≤ n then takenItems ps (n - e) else [] := by
  unfold kpAt
  by_cases h : e ≤ n
  · rw [if_pos h, if_pos h]
    split
    · rename_i heq
      rw [heq]
      rfl
    · rfl
  · rw [if_neg h, if_neg h]
    rfl

theorem prefix_ne_nil {α : Type} {l₁ l₂ : List α} (h : l₁ <+: l₂) (hne : l₁ ≠ []) :
    l₂ ≠ [] := by
  intro he
  subst he
  exact hne (List.prefix_nil.mp h)

theorem kpList_ne_mono (t : TargetSummary) {n₁ n₂ : Nat} (h : n₁ ≤ n₂)
    (hne : ((((kpAt t.keyPoints (eKeyPoints t) n₁).getD []).map unescape).filter
      (fun p => ¬ p.isEmpty)).map Json.str ≠ []) :
    ((((kpAt t.keyPoints (eKeyPoints t) n₂).getD []).map unescape).filter
      (fun p => ¬ p.isEmpty)).map Json.str ≠ [] := by
  rw [kpAt_getD] at hne ⊢
  by_cases h1 : eKeyPoints t ≤ n₁
  · rw [if_pos h1] at hne
    rw [if_pos (le_trans h1 h)]
    have hpre : takenItems t.keyPoints (n₁ - eKeyPoints t) <+:
        takenItems t.keyPoints (n₂ - eKeyPoints t) :=
      takenItems_mono t.keyPoints (by omega)
    exact prefix_ne_nil
      (((hpre.map unescape).filter (fun p => ¬ p.isEmpty)).map Json.str) hne
  · rw [if_neg h1] at hne
    exact absurd rfl hne

theorem kpAt_isSome_mono (t : TargetSummary) {n₁ n₂ : Nat} (h : n₁ ≤ n₂)
    (hs : (kpAt t.keyPoints (eKeyPoints t) n₁).isSome = true) :
    (kpAt t.keyPoints (eKeyPoints t) n₂).isSome = true := by
  unfold kpAt at hs ⊢
  by_cases h1 : eKeyPoints t ≤ n₁
  · rw [if_pos h1] at hs
    rw [if_pos (le_trans h1 h)]
    split at hs
    · exact absurd hs (by simp)
    · rename_i hne2
      split
      · rename_i heq2
        exact absurd heq2
          (prefix_ne_nil (takenItems_mono t.keyPoints (by omega)) (fun hc => hne2 hc))
      · rfl
  · rw [if_neg h1] at hs
    exact absurd hs (by simp)

theorem jsNE_str_iff (X : List Char) : jsNE (Json.str X) ↔ X ≠ [] := by
  constructor
  · intro h he
    subst he
    exact absurd rfl h
  · intro h hc
    exact h (Json.str.injEq .. ▸ hc)

theorem takenItems_ne_nil {ps : List (List Char)} {k : Nat}
    (h : takenItems ps k ≠ []) : ps ≠ [] := by
  intro he
  subst he
  exact h rfl

theorem epfModel_noRegress (t : TargetSummary) {n₁ n₂ : Nat} (h : n₁ ≤ n₂) :
    NoRegress (epfModel t n₁) (epfModel t n₂) := by
  intro r₁ h₁
  rw [epfModel_eq] at h₁
  split at h₁
  · rename_i hg
    injection h₁ with h₁'
    subst h₁'
    have hg₂ : (fieldAt t.title (eTitle t) n₂).isSome ∨
        (kpAt t.keyPoints (eKeyPoints t) n₂).isSome ∨
        (fieldAt t.methodology (eMethodology t) n₂).isSome ∨
        (fieldAt t.findings (eFindings t) n₂).isSome ∨
        (fieldAt t.implications (eImplications t) n₂).isSome ∨
        (fieldAt t.overallSummary (eOverall t) n₂).isSome := by
      rcases hg with h' | h' | h' | h' | h' | h'
      · exact Or.inl (fieldAt_isSome_mono h h')
      · exact Or.inr (Or.inl (kpAt_isSome_mono t h h'))
      · exact Or.inr (Or.inr (Or.inl (fieldAt_isSome_mono h h')))
      · exact Or.inr (Or.inr (Or.inr (Or.inl (fieldAt_isSome_mono h h'))))
      · exact Or.inr (Or.inr (Or.inr (Or.inr (Or.inl (fieldAt_isSome_mono h h')))))
      · exact Or.inr (Or.inr (Or.inr (Or.inr (Or.inr (fieldAt_isSome_mono h h')))))
    refine ⟨_, by rw [epfModel_eq, if_pos hg₂], ?_, ?_, ?_, ?_, ?_, ?_⟩
    · show jsNE (Json.str ((fieldAt t.title (eTitle t) n₁).getD [])) →
        jsNE (Json.str ((fieldAt t.title (eTitle t) n₂).getD []))
      intro hne
      rw [jsNE_str_iff] at hne ⊢
      exact fieldAt_getD_ne_mono h hne
    · show ((((kpAt t.keyPoints (eKeyPoints t) n₁).getD []).map unescape).filter
          (fun p => ¬ p.isEmpty)).map Json.str ≠ [] →
        ((((kpAt t.keyPoints (eKeyPoints t) n₂).getD []).map unescape).filter
          (fun p => ¬ p.isEmpty)).map Json.str ≠ []
      exact kpList_ne_mono t h
    · show jsNE (Json.str ((fieldAt t.methodology (eMethodology t) n₁).getD [])) →
        jsNE (Json.str ((fieldAt t.methodology (eMethodology t) n₂).getD []))
      intro hne
      rw [jsNE_str_iff] at hne ⊢
      exact fieldAt_getD_ne_mono h hne
    · show jsNE (Json.str ((fieldAt t.findings (eFindings t) n₁).getD [])) →
        jsNE (Json.str ((fieldAt t.findings (eFindings t) n₂).getD []))
      intro hne
      rw [jsNE_str_iff] at hne ⊢
      exact fieldAt_getD_ne_mono h hne
    · show jsNE (Json.str ((fieldAt t.implications (eImplications t) n₁).getD [])) →
        jsNE (Json.str ((fieldAt t.implications (eImplications t) n₂).getD []))
      intro hne
      rw [jsNE_str_iff] at hne ⊢
      exact fieldAt_getD_ne_mono h hne
    · show jsNE (Json.str ((fieldAt t.overallSummary (eOverall t) n₁).getD [])) →
        jsNE (Json.str ((fieldAt t.overallSummary (eOverall t) n₂).getD []))
      intro hne
      rw [jsNE_str_iff] at hne ⊢
      exact fieldAt_getD_ne_mono h hne
  · exact absurd h₁ (by simp)

theorem epfModel_full_noRegress (t : TargetSummary) (n : Nat) :
    NoRegress (epfModel t n) (some (rawOf t)) := by
  intro r₁ h₁
  rw [epfModel_eq] at h₁
  split at h₁
  · rename_i hg
    injection h₁ with h₁'
    subst h₁'
    refine ⟨rawOf t, rfl, ?_, ?_, ?_, ?_, ?_, ?_⟩
    · show jsNE (Json.str ((fieldAt t.title (eTitle t) n).getD [])) →
        jsNE (Json.str t.title)
      intro hne
      rw [jsNE_str_iff] at hne ⊢
      exact fieldAt_getD_ne_full hne
    · show ((((kpAt t.keyPoints (eKeyPoints t) n).getD []).map unescape).filter
          (fun p => ¬ p.isEmpty)).map Json.str ≠ [] →
        t.keyPoints.map Json.str ≠ []
      intro hne
      have hX : (kpAt t.keyPoints (eKeyPoints t) n).getD [] ≠ [] := by
        intro hc
        rw [hc] at hne
        exact hne rfl
      rw [kpAt_getD] at hX
      by_cases h1 : eKeyPoints t ≤ n
      · rw [if_pos h1] at hX
        have hps := takenItems_ne_nil hX
        intro hc
        exact hps (List.map_eq_nil_iff.mp hc)
      · rw [if_neg h1] at hX
        exact absurd rfl hX
    · show jsNE (Json.str ((fieldAt t.methodology (eMethodology t) n).getD [])) →
        jsNE (Json.str t.methodology)
      intro hne
      rw [jsNE_str_iff] at hne ⊢
      exact fieldAt_getD_ne_full hne
    · show jsNE (Json.str ((fieldAt t.findings (eFindings t) n).getD [])) →
        jsNE (Json.str t.findings)
      intro hne
      rw [jsNE_str_iff] at hne ⊢
      exact fieldAt_getD_ne_full hne
    · show jsNE (Json.str ((fieldAt t.implications (eImplications t) n).getD [])) →
        jsNE (Json.str t.implications)
      intro hne
      rw [jsNE_str_iff] at hne ⊢
      exact fieldAt_getD_ne_full hne
    · show jsNE (Json.str ((fieldAt t.overallSummary (eOverall t) n).getD [])) →
        jsNE (Json.str t.overallSummary)
      intro hne
      rw [jsNE_str_iff] at hne ⊢
      exact fieldAt_getD_ne_full hne
  · exact absurd h₁ (by simp)

/-- C1: for every well-formed (plain-character) target summary document,
feeding `parseStreamedResponse` progressively longer prefixes of the
serialized document never regresses a field that a shorter prefix already
extracted as non-empty back to empty, and parsing the complete document
returns exactly the target's field values. -/
theorem reconstructor_prefix_monotone (t : TargetSummary) (hp : plainTarget t = true) :
    (∀ n₁ n₂ : Nat, n₁ ≤ n₂ →
      NoRegress (parseStreamedResponse ((serialize t).take n₁))
        (parseStreamedResponse ((serialize t).take n₂))) ∧
    parseStreamedResponse (serialize t) = some (rawOf t) := by
  have hfull := psr_serialize t hp
  refine ⟨?_, hfull⟩
  intro n₁ n₂ h
  have hcase : ∀ n, parseStreamedResponse ((serialize t).take n) =
      (if n < (serialize t).length then epfModel t n else some (rawOf t)) := by
    intro n
    by_cases hn : n < (serialize t).length
    · rw [if_pos hn, prefix_falls_to_partial t hp n hn, epf_take_model t hp n]
    · rw [if_neg hn, List.take_of_length_le (by omega), hfull]
  rw [hcase n₁, hcase n₂]
  by_cases h₁ : n₁ < (serialize t).length
  · rw [if_pos h₁]
    by_cases h₂ : n₂ < (serialize t).length
    · rw [if_pos h₂]
      exact epfModel_noRegress t h
    · rw [if_neg h₂]
      exact epfModel_full_noRegress t n₁
  · rw [if_neg h₁, if_neg (by omega)]
    intro r₁ hr
    exact ⟨r₁, hr, fun x => x, fun x => x, fun x => x, fun x => x, fun x => x, fun x => x⟩

/-- Witness: a concrete plain target summary on which the monotonicity
theorem applies, with the full-document parse evaluated. -/
theorem reconstructor_prefix_monotone_witness :
    plainTarget ⟨['A'], [['k']], ['m'], ['f'], [], ['s']⟩ = true ∧
    parseStreamedResponse (serialize ⟨['A'], [['k']], ['m'], ['f'], [], ['s']⟩) =
      some (rawOf ⟨['A'], [['k']], ['m'], ['f'], [], ['s']⟩) :=
  ⟨by decide,
    (reconstructor_prefix_monotone ⟨['A'], [['k']], ['m'], ['f'], [], ['s']⟩ (by decide)).2⟩

end PaperReader
